import Mathlib

/-!
Verification of the FDHSimVenice orchestration-and-consistency core.

The definitions below are a shallow embedding of the TypeScript sources:
`src/services/automationService.ts` (lexical utilities, the fallback
matcher, the judge-based matcher, the report builder and the protocol
runner), the diff-statistics module and the step-segment parser from the
generation service.  JavaScript numbers are modelled as exact rationals
(`Qv`, an explicit numerator/denominator pair normalised by gcd so that
all arithmetic reduces inside the Lean kernel); `Number.prototype.toFixed`
is modelled as exact round-half-up at the given number of decimal digits;
string handling is ASCII-faithful.  The external generative oracle is an
injected environment: each kind of call is a function from the call index
to an optional reply, `none` meaning the call rejects.
-/

namespace FDHSim

/-! ### Exact rational numbers standing in for JS floats -/
/-- A rational number kept in normal form (positive denominator, gcd 1).
All JS arithmetic of the consistency core is modelled with these. -/
structure Qv where
  num : Int
  den : Int
deriving DecidableEq, Repr

/-- Smart constructor: normalise sign and divide out the gcd.  A zero
denominator (never produced by the guarded divisions of the source)
collapses to 0. -/
def Qv.norm (n d : Int) : Qv :=
  if d = 0 then ⟨0, 1⟩
  else
    let n' := if d < 0 then -n else n
    let d' := if d < 0 then -d else d
    let g : Int := Int.gcd n' d'
    ⟨n' / g, d' / g⟩

def Qv.ofInt (n : Int) : Qv := ⟨n, 1⟩

def Qv.ofNat (n : Nat) : Qv := ⟨(n : Int), 1⟩

def Qv.zero : Qv := ⟨0, 1⟩

def Qv.one : Qv := ⟨1, 1⟩

def Qv.add (a b : Qv) : Qv := Qv.norm (a.num * b.den + b.num * a.den) (a.den * b.den)

def Qv.sub (a b : Qv) : Qv := Qv.norm (a.num * b.den - b.num * a.den) (a.den * b.den)

def Qv.mul (a b : Qv) : Qv := Qv.norm (a.num * b.num) (a.den * b.den)

def Qv.div (a b : Qv) : Qv := Qv.norm (a.num * b.den) (a.den * b.num)

def Qv.abs (a : Qv) : Qv := ⟨|a.num|, a.den⟩

/-- Order by cross multiplication (denominators are positive by
construction). -/
def Qv.le (a b : Qv) : Prop := a.num * b.den ≤ b.num * a.den

def Qv.lt (a b : Qv) : Prop := a.num * b.den < b.num * a.den

instance (a b : Qv) : Decidable (Qv.le a b) := by
  unfold Qv.le; infer_instance

instance (a b : Qv) : Decidable (Qv.lt a b) := by
  unfold Qv.lt; infer_instance

def Qv.maxv (a b : Qv) : Qv := if Qv.lt a b then b else a

def Qv.minv (a b : Qv) : Qv := if Qv.lt b a then b else a

/-- Round to the nearest integer, halves up: `⌊q + 1/2⌋`. -/
def Qv.roundInt (a : Qv) : Int := Int.fdiv (2 * a.num + a.den) (2 * a.den)

/-- Model of `Number((x).toFixed(k))`: round to `k` decimal digits. -/
def Qv.roundTo (k : Nat) (a : Qv) : Qv :=
  Qv.norm (Qv.roundInt (Qv.mul a (Qv.ofNat (10 ^ k)))) ((10 : Int) ^ k)

/-! ### Lexical utilities (`automationService.ts`, lines 22-69) -/
/-- A character counted as a word character by the tokenizer regex
`/[^a-z0-9]+/i` (applied after lowercasing). -/
def isTokChar (c : Char) : Bool :=
  ('a' ≤ c && c ≤ 'z') || ('0' ≤ c && c ≤ '9')

/-- ASCII model of `String.prototype.toLowerCase`. -/
def lowerChar (c : Char) : Char :=
  if 'A' ≤ c && c ≤ 'Z' then Char.ofNat (c.toNat + 32) else c

def lowerStr (s : String) : String := ⟨s.data.map lowerChar⟩

/-- Split a character list into the maximal runs satisfying `p`,
dropping the separators; the accumulator holds the current run
reversed.  This models `split(regexp).filter(Boolean)`. -/
def chunksBy (p : Char → Bool) : List Char → List Char → List (List Char)
  | [], acc => if acc.isEmpty then [] else [acc.reverse]
  | c :: cs, acc =>
    if p c then chunksBy p cs (c :: acc)
    else if acc.isEmpty then chunksBy p cs []
    else acc.reverse :: chunksBy p cs []

/-- `tokenize` from the source: lowercase, split on non-alphanumeric
runs, drop empty pieces. -/
def tokenize (s : String) : List String :=
  (chunksBy isTokChar (lowerStr s).data []).map String.mk

/-- The token set handed to `jaccard` (a JS `Set` of tokens). -/
def tokenSet (s : String) : Finset String := (tokenize s).toFinset

/-- `jaccard` from the source: `|a ∩ b| / (|a ∪ b| || 1)`. -/
def jaccard (a b : Finset String) : Qv :=
  Qv.norm ((a ∩ b).card : Int) (max ((a ∪ b).card : Int) 1)

/-- JS `a.includes(b)`: `b` occurs as a contiguous substring of `a`. -/
def includesStr (a b : String) : Bool :=
  (a.data.tails.any fun t => b.data.isPrefixOf t)

/-- `quoteOverlapScore` from the source. -/
def quoteOverlapScore (a b : String) : Qv :=
  if a = "" || b = "" then Qv.zero
  else if includesStr a b || includesStr b a then Qv.one
  else jaccard (tokenSet a) (tokenSet b)

/-- The cleaning step of `commentSimilarityScore`: lowercase, strip
characters that are neither alphanumeric nor whitespace, collapse
whitespace runs to single spaces, trim. -/
def cleanComment (s : String) : String :=
  let kept := (lowerStr s).data.filter fun c => isTokChar c || c.isWhitespace
  String.intercalate " " ((chunksBy (fun c => !c.isWhitespace) kept []).map String.mk)

/-- `commentSimilarityScore` from the source. -/
def commentSimilarityScore (a b : String) : Qv :=
  if a = "" || b = "" then Qv.zero
  else
    let ca := cleanComment a
    let cb := cleanComment b
    if ca = "" || cb = "" then Qv.zero
    else if ca = cb || includesStr ca cb || includesStr cb ca then Qv.one
    else jaccard (tokenSet ca) (tokenSet cb)

/-! ### Annotation matching (`automationService.ts`, lines 71-286) -/
/-- The quote/comment payload of an annotation, as consumed by the
matching engine. -/
structure AnnLite where
  quote : String
  comment : String
deriving DecidableEq, Repr

/-- One match produced by `fallbackAnnotationMatches`. -/
structure MatchRec where
  aIndex : Nat
  bIndex : Nat
  reason : String
  quoteScore : Qv
  commentScore : Qv
deriving DecidableEq, Repr

/-- The mutable best-candidate state of the inner `forEach` loop
(`bestIdx = -1` is modelled as `none`). -/
structure BestState where
  bestIdx : Option Nat
  bestScore : Qv
  bestQuote : Qv
  bestComment : Qv
  bestReason : String
deriving DecidableEq, Repr

/-- `(score * 100).toFixed(0)` as used in the reason strings. -/
def pctString (q : Qv) : String := toString (Qv.roundInt (Qv.mul q (Qv.ofNat 100)))

/-- One iteration of the inner loop of `fallbackAnnotationMatches`:
skip consumed B indices, require quote overlap of at least 0.35,
keep the candidate maximising `0.65*quote + 0.35*comment`. -/
def considerB (annA : AnnLite) (usedB : List Nat) (st : BestState)
    (idxB : Nat) (annB : AnnLite) : BestState :=
  if idxB ∈ usedB then st
  else
    let quoteScore := quoteOverlapScore annA.quote annB.quote
    if Qv.lt quoteScore (Qv.norm 7 20) then st
    else
      let commentScore := commentSimilarityScore annA.comment annB.comment
      let combined := Qv.add (Qv.mul quoteScore (Qv.norm 13 20)) (Qv.mul commentScore (Qv.norm 7 20))
      if Qv.lt st.bestScore combined then
        { bestIdx := some idxB, bestScore := combined, bestQuote := quoteScore,
          bestComment := commentScore,
          bestReason := "Quote overlap " ++ pctString quoteScore ++
            "%, comment similarity " ++ pctString commentScore ++ "%" }
      else st

/-- The inner `annsB.forEach` loop, walking the B list with its index. -/
def bestForAux (annA : AnnLite) (usedB : List Nat) :
    Nat → List AnnLite → BestState → BestState
  | _, [], st => st
  | i, b :: rest, st => bestForAux annA usedB (i + 1) rest (considerB annA usedB st i b)

def bestFor (annA : AnnLite) (annsB : List AnnLite) (usedB : List Nat) : BestState :=
  bestForAux annA usedB 0 annsB ⟨none, Qv.zero, Qv.zero, Qv.zero, ""⟩

/-- The outer `annsA.forEach` loop of `fallbackAnnotationMatches`,
accumulating matches and the set of consumed B indices. -/
def fallbackAux (annsB : List AnnLite) :
    Nat → List AnnLite → List MatchRec → List Nat → List MatchRec
  | _, [], ms, _ => ms
  | i, a :: rest, ms, usedB =>
    match (bestFor a annsB usedB).bestIdx with
    | none => fallbackAux annsB (i + 1) rest ms usedB
    | some bIdx =>
        fallbackAux annsB (i + 1) rest
          (ms ++ [⟨i, bIdx, (bestFor a annsB usedB).bestReason,
            (bestFor a annsB usedB).bestQuote, (bestFor a annsB usedB).bestComment⟩])
          (bIdx :: usedB)

/-- `fallbackAnnotationMatches` from the source. -/
def fallbackAnnotationMatches (annsA annsB : List AnnLite) : List MatchRec :=
  fallbackAux annsB 0 annsA [] []

/-- A match as it lives after the judge's integrity filter (and the
shape shared with fallback matches when the report consumes them). -/
structure MatchTriple where
  aIndex : Nat
  bIndex : Nat
  reason : String
deriving DecidableEq, Repr

def MatchRec.toTriple (m : MatchRec) : MatchTriple := ⟨m.aIndex, m.bIndex, m.reason⟩

/-- A raw match as decoded from the judge oracle's JSON before the
integrity filter.  `none` in an index position models a value that
`Number(...)` turns into `NaN`; a fractional `Qv` models a non-integer
number. -/
structure RawMatch where
  aIndex : Option Qv
  bIndex : Option Qv
  reason : String
deriving DecidableEq, Repr

/-- Is this decoded value an in-range non-negative integer index? -/
def okIndex (len : Nat) (v : Option Qv) : Bool :=
  match v with
  | none => false
  | some q => q.den = 1 && 0 ≤ q.num && q.num < (len : Int)

/-- The integrity filter of `matchAnnotationsWithGemini`: keep pairs
whose two indices are integers in range of the respective lists. -/
def cleanJudgeMatches (lenA lenB : Nat) (raw : List RawMatch) : List MatchTriple :=
  (raw.filter fun m => okIndex lenA m.aIndex && okIndex lenB m.bIndex).map fun m =>
    ⟨(Option.getD m.aIndex Qv.zero).num.toNat, (Option.getD m.bIndex Qv.zero).num.toNat, m.reason⟩

/-- Result of the judge call: the filtered matches plus the optional
`note` field. -/
structure JudgeOut where
  matchList : List MatchTriple
  note : Option String
deriving DecidableEq, Repr

/-- `matchAnnotationsWithGemini` from the source, with the oracle
round-trip (prompt assembly, `generateNarrative`, `safeJsonParse`)
abstracted into the injected `reply`: `none` models a rejected call,
`some raw` the parsed `matches` array (empty when unparsable).  Empty
input lists short-circuit without calling the oracle; a rejected call
degrades to zero matches. -/
def matchAnnotationsWithGemini (annsA annsB : List AnnLite)
    (reply : Option (List RawMatch)) : JudgeOut :=
  if annsA.length = 0 || annsB.length = 0 then
    ⟨[], some "No annotations to compare."⟩
  else
    match reply with
    | none => ⟨[], some "Gemini comparison failed, fallback used."⟩
    | some raw =>
        let cleaned := cleanJudgeMatches annsA.length annsB.length raw
        ⟨cleaned, (cleaned.head?).map MatchTriple.reason⟩

/-- The numeric annotation-consistency metrics derived from a match
list (`compareAnnotations`, lines 248-275). -/
structure AnnMetrics where
  shared : Nat
  onlyA : Nat
  onlyB : Nat
  sharedFraction : Qv
  averageQuoteOverlap : Qv
  averageCommentSimilarity : Qv
deriving DecidableEq, Repr

/-- The metric computation of `compareAnnotations` over a given match
list: counts, shared fraction, and the averages recomputed with the
heuristic scoring functions. -/
def metricsOfMatches (annsA annsB : List AnnLite) (ms : List MatchTriple) : AnnMetrics :=
  let matchedB := (ms.map MatchTriple.bIndex).dedup
  let shared := ms.length
  let onlyA := annsA.length - shared
  let onlyB := annsB.length - matchedB.length
  let sharedFraction :=
    if 0 < max annsA.length annsB.length then
      Qv.norm (shared : Int) (max annsA.length annsB.length : Int)
    else Qv.zero
  let totalQuote := ms.foldl
    (fun acc m => Qv.add acc (quoteOverlapScore
      (annsA.getD m.aIndex ⟨"", ""⟩).quote (annsB.getD m.bIndex ⟨"", ""⟩).quote))
    Qv.zero
  let totalComment := ms.foldl
    (fun acc m => Qv.add acc (commentSimilarityScore
      (annsA.getD m.aIndex ⟨"", ""⟩).comment (annsB.getD m.bIndex ⟨"", ""⟩).comment))
    Qv.zero
  { shared := shared
    onlyA := onlyA
    onlyB := onlyB
    sharedFraction := sharedFraction
    averageQuoteOverlap :=
      if 0 < shared then Qv.roundTo 3 (Qv.div totalQuote (Qv.ofNat shared)) else Qv.zero
    averageCommentSimilarity :=
      if 0 < shared then Qv.roundTo 3 (Qv.div totalComment (Qv.ofNat shared)) else Qv.zero }

/-- The full result of `compareAnnotations`. -/
structure CompareOut where
  shared : Nat
  onlyA : Nat
  onlyB : Nat
  sharedFraction : Qv
  note : String
  averageQuoteOverlap : Qv
  averageCommentSimilarity : Qv
deriving DecidableEq, Repr

def CompareOut.toMetrics (c : CompareOut) : AnnMetrics :=
  ⟨c.shared, c.onlyA, c.onlyB, c.sharedFraction, c.averageQuoteOverlap, c.averageCommentSimilarity⟩

/-- `compareAnnotations` from the source: always compute the heuristic
fallback, let a non-empty judged result override it, then derive the
metrics from whichever match list won. -/
def compareAnnotations (annsA annsB : List AnnLite)
    (reply : Option (List RawMatch)) : CompareOut :=
  let fallback := fallbackAnnotationMatches annsA annsB
  let note0 := ((fallback.head?).map MatchRec.reason).getD ""
  let llm := matchAnnotationsWithGemini annsA annsB reply
  let chosen :=
    if 0 < llm.matchList.length then llm.matchList else fallback.map MatchRec.toTriple
  let note :=
    if 0 < llm.matchList.length then
      match llm.note with
      | some s => if s = "" then note0 else s
      | none => note0
    else note0
  let m := metricsOfMatches annsA annsB chosen
  { shared := m.shared, onlyA := m.onlyA, onlyB := m.onlyB,
    sharedFraction := m.sharedFraction, note := note,
    averageQuoteOverlap := m.averageQuoteOverlap,
    averageCommentSimilarity := m.averageCommentSimilarity }

/-! ### Claim C9: the fallback matcher is a one-to-one partial matching -/
/-- What the inner loop guarantees about its best-candidate state:
any selected index is in range, unconsumed, and its recorded quote
score is the (at least 0.35) heuristic quote overlap. -/
def GoodBest (annA : AnnLite) (annsB : List AnnLite) (usedB : List Nat)
    (st : BestState) : Prop :=
  ∀ j, st.bestIdx = some j →
    j < annsB.length ∧ j ∉ usedB ∧
    st.bestQuote = quoteOverlapScore annA.quote ((annsB.getD j ⟨"", ""⟩).quote) ∧
    Qv.le (Qv.norm 7 20) st.bestQuote

/-- The invariant carried through the outer loop of
`fallbackAnnotationMatches`. -/
def FallbackInv (annsA annsB : List AnnLite) (i : Nat)
    (ms : List MatchRec) (usedB : List Nat) : Prop :=
  usedB = (ms.map MatchRec.bIndex).reverse ∧
  (ms.map MatchRec.aIndex).Pairwise (· < ·) ∧
  (ms.map MatchRec.bIndex).Nodup ∧
  ∀ m ∈ ms, m.aIndex < i ∧ m.bIndex < annsB.length ∧
    Qv.le (Qv.norm 7 20)
      (quoteOverlapScore ((annsA.getD m.aIndex ⟨"", ""⟩).quote)
        ((annsB.getD m.bIndex ⟨"", ""⟩).quote))

/-- The conclusion drawn about a finished match list, with `n` the
number of A entries processed. -/
def FallbackPost (annsA annsB : List AnnLite) (n : Nat) (ms : List MatchRec) : Prop :=
  (ms.map MatchRec.aIndex).Pairwise (· < ·) ∧
  (ms.map MatchRec.bIndex).Nodup ∧
  ∀ m ∈ ms, m.aIndex < n ∧ m.bIndex < annsB.length ∧
    Qv.le (Qv.norm 7 20)
      (quoteOverlapScore ((annsA.getD m.aIndex ⟨"", ""⟩).quote)
        ((annsB.getD m.bIndex ⟨"", ""⟩).quote))

/-! ### Diff statistics (`diffService.ts`, with a spec-modelled differ) -/
/-- One part of a word diff, shaped like the `DiffPart` interface of
`diffService.ts` (`value` plus optional `added`/`removed` flags). -/
structure DiffPart where
  value : String
  added : Bool
  removed : Bool
deriving DecidableEq, Repr

/-- A token-level diff part (one word/whitespace/punctuation run). -/
inductive TokPart where
  | common (t : List Char)
  | added (t : List Char)
  | removed (t : List Char)
deriving DecidableEq, Repr

/-- A word character in the sense of the word differ (ASCII model). -/
def isWordChar (c : Char) : Bool := c.isAlphanum || c = '_'

/-- Token class used to form maximal runs: word, whitespace, other. -/
def wordClass (c : Char) : Nat :=
  if isWordChar c then 0 else if c.isWhitespace then 1 else 2

/-- Split characters into maximal runs of one class, keeping every
character (the accumulator holds the current run reversed). -/
def splitRunsAux : List Char → List Char → List (List Char)
  | [], acc => if acc.isEmpty then [] else [acc.reverse]
  | c :: cs, acc =>
    match acc with
    | [] => splitRunsAux cs [c]
    | a :: _ =>
      if wordClass a = wordClass c then splitRunsAux cs (c :: acc)
      else acc.reverse :: splitRunsAux cs [c]

def splitWords (cs : List Char) : List (List Char) := splitRunsAux cs []

/-- Number of changed (added or removed) parts of a token diff. -/
def changedCountT (ps : List TokPart) : Nat :=
  (ps.filter fun p => match p with | .common _ => false | _ => true).length

/-- Modelled from the spec: the underlying word-level text differ
(the npm `diff` package's `diffWords`, an external dependency that is
not part of this repository) is "assumed as a standard LCS-style
primitive".  This is a reference LCS diff over token runs: equal heads
are emitted as common, otherwise the candidate with fewer changed
parts is chosen.  (Adjacent changed runs are emitted token-per-token
rather than coalesced; the statistics claims do not depend on the
grouping.) -/
def diffAux (x : List Char) (xs : List (List Char))
    (diffXs : List (List Char) → List TokPart) : List (List Char) → List TokPart
  | [] => (x :: xs).map TokPart.removed
  | y :: ys =>
    if x = y then TokPart.common x :: diffXs ys
    else
      let d1 := TokPart.removed x :: diffXs (y :: ys)
      let d2 := TokPart.added y :: diffAux x xs diffXs ys
      if changedCountT d1 ≤ changedCountT d2 then d1 else d2

def diffTokens : List (List Char) → List (List Char) → List TokPart
  | [], ys => ys.map TokPart.added
  | x :: xs, ys => diffAux x xs (diffTokens xs) ys

/-- The `\r\n → \n` normalisation of `calculateDiff`, scanning left to
right like `String.prototype.replace` with a global regex. -/
def replaceCRLF : List Char → List Char
  | [] => []
  | c :: rest =>
    if c = '\r' then
      match rest with
      | '\n' :: rest2 => '\n' :: replaceCRLF rest2
      | other => c :: replaceCRLF other
    else c :: replaceCRLF rest

def TokPart.toDiffPart : TokPart → DiffPart
  | .common t => ⟨String.mk t, false, false⟩
  | .added t => ⟨String.mk t, true, false⟩
  | .removed t => ⟨String.mk t, false, true⟩

/-- `calculateDiff` from `diffService.ts`: empty-side short circuits,
then CRLF normalisation, then the word diff. -/
def calculateDiff (oldText newText : String) : List DiffPart :=
  if oldText = "" ∧ newText = "" then []
  else if oldText = "" then [⟨newText, true, false⟩]
  else if newText = "" then [⟨oldText, false, true⟩]
  else
    (diffTokens (splitWords (replaceCRLF oldText.data))
      (splitWords (replaceCRLF newText.data))).map TokPart.toDiffPart

/-- Sum of the `value` lengths of the added parts. -/
def addedLen (parts : List DiffPart) : Nat :=
  ((parts.filter fun p => p.added).map fun p => p.value.length).sum

/-- Sum of the `value` lengths of the removed (and not added) parts,
mirroring the `else if` of the source. -/
def removedLen (parts : List DiffPart) : Nat :=
  ((parts.filter fun p => !p.added && p.removed).map fun p => p.value.length).sum

/-- The diff statistics record (`DiffStats` in `types.ts`; the source
field `changeRatio` is spelled `changeRatioQ` here). -/
structure DiffStats where
  additions : Nat
  deletions : Nat
  addedLength : Nat
  removedLength : Nat
  changeRatioQ : Qv
deriving DecidableEq, Repr

/-- The denominator `newText.length || 1` of the change ratio. -/
def diffTotalLen (newText : String) : Nat :=
  if newText.length = 0 then 1 else newText.length

/-- The change ratio before the `toFixed(4)` rounding. -/
def rawChangeRatio (oldText newText : String) : Qv :=
  Qv.norm
    ((addedLen (calculateDiff oldText newText)
      + removedLen (calculateDiff oldText newText) : Nat) : Int)
    ((diffTotalLen newText : Nat) : Int)

/-- `calculateDiffStats` from `diffService.ts`. -/
def calculateDiffStats (oldText newText : String) : DiffStats :=
  let parts := calculateDiff oldText newText
  { additions := (parts.filter fun p => p.added).length
    deletions := (parts.filter fun p => !p.added && p.removed).length
    addedLength := addedLen parts
    removedLength := removedLen parts
    changeRatioQ := Qv.roundTo 4 (rawChangeRatio oldText newText) }

/-! ### Claim C4: properties of the diff statistics -/
def TokPart.changedLen : TokPart → Nat
  | .common _ => 0
  | .added t => t.length
  | .removed t => t.length

/-- Total length of added and removed payloads of a token diff. -/
def changedLenT (ps : List TokPart) : Nat := (ps.map TokPart.changedLen).sum

/-! ### Step-segment parsing (`geminiService.ts`: `normalizeStepTags`,
`parseStepByStepSegments`) -/
/-- JS `String.prototype.trim` on a character list. -/
def charTrim (cs : List Char) : List Char :=
  ((cs.dropWhile Char.isWhitespace).reverse.dropWhile Char.isWhitespace).reverse

/-- Case-insensitive literal match: strip `pat` from the front of `cs`
(ASCII case folding), returning the rest. -/
def stripCI : List Char → List Char → Option (List Char)
  | [], cs => some cs
  | _, [] => none
  | p :: ps, c :: cs => if lowerChar p = lowerChar c then stripCI ps cs else none

/-- Try to match `\s*` followed by the fragment `kw` at this position. -/
def matchFragAt (kw : List Char) (cs : List Char) : Option (List Char) :=
  stripCI kw (cs.dropWhile Char.isWhitespace)

/-- One `ensureBracket` pass of `normalizeStepTags`: a global
case-insensitive replace of `(^|[^\[])\s*KW` by the prefix character
followed by `tag`, scanning left to right and resuming after each
match (`atStart` tracks whether `^` can still match).  The fuel is one
unit per consumed character, so `length + 1` always suffices. -/
def ensurePassAux (kw tag : List Char) : Nat → Bool → List Char → List Char
  | 0, _, cs => cs
  | _ + 1, _, [] => []
  | fuel + 1, atStart, c :: rest =>
    if atStart then
      match matchFragAt kw (c :: rest) with
      | some rest2 => tag ++ ensurePassAux kw tag fuel false rest2
      | none =>
        if c ≠ '[' then
          match matchFragAt kw rest with
          | some rest2 => c :: (tag ++ ensurePassAux kw tag fuel false rest2)
          | none => c :: ensurePassAux kw tag fuel false rest
        else c :: ensurePassAux kw tag fuel false rest
    else
      if c ≠ '[' then
        match matchFragAt kw rest with
        | some rest2 => c :: (tag ++ ensurePassAux kw tag fuel false rest2)
        | none => c :: ensurePassAux kw tag fuel false rest
      else c :: ensurePassAux kw tag fuel false rest

def ensurePass (kw tag : String) (cs : List Char) : List Char :=
  ensurePassAux kw.data tag.data (cs.length + 1) true cs

/-- `normalizeStepTags` from the source: four sequential global
replaces recovering `[[THOUGHT]]`, `[[/THOUGHT]]`, `[[TEXT]]`,
`[[/TEXT]]` from fragments missing their opening brackets. -/
def normalizeStepTags (input : String) : String :=
  let p1 := ensurePass "THOUGHT]]" "[[THOUGHT]]" input.data
  let p2 := ensurePass "/THOUGHT]]" "[[/THOUGHT]]" p1
  let p3 := ensurePass "TEXT]]" "[[TEXT]]" p2
  let p4 := ensurePass "/TEXT]]" "[[/TEXT]]" p3
  String.mk p4

/-- A token of the tag scan: a (single-character) content chunk or a
recognised tag (`closing?`, `thought?`). -/
inductive StepTok where
  | chunk (s : List Char)
  | tag (closing : Bool) (isThought : Bool)
deriving DecidableEq, Repr

def StepTok.isChunk : StepTok → Bool
  | .chunk _ => true
  | .tag _ _ => false

/-- Try to match the tag regex `\[\[\s*(\/)?\s*(THOUGHT|TEXT)\s*\]\]`
at this position, returning the closing flag, the tag name and the
rest of the input. -/
def matchTagAt (cs : List Char) : Option (Bool × Bool × List Char) :=
  match stripCI "[[".data cs with
  | none => none
  | some cs1 =>
    let cs2 := cs1.dropWhile Char.isWhitespace
    let (closing, cs3) :=
      match cs2 with
      | '/' :: cs3 => (true, cs3)
      | _ => (false, cs2)
    let cs4 := cs3.dropWhile Char.isWhitespace
    match stripCI "THOUGHT".data cs4 with
    | some cs5 =>
      match stripCI "]]".data (cs5.dropWhile Char.isWhitespace) with
      | some cs6 => some (closing, true, cs6)
      | none => none
    | none =>
      match stripCI "TEXT".data cs4 with
      | some cs5 =>
        match stripCI "]]".data (cs5.dropWhile Char.isWhitespace) with
        | some cs6 => some (closing, false, cs6)
        | none => none
      | none => none

/-- Scan the input for tag-regex matches, emitting unmatched characters
as single-character chunks (the parser concatenates chunks exactly as
the source concatenates slice-between-match content). -/
def lexTagsAux : Nat → List Char → List StepTok
  | 0, _ => []
  | _ + 1, [] => []
  | fuel + 1, c :: rest =>
    match matchTagAt (c :: rest) with
    | some (closing, isTh, rest2) => .tag closing isTh :: lexTagsAux fuel rest2
    | none => .chunk [c] :: lexTagsAux fuel rest

def lexStepTags (cs : List Char) : List StepTok := lexTagsAux (cs.length + 1) cs

/-- One recovered segment. -/
structure ParsedSeg where
  thought : String
  text : String
deriving DecidableEq, Repr

/-- The mutable state of the recovery loop. -/
structure PState where
  currentThought : List Char
  currentText : List Char
  readingThought : Bool
  readingText : Bool
  segments : List ParsedSeg
deriving DecidableEq, Repr

def PState.init : PState := ⟨[], [], false, false, []⟩

/-- `flushSegment` from the source: push the trimmed pair when it is
non-empty and reset the reading state. -/
def flushSegment (st : PState) : PState :=
  let th := charTrim st.currentThought
  let tx := charTrim st.currentText
  { currentThought := [], currentText := [], readingThought := false, readingText := false,
    segments :=
      if !th.isEmpty || !tx.isEmpty then st.segments ++ [⟨String.mk th, String.mk tx⟩]
      else st.segments }

/-- One step of the recovery state machine, exactly following the
branch structure of the source loop. -/
def processTok (st : PState) : StepTok → PState
  | .chunk s =>
    if st.readingThought then { st with currentThought := st.currentThought ++ s }
    else if st.readingText then { st with currentText := st.currentText ++ s }
    else st
  | .tag false true =>
    let st1 :=
      if st.readingText || !(charTrim st.currentText).isEmpty then flushSegment st else st
    { st1 with readingThought := true, readingText := false }
  | .tag false false =>
    let st1 :=
      if st.readingText &&
          (!(charTrim st.currentThought).isEmpty || !(charTrim st.currentText).isEmpty) then
        flushSegment st
      else st
    let st2 :=
      if st1.readingThought && (charTrim st1.currentText).isEmpty then
        { st1 with readingThought := false }
      else st1
    { st2 with readingText := true }
  | .tag true true => { st with readingThought := false }
  | .tag true false =>
    if st.readingThought && !st.readingText && (charTrim st.currentText).isEmpty then
      { st with readingThought := false }
    else if st.readingText then flushSegment { st with readingText := false }
    else if !(charTrim st.currentThought).isEmpty || !(charTrim st.currentText).isEmpty then
      flushSegment st
    else st

/-- `parseStepByStepSegments` from the source: normalise, scan, run the
recovery machine, flush any trailing content, and fall back to one
untraced segment holding the whole trimmed normalised input when no
segment was recovered. -/
def parseStepByStepSegments (input : String) : List ParsedSeg :=
  let normalized := normalizeStepTags input
  let toks := lexStepTags normalized.data
  let stF := toks.foldl processTok PState.init
  let stG :=
    if !(charTrim stF.currentThought).isEmpty || !(charTrim stF.currentText).isEmpty then
      flushSegment stF
    else stF
  if stG.segments.isEmpty && !(charTrim normalized.data).isEmpty then
    [⟨"", String.mk (charTrim normalized.data)⟩]
  else stG.segments

/-! ### Protocol runner data model (`types.ts`, `automationService.ts`)

The runner is embedded as explicit state passing: `St` carries the
fresh-uuid counter and per-oracle call counters, `OracleEnv` injects
the external oracle replies (indexed by call number, `none` = the call
rejects), and execution yields an event trace (`Ev`): oracle calls,
pacing delays, `onStepAppended` publications and `onRunStatusChanged`
transitions.  Wall-clock timestamps, prompt assembly
(`buildFullPrompt`) and the step-by-step reasoning-trace
post-processing inside `generateNarrative` (verified separately above)
are outside this embedding; oracle replies are injected at the parsed
level. -/
inductive GenerationMethod where
  | standard
  | stepByStep
  | refineLoop
deriving DecidableEq, Repr

inductive ExperimentType where
  | convergence
  | comparative
  | ablation
  | consistencyText
  | consistencyAnn
  | custom
deriving DecidableEq, Repr

structure TokenUsage where
  promptTokens : Nat
  outputTokens : Nat
  totalTokens : Nat
deriving DecidableEq, Repr

structure LlmCallUsage where
  modelId : String
  role : String
  promptTokens : Nat
  outputTokens : Nat
  totalTokens : Nat
deriving DecidableEq, Repr

structure StepUsageMeta where
  runId : String
  runLabel : String
  stepNumber : Nat
  iteration : Nat
  method : GenerationMethod
deriving DecidableEq, Repr

structure StepTokenUsage where
  calls : List LlmCallUsage
  aggregate : TokenUsage
  meta : Option StepUsageMeta
deriving DecidableEq, Repr

structure RefinementConfig where
  includeOriginalText : Bool
  includeAiAnnotations : Bool
  includeHumanAnnotations : Bool
  activeResourceIds : List String
deriving DecidableEq, Repr

structure EvalCategory where
  id : String
  name : String
  description : String
deriving DecidableEq, Repr

structure Resource where
  id : String
  name : String
  content : String
  rtype : String
  enabled : Bool
deriving DecidableEq, Repr

/-- A materialised annotation on a document node (timestamps are
outside the embedding). -/
structure Ann where
  id : Nat
  quote : String
  level : String
  comment : String
  sourceId : Option String
  sourceQuote : Option String
  relatedVariant : Option String
  relatedQuote : Option String
  originHint : Option String
  author : String
  confirmations : List String
  refutations : List String
deriving DecidableEq, Repr

/-- A document node (`DocumentVersion`); prompt-assembly snapshot,
step config, grounding entries and timestamps are outside the
embedding. -/
structure Node where
  id : Nat
  parentId : Option Nat
  content : String
  thoughts : Option (List String)
  modelId : String
  method : GenerationMethod
  systemPromptSnapshot : String
  taskPromptSnapshot : String
  refinementConfig : Option RefinementConfig
  activeResourceIds : List String
  tokenUsage : Option StepTokenUsage
  experimentId : Option String
  runId : Option String
  runLabel : Option String
  diffStats : Option DiffStats
  anns : List Ann
  scores : List (String × Qv)
deriving DecidableEq, Repr

structure ExperimentConfig where
  id : String
  etype : ExperimentType
  iterations : Nat
  runCount : Nat
  delaySeconds : Nat
  generatorModelId : String
  evaluatorModelId : String
  systemPrompt : String
  taskPrompt : String
  stepPrompt : Option String
  refinePrompt : String
  evaluatorPrompt : String
  refineConfig : Option RefinementConfig
  activeResourceIds : List String
  evaluationCategories : List EvalCategory
deriving DecidableEq, Repr

/-- Reply of the generation oracle (at the parsed level). -/
structure GenResult where
  text : String
  thoughts : List String
  tokenUsage : Option TokenUsage
deriving DecidableEq, Repr

/-- An annotation candidate from the evaluation oracle. -/
structure AnnCand where
  quote : String
  level : String
  comment : String
  sourceId : Option String
  sourceQuote : Option String
deriving DecidableEq, Repr

/-- Reply of the evaluation oracle; a raw score value of `none` models
a non-numeric/NaN entry. -/
structure EvalResult where
  cands : List AnnCand
  scores : List (String × Option Qv)
  tokenUsage : Option TokenUsage
deriving DecidableEq, Repr

/-- A highlight annotation as decoded from the highlighting oracle
(`quote` is already defaulted to `""`; `none` models a missing
field). -/
structure HlAnn where
  htype : String
  quote : String
  comment : Option String
  relatedVariant : Option String
  relatedQuote : Option String
  sourceQuote : Option String
deriving DecidableEq, Repr

/-- The injected oracle: per-role replies indexed by the number of
calls of that role already made; `none` models a rejected call. -/
structure OracleEnv where
  genReply : Nat → Option GenResult
  evalReply : Nat → Option EvalResult
  judgeReply : Nat → Option (List RawMatch)
  highlightReply : Option (List (String × List HlAnn))
  commentReply : Option String
  runIdFor : String → Nat → String

/-- Mutable counters threaded through an execution. -/
structure St where
  uuid : Nat
  genCalls : Nat
  evalCalls : Nat
  judgeCalls : Nat
deriving DecidableEq, Repr

inductive OracleRole where
  | generationO
  | evaluationO
  | judgeO
  | highlightO
  | commentaryO
deriving DecidableEq, Repr

inductive RunStatus where
  | running
  | completed
  | failed
deriving DecidableEq, Repr

/-- Observable events of a protocol execution, in order. -/
inductive Ev where
  | callEv (r : OracleRole)
  | delayEv
  | publishEv (runId : String) (n : Node)
  | statusEv (runId : String) (s : RunStatus)
deriving DecidableEq, Repr

def publishedNodes (evs : List Ev) : List Node :=
  evs.filterMap fun e =>
    match e with
    | .publishEv _ n => some n
    | _ => none

def countCalls (r : OracleRole) (evs : List Ev) : Nat :=
  (evs.filter fun e => e = Ev.callEv r).length

def countRunning (evs : List Ev) : Nat :=
  (evs.filter fun e =>
    match e with
    | .statusEv _ .running => true
    | _ => false).length

/-- JS object-style insert: update an existing key in place, else
append. -/
def upsert (k : String) (v : Qv) : List (String × Qv) → List (String × Qv)
  | [] => [(k, v)]
  | (k2, v2) :: rest => if k2 = k then (k, v) :: rest else (k2, v2) :: upsert k v rest

/-- `normalizeScores` from the source: drop non-numeric entries, remap
each raw key onto a category id by id-or-name match (falling back to
the raw key), and store the value under the reserved `AI` rater (the
map being category id to AI score here, the only rater the runner ever
writes). -/
def normalizeScores (cats : List EvalCategory)
    (raw : List (String × Option Qv)) : List (String × Qv) :=
  raw.foldl
    (fun acc kv =>
      match kv.2 with
      | none => acc
      | some q =>
        let catId :=
          match cats.find? fun c => c.id = kv.1 || c.name = kv.1 with
          | some c => if c.id = "" then kv.1 else c.id
          | none => kv.1
        upsert catId q acc)
    []

/-- `buildStepTokenUsage` from the source. -/
def buildStepTokenUsage (generatorModelId evaluatorModelId : String)
    (genUsage evalUsage : Option TokenUsage) (meta : Option StepUsageMeta) :
    Option StepTokenUsage :=
  let calls : List LlmCallUsage :=
    (match genUsage with
     | some u => [⟨generatorModelId, "generator", u.promptTokens, u.outputTokens, u.totalTokens⟩]
     | none => []) ++
    (match evalUsage with
     | some u => [⟨evaluatorModelId, "evaluator", u.promptTokens, u.outputTokens, u.totalTokens⟩]
     | none => [])
  if calls.length = 0 then none
  else
    let aggregate := calls.foldl
      (fun acc c => ⟨acc.promptTokens + c.promptTokens, acc.outputTokens + c.outputTokens,
        acc.totalTokens + c.totalTokens⟩)
      ⟨0, 0, 0⟩
    some ⟨calls, aggregate, meta⟩

/-- Materialise evaluator candidates into annotations with fresh ids,
automated-evaluator authorship and empty confirmation/refutation sets,
threading the uuid counter. -/
def materializeAnns (author : String) : List AnnCand → Nat → List Ann × Nat
  | [], u => ([], u)
  | c :: rest, u =>
    let (others, u2) := materializeAnns author rest (u + 1)
    (⟨u, c.quote, c.level, c.comment, c.sourceId, c.sourceQuote, none, none, none,
      author, [], []⟩ :: others, u2)

/-- `runGenerationStep` from the source: select the method and task
prompt, call the generation oracle, pace, compute diff statistics when
refining, call the evaluation oracle, pace, fuse token usage and
materialise the node.  A generation rejection propagates (no node);
the evaluator catches its own oracle failure and yields empty
annotations and scores, so the step completes either way and the
pacing delay after the evaluation call always runs. -/
def runGenerationStep (env : OracleEnv) (cfg : ExperimentConfig)
    (runId runLabel : String) (previousStep : Option Node)
    (activeResourceIds : List String) (methodOverride : Option GenerationMethod)
    (stepNumber iteration : Nat) (st : St) : List Ev × Option (Node × St) :=
  let method : GenerationMethod :=
    match previousStep, methodOverride with
    | some _, _ => .refineLoop
    | none, some m => m
    | none, none => .standard
  let taskPrompt : String :=
    match previousStep, methodOverride with
    | some _, _ => cfg.refinePrompt
    | none, some .stepByStep =>
      match cfg.stepPrompt with
      | some p => if p = "" then cfg.taskPrompt else p
      | none => cfg.taskPrompt
    | none, _ => cfg.taskPrompt
  let refineSettings : RefinementConfig :=
    { includeOriginalText := (cfg.refineConfig.map (·.includeOriginalText)).getD true
      includeAiAnnotations := (cfg.refineConfig.map (·.includeAiAnnotations)).getD true
      includeHumanAnnotations := (cfg.refineConfig.map (·.includeHumanAnnotations)).getD false
      activeResourceIds := (cfg.refineConfig.map (·.activeResourceIds)).getD activeResourceIds }
  match env.genReply st.genCalls with
  | none => ([Ev.callEv .generationO], none)
  | some gr =>
    let st1 : St := { st with genCalls := st.genCalls + 1 }
    let stats : Option DiffStats :=
      match method, previousStep with
      | .refineLoop, some prev => some (calculateDiffStats prev.content gr.text)
      | _, _ => none
    let er : EvalResult := (env.evalReply st1.evalCalls).getD ⟨[], [], none⟩
    let st2 : St := { st1 with evalCalls := st1.evalCalls + 1 }
    let stepTokenUsage := buildStepTokenUsage cfg.generatorModelId cfg.evaluatorModelId
      gr.tokenUsage er.tokenUsage
      (some ⟨runId, runLabel, stepNumber, iteration, method⟩)
    let (anns, u2) := materializeAnns "AI_EVALUATOR" er.cands (st2.uuid + 1)
    let node : Node :=
      { id := st2.uuid
        parentId := previousStep.map (·.id)
        content := gr.text
        thoughts := some gr.thoughts
        modelId := cfg.generatorModelId
        method := method
        systemPromptSnapshot := cfg.systemPrompt
        taskPromptSnapshot := taskPrompt
        refinementConfig := some refineSettings
        activeResourceIds := refineSettings.activeResourceIds
        tokenUsage := stepTokenUsage
        experimentId := some cfg.id
        runId := some runId
        runLabel := some runLabel
        diffStats := stats
        anns := anns
        scores := normalizeScores cfg.evaluationCategories er.scores }
    ([Ev.callEv .generationO, Ev.delayEv, Ev.callEv .evaluationO, Ev.delayEv],
      some (node, { st2 with uuid := u2 }))

/-- The refinement iterations of `executeRefinementLoop`. -/
def refineLoopAux (env : OracleEnv) (cfg : ExperimentConfig) (runId runLabel : String)
    (activeResourceIds : List String) :
    Nat → Nat → Nat → Node → St → List Ev × Option St
  | 0, _, _, _, st => ([], some st)
  | k + 1, stepNumber, iteration, current, st =>
    match runGenerationStep env cfg runId runLabel (some current) activeResourceIds
        (some .refineLoop) (stepNumber + 1) (iteration + 1) st with
    | (ev, none) => (ev, none)
    | (ev, some (nd, st2)) =>
      let (evs, r) := refineLoopAux env cfg runId runLabel activeResourceIds
        k (stepNumber + 1) (iteration + 1) nd st2
      (ev ++ [Ev.publishEv runId nd] ++ evs, r)

/-- `executeRefinementLoop` from the source: a seed step with the
standard method, then `config.iterations` chained refinement steps,
each published as it is produced. -/
def executeRefinementLoop (env : OracleEnv) (cfg : ExperimentConfig)
    (runId runLabel : String) (activeResourceIds : List String) (st : St) :
    List Ev × Option St :=
  match runGenerationStep env cfg runId runLabel none activeResourceIds
      (some .standard) 1 0 st with
  | (ev, none) => (ev, none)
  | (ev, some (seed, st1)) =>
    let (evs, r) := refineLoopAux env cfg runId runLabel activeResourceIds
      cfg.iterations 1 0 seed st1
    (ev ++ [Ev.publishEv runId seed] ++ evs, r)

/-- `executeStepByStep` from the source: one step-by-step generation
step, published. -/
def executeStepByStep (env : OracleEnv) (cfg : ExperimentConfig)
    (runId runLabel : String) (activeResourceIds : List String) (st : St) :
    List Ev × Option St :=
  match runGenerationStep env cfg runId runLabel none activeResourceIds
      (some .stepByStep) 1 0 st with
  | (ev, none) => (ev, none)
  | (ev, some (nd, st1)) => (ev ++ [Ev.publishEv runId nd], some st1)

def upperChar (c : Char) : Char :=
  if 'a' ≤ c && c ≤ 'z' then Char.ofNat (c.toNat - 32) else c

def upperStr (s : String) : String := ⟨s.data.map upperChar⟩

/-- JS `a || b` over optional strings (empty strings are falsy). -/
def jsOr (a b : Option String) : Option String :=
  match a with
  | some s => if s = "" then b else some s
  | none => b

def jsTruthy (o : Option String) : Bool :=
  match o with
  | some s => s ≠ ""
  | none => false

/-- The label of a consistency-highlight annotation given its type. -/
def hlLevel (htype : String) : String :=
  if upperStr htype = "SOURCE" then "Consistency-Source"
  else if upperStr htype = "ADDITION" then "Consistency-Addition"
  else "Consistency-Diff"

/-- The default comment used when the highlight annotation has none. -/
def hlDefaultComment (a : HlAnn) : String :=
  if upperStr a.htype = "SOURCE" then "Matches the original event or other variants."
  else if upperStr a.htype = "ADDITION" then "Unique addition versus other variants."
  else "Diverges from " ++ ((jsOr a.relatedVariant (some "another variant")).getD "") ++ "."

/-- Materialise the highlight annotations merged into one variant
(lines 1086-1113 of `automationService.ts`), threading the uuid
counter; entries with a blank quote are dropped. -/
def materializeHlAnns : List HlAnn → Nat → List Ann × Nat
  | [], u => ([], u)
  | a :: rest, u =>
    let (others, u2) := materializeHlAnns rest (u + 1)
    let ann : Ann :=
      { id := u
        quote := a.quote
        level := hlLevel a.htype
        comment := (jsOr a.comment (some (hlDefaultComment a))).getD ""
        sourceId := none
        sourceQuote := jsOr a.relatedQuote a.sourceQuote
        relatedVariant := a.relatedVariant
        relatedQuote := jsOr a.relatedQuote a.sourceQuote
        originHint :=
          if upperStr a.htype = "SOURCE" then some "original"
          else if jsTruthy a.relatedVariant then some "variant"
          else none
        author := "AI_CONSISTENCY"
        confirmations := []
        refutations := [] }
    if !(charTrim a.quote.data).isEmpty then (ann :: others, u2) else (others, u2)

/-- One labelled consistency run. -/
structure RunDoc where
  label : String
  runId : String
  doc : Node
deriving DecidableEq, Repr

/-- Replace a variant's annotations with its highlight annotations
(`o.doc.annotations = anns...`); absent labels get the empty list. -/
def mergeHighlights (annMap : List (String × List HlAnn)) :
    List RunDoc → Nat → List RunDoc × Nat
  | [], u => ([], u)
  | o :: rest, u =>
    let hl := ((annMap.find? fun p => p.1 = o.label).map (·.2)).getD []
    let (anns, u2) := materializeHlAnns hl u
    let (others, u3) := mergeHighlights annMap rest u2
    ({ o with doc := { o.doc with anns := anns } } :: others, u3)

/-! #### Consistency report builder -/
structure ConsistencyPairMetric where
  pairLabel : String
  overlap : Qv
  lengthDelta : Nat
  styleDelta : Qv
  uniqueA : Nat
  uniqueB : Nat
deriving DecidableEq, Repr

structure AnnotationConsistencyMetric where
  pairLabel : String
  shared : Nat
  onlyA : Nat
  onlyB : Nat
  sharedFraction : Qv
  avgScoreDelta : Qv
  agreementNote : String
  averageQuoteOverlap : Qv
  averageCommentSimilarity : Qv
deriving DecidableEq, Repr

structure GradeCatDelta where
  category : String
  scoreA : Option Qv
  scoreB : Option Qv
  delta : Option Qv
deriving DecidableEq, Repr

structure GradeComparison where
  pairLabel : String
  categories : List GradeCatDelta
deriving DecidableEq, Repr

structure VariantConsistencyStat where
  runLabel : String
  uniqueFraction : Qv
  sharedFraction : Qv
  sharedWithRatioQ : Qv
  averageOverlap : Qv
deriving DecidableEq, Repr

structure AnnSnapshot where
  quote : String
  level : String
  comment : String
  sourceId : Option String
  sourceQuote : Option String
deriving DecidableEq, Repr

structure AnnotationDetailRec where
  runLabel : String
  anns : List AnnSnapshot
deriving DecidableEq, Repr

structure ConsistencyReport where
  textPairs : List ConsistencyPairMetric
  annotationPairs : List AnnotationConsistencyMetric
  baselineLabel : Option String
  baselineTextLength : Option Nat
  baselineComparisons : List ConsistencyPairMetric
  gradeComparisons : List GradeComparison
  variantBreakdown : List VariantConsistencyStat
  annotationDetails : List AnnotationDetailRec
  summary : String
  commentary : Option String
deriving DecidableEq, Repr

/-- `styleSignature` from the source: mean tokens per sentence and
type-token ratio. -/
def styleSignature (text : String) : Qv × Qv :=
  let sentences := ((chunksBy (fun c => !(c = '.' || c = '!' || c = '?')) text.data []).map
    fun cs => String.mk (charTrim cs)).filter fun s => s ≠ ""
  let tokens := tokenize text
  let uniqueCount := tokens.toFinset.card
  let avgSentenceLen :=
    if 0 < sentences.length then
      Qv.div (Qv.ofNat ((sentences.map fun s => (tokenize s).length).sum))
        (Qv.ofNat sentences.length)
    else Qv.zero
  let typeTokenRatioQ :=
    if 0 < tokens.length then Qv.norm (uniqueCount : Int) (tokens.length : Int) else Qv.zero
  (avgSentenceLen, typeTokenRatioQ)

/-- The pairwise text metric of `buildConsistencyReport`. -/
def textPairMetric (a b : RunDoc) : ConsistencyPairMetric :=
  let setA := tokenSet a.doc.content
  let setB := tokenSet b.doc.content
  let sigA := styleSignature a.doc.content
  let sigB := styleSignature b.doc.content
  let styleDelta := Qv.add (Qv.abs (Qv.sub sigA.1 sigB.1)) (Qv.abs (Qv.sub sigA.2 sigB.2))
  { pairLabel := a.label ++ " vs " ++ b.label
    overlap := Qv.roundTo 3 (jaccard setA setB)
    lengthDelta := (((a.doc.content.length : Int) - (b.doc.content.length : Int)).natAbs)
    styleDelta := Qv.roundTo 3 styleDelta
    uniqueA := (setA \ setB).card
    uniqueB := (setB \ setA).card }

/-- Mean of the `AI` scores of a node (`avgScore` in the source). -/
def avgScore (doc : Node) : Qv :=
  if 0 < doc.scores.length then
    Qv.div (doc.scores.foldl (fun acc kv => Qv.add acc kv.2) Qv.zero)
      (Qv.ofNat doc.scores.length)
  else Qv.zero

/-- Keep the first occurrence of each key, in order (a JS `Set` built
by insertion). -/
def orderedDedup : List String → List String → List String
  | [], _ => []
  | x :: xs, seen =>
    if seen.contains x then orderedDedup xs seen else x :: orderedDedup xs (x :: seen)

def lookupScore (doc : Node) (cat : String) : Option Qv :=
  (doc.scores.find? fun kv => kv.1 = cat).map (·.2)

/-- The per-category grade deltas of one pair. -/
def gradeComparison (a b : RunDoc) : GradeComparison :=
  let cats := orderedDedup ((a.doc.scores.map (·.1)) ++ (b.doc.scores.map (·.1))) []
  { pairLabel := a.label ++ " vs " ++ b.label
    categories := cats.map fun cat =>
      let sA := lookupScore a.doc cat
      let sB := lookupScore b.doc cat
      { category := cat, scoreA := sA, scoreB := sB,
        delta :=
          match sA, sB with
          | some x, some y => some (Qv.abs (Qv.sub x y))
          | _, _ => none } }

def annLite (a : Ann) : AnnLite := ⟨a.quote, a.comment⟩

/-- `compareAnnotations` with its oracle round trip: no call when a
side has no annotations, otherwise one judge call consuming the next
judge reply (a rejection degrades to the heuristic result). -/
def compareAnnotationsM (env : OracleEnv) (annsA annsB : List AnnLite) (st : St) :
    List Ev × CompareOut × St :=
  if annsA.length = 0 || annsB.length = 0 then
    ([], compareAnnotations annsA annsB none, st)
  else
    ([Ev.callEv .judgeO], compareAnnotations annsA annsB (env.judgeReply st.judgeCalls),
      { st with judgeCalls := st.judgeCalls + 1 })

/-- The annotation metric record of one pair. -/
def annPairMetric (a b : RunDoc) (cmp : CompareOut) : AnnotationConsistencyMetric :=
  { pairLabel := a.label ++ " vs " ++ b.label
    shared := cmp.shared
    onlyA := cmp.onlyA
    onlyB := cmp.onlyB
    sharedFraction := Qv.roundTo 3 cmp.sharedFraction
    avgScoreDelta := Qv.roundTo 2 (Qv.abs (Qv.sub (avgScore a.doc) (avgScore b.doc)))
    agreementNote := cmp.note
    averageQuoteOverlap := cmp.averageQuoteOverlap
    averageCommentSimilarity := cmp.averageCommentSimilarity }

/-- Inner pairwise loop: one fixed left run against every later run. -/
def reportPairsInner (env : OracleEnv) (annotationOnly : Bool) (a : RunDoc) :
    List RunDoc → St →
    List Ev × (List ConsistencyPairMetric × List AnnotationConsistencyMetric ×
      List GradeComparison) × St
  | [], st => ([], ([], [], []), st)
  | b :: rest, st =>
    let tp := if annotationOnly then [] else [textPairMetric a b]
    let (ev1, cmp, st1) := compareAnnotationsM env (a.doc.anns.map annLite)
      (b.doc.anns.map annLite) st
    let (ev2, (tps, aps, gps), st2) := reportPairsInner env annotationOnly a rest st1
    (ev1 ++ ev2, (tp ++ tps, annPairMetric a b cmp :: aps, gradeComparison a b :: gps), st2)

/-- Outer pairwise loop over all unordered pairs, in index order. -/
def reportPairsOuter (env : OracleEnv) (annotationOnly : Bool) :
    List RunDoc → St →
    List Ev × (List ConsistencyPairMetric × List AnnotationConsistencyMetric ×
      List GradeComparison) × St
  | [], st => ([], ([], [], []), st)
  | a :: rest, st =>
    let (ev1, (tp1, ap1, gp1), st1) := reportPairsInner env annotationOnly a rest st
    let (ev2, (tp2, ap2, gp2), st2) := reportPairsOuter env annotationOnly rest st1
    (ev1 ++ ev2, (tp1 ++ tp2, ap1 ++ ap2, gp1 ++ gp2), st2)

/-- The baseline comparisons (full mode only). -/
def baselineComparisonsOf (baseline : RunDoc) (runs : List RunDoc) :
    List ConsistencyPairMetric :=
  (runs.filter fun r => r.label ≠ baseline.label).map fun r => textPairMetric baseline r

/-- The per-variant coverage metrics (full mode only). -/
def variantBreakdownOf (runs : List RunDoc) : List VariantConsistencyStat :=
  runs.mapIdx fun idx r =>
    let setV := tokenSet r.doc.content
    let others := ((runs.enum.filter fun p => p.1 ≠ idx).map fun p => tokenSet p.2.doc.content)
    let unionOthers := others.foldl (· ∪ ·) (∅ : Finset String)
    let sharedCount := (setV.filter fun t => t ∈ unionOthers).card
    let uniqueCount := (setV.filter fun t => t ∉ unionOthers).card
    let totalCount := if setV.card = 0 then 1 else setV.card
    let avgPairOverlap :=
      if 0 < others.length then
        Qv.div (others.foldl (fun acc s => Qv.add acc (jaccard setV s)) Qv.zero)
          (Qv.ofNat others.length)
      else Qv.zero
    let sharedWith := (others.filter fun s => Qv.lt (Qv.norm 1 20) (jaccard setV s)).length
    let sharedWithRatioQ :=
      if 0 < others.length then Qv.norm (sharedWith : Int) (others.length : Int) else Qv.zero
    { runLabel := r.label
      uniqueFraction := Qv.roundTo 3 (Qv.norm (uniqueCount : Int) (totalCount : Int))
      sharedFraction := Qv.roundTo 3 (Qv.norm (sharedCount : Int) (totalCount : Int))
      sharedWithRatioQ := Qv.roundTo 3 sharedWithRatioQ
      averageOverlap := Qv.roundTo 3 avgPairOverlap }

/-- Render a rational for the templated summary (numbers are shown as
exact fractions in this embedding). -/
def qvText (q : Qv) : String := toString q.num ++ "/" ++ toString q.den

/-- The templated summary sentence of `buildConsistencyReport`. -/
def summaryText (annotationOnly : Bool) (avgOverlap minOverlap maxOverlap
    avgAgreement avgQuote avgComment : Qv) : String :=
  if annotationOnly then
    "Annotation agreement: " ++ qvText avgAgreement ++ " (shared fraction); highlight overlap: "
      ++ qvText avgQuote ++ "; comment alignment: " ++ qvText avgComment ++ ". Higher is better."
  else
    "Average text overlap: " ++ qvText avgOverlap ++ " (min " ++ qvText minOverlap ++ ", max "
      ++ qvText maxOverlap ++ "). Annotation agreement (Gemini-matched): "
      ++ qvText avgAgreement ++ ". Lower values indicate greater divergence."

def qvListMean (qs : List Qv) : Qv :=
  if 0 < qs.length then
    Qv.roundTo 3 (Qv.div (qs.foldl Qv.add Qv.zero) (Qv.ofNat qs.length))
  else Qv.zero

def qvListMin (qs : List Qv) : Qv :=
  match qs with
  | [] => Qv.zero
  | q :: rest => rest.foldl Qv.minv q

def qvListMax (qs : List Qv) : Qv :=
  match qs with
  | [] => Qv.zero
  | q :: rest => rest.foldl Qv.maxv q

/-- `buildConsistencyReport` from the source, as a state-passing
function emitting the judge-call events of its pairwise loop. -/
def buildConsistencyReport (env : OracleEnv) (runs : List RunDoc)
    (baseline : Option RunDoc) (annotationOnly : Bool) (st : St) :
    List Ev × ConsistencyReport × St :=
  let (evs, (textPairs, annPairs, gradePairs), st1) :=
    reportPairsOuter env annotationOnly runs st
  let baselineComparisons :=
    match baseline with
    | some b => if annotationOnly then [] else baselineComparisonsOf b runs
    | none => []
  let variantBreakdown := if annotationOnly then [] else variantBreakdownOf runs
  let avgOverlap := qvListMean (textPairs.map (·.overlap))
  let minOverlap := qvListMin (textPairs.map (·.overlap))
  let maxOverlap := qvListMax (textPairs.map (·.overlap))
  let avgAgreement := qvListMean (annPairs.map (·.sharedFraction))
  let avgQuote := qvListMean (annPairs.map (·.averageQuoteOverlap))
  let avgComment := qvListMean (annPairs.map (·.averageCommentSimilarity))
  (evs,
    { textPairs := textPairs
      annotationPairs := annPairs
      baselineLabel := baseline.map (·.label)
      baselineTextLength := baseline.map (·.doc.content.length)
      baselineComparisons := baselineComparisons
      gradeComparisons := gradePairs
      variantBreakdown := variantBreakdown
      annotationDetails := runs.map fun r =>
        ⟨r.label, r.doc.anns.map fun a => ⟨a.quote, a.level, a.comment, a.sourceId, a.sourceQuote⟩⟩
      summary := summaryText annotationOnly avgOverlap minOverlap maxOverlap
        avgAgreement avgQuote avgComment
      commentary := none },
    st1)

/-- `generateConsistencyCommentary` from the source: skipped when the
report has no pairs at all; a rejected call is caught and yields no
commentary. -/
def generateConsistencyCommentaryM (env : OracleEnv) (report : ConsistencyReport) :
    List Ev × Option String :=
  if report.textPairs.length = 0 && report.annotationPairs.length = 0 then ([], none)
  else ([Ev.callEv .commentaryO], env.commentReply)

/-! #### Protocol branches of `runExperimentLoop` -/
/-- `Math.max(2, config.runCount || 2)`: the requested variant count,
clamped up to 2. -/
def variantCount (cfg : ExperimentConfig) : Nat :=
  max 2 (if cfg.runCount = 0 then 2 else cfg.runCount)

/-- The variant loop of the text-consistency branch: single-step runs
from identical config, statuses and pacing per variant; nodes are not
published here (they are published after the highlight merge). -/
def consistencyTextVariants (env : OracleEnv) (cfg : ExperimentConfig) :
    Nat → Nat → List RunDoc → St → List Ev × Option (List RunDoc × St)
  | 0, _, acc, st => ([], some (acc, st))
  | k + 1, i, acc, st =>
    let label := "Variant " ++ toString (i + 1)
    let runId := env.runIdFor label i
    match runGenerationStep env cfg runId label none cfg.activeResourceIds
        (some .standard) 1 0 st with
    | (ev, none) => (Ev.statusEv runId .running :: ev, none)
    | (ev, some (doc, st1)) =>
      let (evs, r) := consistencyTextVariants env cfg k (i + 1)
        (acc ++ [⟨label, runId, doc⟩]) st1
      (Ev.statusEv runId .running :: ev ++
        [Ev.statusEv runId .completed, Ev.delayEv] ++ evs, r)

/-- `runExperimentLoop`'s text-consistency branch: generate the
variants, ask the highlighting oracle once (a rejection is caught and
leaves the evaluation annotations in place; an unparsable reply wipes
them), publish the merged docs, build the report, request
commentary. -/
def runConsistencyText (env : OracleEnv) (cfg : ExperimentConfig) (st : St) :
    List Ev × Option ConsistencyReport :=
  match consistencyTextVariants env cfg (variantCount cfg) 0 [] st with
  | (evs, none) => (evs, none)
  | (evs, some (outputs, st1)) =>
    let (outputs2, st2) :=
      match env.highlightReply with
      | none => (outputs, st1)
      | some annMap =>
        let (o2, u2) := mergeHighlights annMap outputs st1.uuid
        (o2, { st1 with uuid := u2 })
    let evPub := outputs2.map fun o => Ev.publishEv o.runId o.doc
    let (evR, report, _) := buildConsistencyReport env outputs2 outputs2.head? false st2
    let (evC, commentary) := generateConsistencyCommentaryM env report
    (evs ++ [Ev.callEv .highlightO] ++ evPub ++ evR ++ evC,
      some { report with commentary := commentary })

/-- The variant node appended by one re-evaluation pass of the
annotation-consistency branch: a copy of the base content, linked to
the base, with the fresh evaluation annotations and no token usage. -/
def annVariantDoc (cfg : ExperimentConfig) (base : Node) (er : EvalResult) (u : Nat) :
    Node × Nat :=
  let (anns, u2) := materializeAnns "AI_EVALUATOR" er.cands (u + 1)
  ({ id := u
     parentId := some base.id
     content := base.content
     thoughts := none
     modelId := cfg.generatorModelId
     method := .standard
     systemPromptSnapshot := cfg.systemPrompt
     taskPromptSnapshot := cfg.taskPrompt
     refinementConfig := none
     activeResourceIds := cfg.activeResourceIds
     tokenUsage := none
     experimentId := none
     runId := none
     runLabel := none
     diffStats := none
     anns := anns
     scores := normalizeScores cfg.evaluationCategories er.scores }, u2)

/-- The re-evaluation passes of the annotation-consistency branch:
each pass calls only the evaluation oracle (whose own failure handler
turns a rejection into an empty evaluation, so a pass never aborts),
publishes a variant node that copies the base content and links to
the base, and then paces. -/
def consistencyAnnPasses (env : OracleEnv) (cfg : ExperimentConfig) (base : Node) :
    Nat → Nat → List RunDoc → St → List Ev × List RunDoc × St
  | 0, _, acc, st => ([], acc, st)
  | k + 1, i, acc, st =>
    let label := "Variant " ++ toString (i + 1)
    let runId := env.runIdFor label i
    let er : EvalResult := (env.evalReply st.evalCalls).getD ⟨[], [], none⟩
    let st1 : St := { st with evalCalls := st.evalCalls + 1 }
    let (annDoc, u2) := annVariantDoc cfg base er st1.uuid
    let st2 : St := { st1 with uuid := u2 }
    let (evs, r) := consistencyAnnPasses env cfg base k (i + 1)
      (acc ++ [⟨label, runId, annDoc⟩]) st2
    ([Ev.statusEv runId .running, Ev.callEv .evaluationO,
      Ev.publishEv runId annDoc, Ev.statusEv runId .completed, Ev.delayEv] ++ evs, r)

/-- `runExperimentLoop`'s annotation-consistency branch: one base
generation step (never published through the step callback), then
`variantCount` independent re-evaluations of the base content, then
the annotation-only report and commentary. -/
def runConsistencyAnn (env : OracleEnv) (cfg : ExperimentConfig) (st : St) :
    List Ev × Option ConsistencyReport :=
  let baseRunId := env.runIdFor "Variant 1" 0
  match runGenerationStep env cfg baseRunId "Variant 1" none cfg.activeResourceIds
      (some .standard) 1 0 st with
  | (ev, none) => (Ev.statusEv baseRunId .running :: ev, none)
  | (ev, some (base, st1)) =>
    let (evs, outputs, st2) := consistencyAnnPasses env cfg base (variantCount cfg) 0 [] st1
    let baselineOpt : Option RunDoc :=
      (outputs.head?).map fun o => ⟨"Variant 1", o.runId, o.doc⟩
    let (evR, report, _) := buildConsistencyReport env outputs baselineOpt true st2
    let (evC, commentary) := generateConsistencyCommentaryM env report
    (Ev.statusEv baseRunId .running :: ev ++ evs ++ evR ++ evC,
      some { report with commentary := commentary })

/-- The Convergence protocol loop: `runCount` labelled full chains. -/
def convergenceRuns (env : OracleEnv) (cfg : ExperimentConfig) :
    Nat → Nat → St → List Ev × Option St
  | 0, _, st => ([], some st)
  | k + 1, i, st =>
    let runId := env.runIdFor "Convergence" i
    match executeRefinementLoop env cfg runId "Convergence" cfg.activeResourceIds st with
    | (ev, none) => (Ev.statusEv runId .running :: ev, none)
    | (ev, some st1) =>
      let (evs, r) := convergenceRuns env cfg k (i + 1) st1
      (Ev.statusEv runId .running :: ev ++ [Ev.statusEv runId .completed] ++ evs, r)

/-- The Comparative protocol loop: per repetition, a single
step-by-step run fully before a full refinement chain. -/
def comparativeRuns (env : OracleEnv) (cfg : ExperimentConfig) :
    Nat → Nat → St → List Ev × Option St
  | 0, _, st => ([], some st)
  | k + 1, i, st =>
    let idA := env.runIdFor "Step-by-Step" i
    match executeStepByStep env cfg idA "Step-by-Step" cfg.activeResourceIds st with
    | (evA, none) => (Ev.statusEv idA .running :: evA, none)
    | (evA, some st1) =>
      let idB := env.runIdFor "Refinement Loop" i
      match executeRefinementLoop env cfg idB "Refinement Loop" cfg.activeResourceIds st1 with
      | (evB, none) =>
        (Ev.statusEv idA .running :: evA ++ [Ev.statusEv idA .completed] ++
          (Ev.statusEv idB .running :: evB), none)
      | (evB, some st2) =>
        let (evs, r) := comparativeRuns env cfg k (i + 1) st2
        (Ev.statusEv idA .running :: evA ++ [Ev.statusEv idA .completed] ++
          (Ev.statusEv idB .running :: evB ++ [Ev.statusEv idB .completed]) ++ evs, r)

/-- The Ablation protocol loop: per repetition, a full-context chain
then a zero-context chain (empty resource selection). -/
def ablationRuns (env : OracleEnv) (cfg : ExperimentConfig) :
    Nat → Nat → St → List Ev × Option St
  | 0, _, st => ([], some st)
  | k + 1, i, st =>
    let idFull := env.runIdFor "Full Context" i
    match executeRefinementLoop env cfg idFull "Full Context" cfg.activeResourceIds st with
    | (evA, none) => (Ev.statusEv idFull .running :: evA, none)
    | (evA, some st1) =>
      let idZero := env.runIdFor "Zero Context" i
      match executeRefinementLoop env cfg idZero "Zero Context" [] st1 with
      | (evB, none) =>
        (Ev.statusEv idFull .running :: evA ++ [Ev.statusEv idFull .completed] ++
          (Ev.statusEv idZero .running :: evB), none)
      | (evB, some st2) =>
        let (evs, r) := ablationRuns env cfg k (i + 1) st2
        (Ev.statusEv idFull .running :: evA ++ [Ev.statusEv idFull .completed] ++
          (Ev.statusEv idZero .running :: evB ++ [Ev.statusEv idZero .completed]) ++ evs, r)

/-- The Custom/default protocol loop: `runCount` full chains. -/
def customRuns (env : OracleEnv) (cfg : ExperimentConfig) :
    Nat → Nat → St → List Ev × Option St
  | 0, _, st => ([], some st)
  | k + 1, i, st =>
    let runId := env.runIdFor "Custom" i
    match executeRefinementLoop env cfg runId "Custom" cfg.activeResourceIds st with
    | (ev, none) => (Ev.statusEv runId .running :: ev, none)
    | (ev, some st1) =>
      let (evs, r) := customRuns env cfg k (i + 1) st1
      (Ev.statusEv runId .running :: ev ++ [Ev.statusEv runId .completed] ++ evs, r)

/-- `runExperimentLoop` from the source: dispatch on the protocol
type.  The top-level `try/catch` is reflected by returning the partial
event trace with no report when an unhandled oracle rejection aborts
the protocol; only consistency protocols ever yield a report. -/
def runExperimentLoop (env : OracleEnv) (cfg : ExperimentConfig) (st : St) :
    List Ev × Option ConsistencyReport :=
  match cfg.etype with
  | .consistencyText => runConsistencyText env cfg st
  | .consistencyAnn => runConsistencyAnn env cfg st
  | .convergence => ((convergenceRuns env cfg cfg.runCount 0 st).1, none)
  | .comparative => ((comparativeRuns env cfg cfg.runCount 0 st).1, none)
  | .ablation => ((ablationRuns env cfg cfg.runCount 0 st).1, none)
  | .custom => ((customRuns env cfg cfg.runCount 0 st).1, none)

/-! ### Shared lemmas about the runner model -/
/-- Every oracle call of the given kinds succeeds. -/
def allOk (env : OracleEnv) : Prop :=
  ∀ n, (env.genReply n).isSome = true ∧ (env.evalReply n).isSome = true

/-- The step succeeds at call index `i` (one generation and one
evaluation call). -/
def stepOk (env : OracleEnv) (i : Nat) : Prop :=
  (env.genReply i).isSome = true ∧ (env.evalReply i).isSome = true

/-- Parent linkage within a run: the later node points at the earlier
one. -/
def chainRel (a b : Node) : Prop := b.parentId = some a.id

instance (a b : Node) : Decidable (chainRel a b) := by
  unfold chainRel; infer_instance

/-- A concrete always-succeeding oracle used by the witnesses. -/
def envOkW : OracleEnv :=
  { genReply := fun _ => some ⟨"venice", [], some ⟨3, 5, 8⟩⟩
    evalReply := fun _ => some ⟨[⟨"venice", "Grounding", "ok", none, none⟩],
      [("cat1", some (Qv.ofNat 80))], none⟩
    judgeReply := fun _ => some []
    highlightReply := some []
    commentReply := some "fine"
    runIdFor := fun label i => label ++ "#" ++ toString i }

def cfgConvW : ExperimentConfig :=
  { id := "expC", etype := .convergence, iterations := 1, runCount := 1, delaySeconds := 1
    generatorModelId := "gen-m", evaluatorModelId := "eval-m"
    systemPrompt := "sys", taskPrompt := "task", stepPrompt := none
    refinePrompt := "refine", evaluatorPrompt := "evalp", refineConfig := none
    activeResourceIds := ["r1"], evaluationCategories := [⟨"cat1", "Coherence", "d"⟩] }

def cfgTextW : ExperimentConfig :=
  { cfgConvW with id := "expT", etype := .consistencyText, runCount := 1 }

def cfgAnnW : ExperimentConfig :=
  { cfgConvW with id := "expA", etype := .consistencyAnn, runCount := 2 }

/-- An oracle whose judge always rejects and whose highlight call
rejects, everything else succeeding. -/
def envBadJW : OracleEnv :=
  { envOkW with judgeReply := fun _ => none, highlightReply := none }

/-- An oracle whose generation call always rejects. -/
def envGenFailW : OracleEnv :=
  { envOkW with genReply := fun _ => none }

/-- An oracle whose evaluation call always rejects, everything else
succeeding. -/
def envBadEvalW : OracleEnv :=
  { envOkW with evalReply := fun _ => none }

/-- Immediate pacing of one oracle role: every `callEv r` of the
trace is immediately followed by a `delayEv`. -/
def pacedAfter (r : OracleRole) : List Ev → Bool
  | [] => true
  | [e] => decide (e ≠ Ev.callEv r)
  | e :: e2 :: rest =>
    (decide (e ≠ Ev.callEv r) || decide (e2 = Ev.delayEv)) && pacedAfter r (e2 :: rest)

/-- Worker for `delayedPaced`: `p` records whether a call of role `r`
is still owed a pacing delay. -/
def delayedPacedGo (r : OracleRole) : Bool → List Ev → Bool
  | p, [] => !p
  | _, Ev.delayEv :: rest => delayedPacedGo r false rest
  | p, Ev.callEv r0 :: rest =>
    if r0 = r then !p && delayedPacedGo r true rest
    else delayedPacedGo r p rest
  | p, _ :: rest => delayedPacedGo r p rest

/-- Deferred pacing of one oracle role: after every `callEv r` a
`delayEv` occurs before the next `callEv r` and before the trace
ends (the delay need not be immediate). -/
def delayedPaced (r : OracleRole) (l : List Ev) : Bool := delayedPacedGo r false l

/-! ### Theorems -/

theorem Qv.not_lt_imp_le {a b : Qv} (h : ¬ Qv.lt a b) : Qv.le b a :=
  Int.not_lt.mp h

theorem jaccard_comm (a b : Finset String) : jaccard a b = jaccard b a := by
  unfold jaccard
  rw [Finset.inter_comm, Finset.union_comm]

/-! ### Claim C7: symmetry and containment behaviour of `quoteOverlapScore` -/
/-- Claim C7 (counterexample): the empty string is a verbatim substring
of `"x"`, yet `quoteOverlapScore "x" "" = 0`, not `1`: the emptiness
guard of the source fires before the containment check, so the claim
"equals 1 whenever one quote verbatim-contains the other" fails when
one quote is empty. -/
theorem quoteOverlapScore_containment_fails :
    includesStr "x" "" = true ∧ quoteOverlapScore "x" "" ≠ Qv.one := by
  decide

/-- Claim C7 (amended): `quoteOverlapScore` is symmetric, and it equals
1 whenever both quotes are non-empty and one verbatim-contains the
other. -/
theorem quoteOverlapScore_symm_and_containment :
    (∀ a b : String, quoteOverlapScore a b = quoteOverlapScore b a) ∧
    (∀ a b : String, a ≠ "" → b ≠ "" →
      (includesStr a b || includesStr b a) = true →
      quoteOverlapScore a b = Qv.one) := by
  constructor
  · intro a b
    by_cases ha : a = "" <;> by_cases hb : b = "" <;>
      simp [quoteOverlapScore, ha, hb]
    exact if_congr or_comm rfl (jaccard_comm _ _)
  · intro a b ha hb hin
    simp [quoteOverlapScore, ha, hb, hin]

/-- Claim C7 (witness for the amended theorem): concrete symmetric pair
and a concrete containment pair. -/
theorem quoteOverlapScore_symm_and_containment_witness :
    quoteOverlapScore "ab cd" "cd" = Qv.one :=
  quoteOverlapScore_symm_and_containment.2 "ab cd" "cd"
    (by decide) (by decide) (by decide)

/-! ### Claim C6: judge returning zero matches falls back to the heuristic -/
/-- Claim C6: whenever the judging oracle fails, is skipped, or yields
zero integrity-filtered matches, every reported annotation-consistency
metric equals the metrics computed from the heuristic fallback matching
alone (averages recomputed by heuristic scoring over the matched
pairs). -/
theorem compareAnnotations_fallback_when_judge_empty
    (annsA annsB : List AnnLite) (reply : Option (List RawMatch))
    (h : (matchAnnotationsWithGemini annsA annsB reply).matchList = []) :
    (compareAnnotations annsA annsB reply).toMetrics =
      metricsOfMatches annsA annsB
        ((fallbackAnnotationMatches annsA annsB).map MatchRec.toTriple) := by
  unfold compareAnnotations
  simp only [h, List.length_nil, Nat.lt_irrefl, if_false]
  rfl

/-- Claim C6 (witness): a concrete pair of single-annotation lists with
an unparsable judge reply; the metrics coincide with the fallback-only
metrics. -/
theorem compareAnnotations_fallback_when_judge_empty_witness :
    (compareAnnotations [⟨"the gondola drifted", "adds invented detail"⟩]
        [⟨"the gondola drifted slowly", "invents an extra detail"⟩]
        (some [])).toMetrics =
      metricsOfMatches [⟨"the gondola drifted", "adds invented detail"⟩]
        [⟨"the gondola drifted slowly", "invents an extra detail"⟩]
        ((fallbackAnnotationMatches [⟨"the gondola drifted", "adds invented detail"⟩]
          [⟨"the gondola drifted slowly", "invents an extra detail"⟩]).map MatchRec.toTriple) :=
  compareAnnotations_fallback_when_judge_empty _ _ _ (by decide)

theorem drop_cons_getD {α : Type} (l : List α) (i : Nat) (d : α)
    (b : α) (rest : List α) (h : l.drop i = b :: rest) :
    l.getD i d = b ∧ l.drop (i + 1) = rest ∧ i < l.length := by
  have hlen : i < l.length := by
    by_contra hle
    rw [List.drop_eq_nil_of_le (Nat.le_of_not_lt hle)] at h
    exact List.noConfusion h
  refine ⟨?_, ?_, hlen⟩
  · have h0 : l[i]? = some b := by
      have := List.getElem?_drop l i 0
      rw [h] at this
      simpa using this.symm
    simp [List.getD_eq_getElem?_getD, h0]
  · have h1 : l.drop (i + 1) = (l.drop i).drop 1 := by
      rw [List.drop_drop]
    rw [h1, h]
    rfl

theorem considerB_good (annA : AnnLite) (annsB : List AnnLite) (usedB : List Nat)
    (st : BestState) (i : Nat) (b : AnnLite)
    (hib : annsB.getD i ⟨"", ""⟩ = b) (hlen : i < annsB.length)
    (hst : GoodBest annA annsB usedB st) :
    GoodBest annA annsB usedB (considerB annA usedB st i b) := by
  unfold considerB
  by_cases hmem : i ∈ usedB
  · simpa [hmem] using hst
  · simp only [hmem, if_false]
    by_cases hq : Qv.lt (quoteOverlapScore annA.quote b.quote) (Qv.norm 7 20)
    · simpa [hq] using hst
    · simp only [hq, if_false]
      by_cases hc : Qv.lt st.bestScore
          (Qv.add (Qv.mul (quoteOverlapScore annA.quote b.quote) (Qv.norm 13 20))
            (Qv.mul (commentSimilarityScore annA.comment b.comment) (Qv.norm 7 20)))
      · simp only [hc, if_true]
        intro j hj
        simp only at hj
        cases hj
        refine ⟨hlen, hmem, ?_, ?_⟩
        · simp only
          rw [hib]
        · exact Qv.not_lt_imp_le hq
      · simpa [hc] using hst

theorem bestForAux_good (annA : AnnLite) (annsB : List AnnLite) (usedB : List Nat) :
    ∀ (rest : List AnnLite) (i : Nat) (st : BestState),
      annsB.drop i = rest →
      GoodBest annA annsB usedB st →
      GoodBest annA annsB usedB (bestForAux annA usedB i rest st)
  | [], _, _, _, hst => hst
  | b :: rest, i, st, hdrop, hst => by
    obtain ⟨hget, hdrop', hlen⟩ := drop_cons_getD annsB i ⟨"", ""⟩ b rest hdrop
    exact bestForAux_good annA annsB usedB rest (i + 1)
      (considerB annA usedB st i b) hdrop'
      (considerB_good annA annsB usedB st i b hget hlen hst)

theorem bestFor_good (annA : AnnLite) (annsB : List AnnLite) (usedB : List Nat) :
    GoodBest annA annsB usedB (bestFor annA annsB usedB) := by
  apply bestForAux_good annA annsB usedB annsB 0 _ rfl
  intro j hj
  exact Option.noConfusion hj

theorem fallbackAux_cons_none (annsB : List AnnLite) (i : Nat) (a : AnnLite)
    (rest : List AnnLite) (ms : List MatchRec) (usedB : List Nat)
    (h : (bestFor a annsB usedB).bestIdx = none) :
    fallbackAux annsB i (a :: rest) ms usedB =
      fallbackAux annsB (i + 1) rest ms usedB := by
  conv_lhs => rw [fallbackAux]
  rw [h]

theorem fallbackAux_cons_some (annsB : List AnnLite) (i : Nat) (a : AnnLite)
    (rest : List AnnLite) (ms : List MatchRec) (usedB : List Nat) (bIdx : Nat)
    (h : (bestFor a annsB usedB).bestIdx = some bIdx) :
    fallbackAux annsB i (a :: rest) ms usedB =
      fallbackAux annsB (i + 1) rest
        (ms ++ [⟨i, bIdx, (bestFor a annsB usedB).bestReason,
          (bestFor a annsB usedB).bestQuote, (bestFor a annsB usedB).bestComment⟩])
        (bIdx :: usedB) := by
  conv_lhs => rw [fallbackAux]
  rw [h]

theorem fallbackAux_post (annsA annsB : List AnnLite) :
    ∀ (rest : List AnnLite) (i : Nat) (ms : List MatchRec) (usedB : List Nat),
      annsA.drop i = rest →
      FallbackInv annsA annsB i ms usedB →
      FallbackPost annsA annsB (i + rest.length) (fallbackAux annsB i rest ms usedB)
  | [], i, ms, usedB, _, hinv => by
    obtain ⟨_, hpa, hnb, hall⟩ := hinv
    exact ⟨hpa, hnb, by simpa using hall⟩
  | a :: rest, i, ms, usedB, hdrop, hinv => by
    obtain ⟨hget, hdrop', _⟩ := drop_cons_getD annsA i ⟨"", ""⟩ a rest hdrop
    obtain ⟨hused, hpa, hnb, hall⟩ := hinv
    have hgoal : i + (a :: rest).length = (i + 1) + rest.length := by
      simp only [List.length_cons]
      omega
    rw [hgoal]
    cases hbest : (bestFor a annsB usedB).bestIdx with
    | none =>
      rw [fallbackAux_cons_none annsB i a rest ms usedB hbest]
      apply fallbackAux_post annsA annsB rest (i + 1) ms usedB hdrop'
      refine ⟨hused, hpa, hnb, fun m hm => ?_⟩
      obtain ⟨h1, h2, h3⟩ := hall m hm
      exact ⟨Nat.lt_succ_of_lt h1, h2, h3⟩
    | some bIdx =>
      rw [fallbackAux_cons_some annsB i a rest ms usedB bIdx hbest]
      obtain ⟨hblen, hbnew, hbq, hble⟩ := bestFor_good a annsB usedB bIdx hbest
      apply fallbackAux_post annsA annsB rest (i + 1) _ _ hdrop'
      constructor
      · simp [hused]
      constructor
      · rw [List.map_append, List.pairwise_append]
        refine ⟨hpa, List.pairwise_singleton _ _, ?_⟩
        intro x hx y hy
        simp only [List.map_cons, List.map_nil, List.mem_singleton] at hy
        subst hy
        obtain ⟨m, hm, hmx⟩ := List.mem_map.mp hx
        subst hmx
        exact (hall m hm).1
      constructor
      · rw [List.map_append, List.nodup_append]
        refine ⟨hnb, List.nodup_singleton _, ?_⟩
        intro x hx hy
        simp only [List.map_cons, List.map_nil, List.mem_singleton] at hy
        subst hy
        apply hbnew
        rw [hused]
        simpa using hx
      · intro m hm
        rcases List.mem_append.mp hm with hmold | hmnew
        · obtain ⟨h1, h2, h3⟩ := hall m hmold
          exact ⟨Nat.lt_succ_of_lt h1, h2, h3⟩
        · simp only [List.mem_singleton] at hmnew
          subst hmnew
          refine ⟨Nat.lt_succ_self _, hblen, ?_⟩
          simp only
          rw [hget]
          rw [hbq] at hble
          exact hble

theorem nodup_lt_length_le (l : List Nat) (n : Nat)
    (hnd : l.Nodup) (hlt : ∀ x ∈ l, x < n) : l.length ≤ n := by
  have h1 : l.toFinset.card = l.length := List.toFinset_card_of_nodup hnd
  have h2 : l.toFinset ⊆ Finset.range n := by
    intro x hx
    exact Finset.mem_range.mpr (hlt x (List.mem_toFinset.mp hx))
  calc l.length = l.toFinset.card := h1.symm
    _ ≤ (Finset.range n).card := Finset.card_le_card h2
    _ = n := Finset.card_range n

/-- Claim C9: `fallbackAnnotationMatches` returns a one-to-one partial
matching: all `aIndex` values are pairwise distinct and in range of A,
all `bIndex` values are pairwise distinct and in range of B, the number
of matches is at most `min |A| |B|`, and every matched pair has
heuristic quote overlap at least 0.35. -/
theorem fallbackAnnotationMatches_one_to_one (annsA annsB : List AnnLite) :
    ((fallbackAnnotationMatches annsA annsB).map MatchRec.aIndex).Pairwise (· ≠ ·) ∧
    ((fallbackAnnotationMatches annsA annsB).map MatchRec.bIndex).Pairwise (· ≠ ·) ∧
    (∀ m ∈ fallbackAnnotationMatches annsA annsB,
      m.aIndex < annsA.length ∧ m.bIndex < annsB.length ∧
      Qv.le (Qv.norm 7 20)
        (quoteOverlapScore ((annsA.getD m.aIndex ⟨"", ""⟩).quote)
          ((annsB.getD m.bIndex ⟨"", ""⟩).quote))) ∧
    (fallbackAnnotationMatches annsA annsB).length ≤ min annsA.length annsB.length := by
  have hpost := fallbackAux_post annsA annsB annsA 0 [] [] rfl
    ⟨rfl, List.Pairwise.nil, List.nodup_nil, fun m hm => absurd hm (List.not_mem_nil m)⟩
  rw [Nat.zero_add] at hpost
  obtain ⟨hpa, hnb, hall⟩ := hpost
  have hlen : (fallbackAnnotationMatches annsA annsB).length ≤ min annsA.length annsB.length := by
    apply le_min
    · have hstep := nodup_lt_length_le
        ((fallbackAnnotationMatches annsA annsB).map MatchRec.aIndex) annsA.length
        (hpa.imp fun h => Nat.ne_of_lt h) ?_
      · simpa using hstep
      · intro x hx
        obtain ⟨m, hm, hmx⟩ := List.mem_map.mp hx
        subst hmx
        exact (hall m hm).1
    · have hstep := nodup_lt_length_le
        ((fallbackAnnotationMatches annsA annsB).map MatchRec.bIndex) annsB.length
        hnb ?_
      · simpa using hstep
      · intro x hx
        obtain ⟨m, hm, hmx⟩ := List.mem_map.mp hx
        subst hmx
        exact (hall m hm).2.1
  exact ⟨hpa.imp (fun h => Nat.ne_of_lt h), hnb, hall, hlen⟩

theorem diffTokens_nil_eq (ys : List (List Char)) :
    diffTokens [] ys = ys.map TokPart.added := rfl

theorem diffTokens_cons_nil_eq (x : List Char) (xs : List (List Char)) :
    diffTokens (x :: xs) [] = (x :: xs).map TokPart.removed := rfl

theorem diffTokens_cons_eq (x : List Char) (xs : List (List Char))
    (y : List Char) (ys : List (List Char)) :
    diffTokens (x :: xs) (y :: ys) =
      if x = y then TokPart.common x :: diffTokens xs ys
      else if changedCountT (TokPart.removed x :: diffTokens xs (y :: ys)) ≤
          changedCountT (TokPart.added y :: diffTokens (x :: xs) ys)
        then TokPart.removed x :: diffTokens xs (y :: ys)
        else TokPart.added y :: diffTokens (x :: xs) ys := rfl

theorem diffTokens_self (xs : List (List Char)) : diffTokens xs xs = xs.map TokPart.common := by
  induction xs with
  | nil => rfl
  | cons x xs ih =>
    rw [diffTokens_cons_eq, if_pos rfl, ih]
    rfl

theorem changedLenT_map_common (xs : List (List Char)) :
    changedLenT (xs.map TokPart.common) = 0 := by
  induction xs with
  | nil => rfl
  | cons x xs ih => simpa [changedLenT, TokPart.changedLen] using ih

theorem changedLenT_cons (p : TokPart) (ps : List TokPart) :
    changedLenT (p :: ps) = p.changedLen + changedLenT ps := by
  simp [changedLenT]

theorem changedLenT_zero_eq (xs : List (List Char)) :
    ∀ (ys : List (List Char)),
      (∀ t ∈ xs, t ≠ []) → (∀ t ∈ ys, t ≠ []) →
      changedLenT (diffTokens xs ys) = 0 → xs = ys := by
  induction xs with
  | nil =>
    intro ys _ h2 hz
    cases ys with
    | nil => rfl
    | cons y ys =>
      exfalso
      have hy : y ≠ [] := h2 y (List.mem_cons_self y ys)
      rw [diffTokens_nil_eq, List.map_cons, changedLenT_cons,
        show TokPart.changedLen (TokPart.added y) = y.length from rfl] at hz
      exact hy (List.length_eq_zero.mp (by omega))
  | cons x xs ih =>
    intro ys h1 h2 hz
    have hx : x ≠ [] := h1 x (List.mem_cons_self x xs)
    cases ys with
    | nil =>
      exfalso
      rw [diffTokens_cons_nil_eq, List.map_cons, changedLenT_cons,
        show TokPart.changedLen (TokPart.removed x) = x.length from rfl] at hz
      exact hx (List.length_eq_zero.mp (by omega))
    | cons y ys =>
      by_cases hxy : x = y
      · subst hxy
        rw [diffTokens_cons_eq, if_pos rfl, changedLenT_cons,
          show TokPart.changedLen (TokPart.common x) = 0 from rfl] at hz
        have hz' : changedLenT (diffTokens xs ys) = 0 := by omega
        have := ih ys (fun t ht => h1 t (List.mem_cons_of_mem x ht))
          (fun t ht => h2 t (List.mem_cons_of_mem x ht)) hz'
        rw [this]
      · exfalso
        have hy : y ≠ [] := h2 y (List.mem_cons_self y ys)
        rw [diffTokens_cons_eq, if_neg hxy] at hz
        by_cases hc : changedCountT (TokPart.removed x :: diffTokens xs (y :: ys)) ≤
            changedCountT (TokPart.added y :: diffTokens (x :: xs) ys)
        · rw [if_pos hc, changedLenT_cons,
            show TokPart.changedLen (TokPart.removed x) = x.length from rfl] at hz
          exact hx (List.length_eq_zero.mp (by omega))
        · rw [if_neg hc, changedLenT_cons,
            show TokPart.changedLen (TokPart.added y) = y.length from rfl] at hz
          exact hy (List.length_eq_zero.mp (by omega))

theorem splitRunsAux_join (cs : List Char) :
    ∀ acc, (splitRunsAux cs acc).flatten = acc.reverse ++ cs := by
  induction cs with
  | nil =>
    intro acc
    cases acc with
    | nil => rfl
    | cons a t => simp [splitRunsAux]
  | cons c cs ih =>
    intro acc
    cases acc with
    | nil => simpa [splitRunsAux] using ih [c]
    | cons a t =>
      by_cases hcls : wordClass a = wordClass c
      · rw [show splitRunsAux (c :: cs) (a :: t) = splitRunsAux cs (c :: a :: t) from by
          simp [splitRunsAux, hcls]]
        rw [ih (c :: a :: t)]
        simp
      · rw [show splitRunsAux (c :: cs) (a :: t) = (a :: t).reverse :: splitRunsAux cs [c] from by
          simp [splitRunsAux, hcls]]
        simp [ih [c]]

theorem splitRunsAux_ne_nil (cs : List Char) :
    ∀ acc r, r ∈ splitRunsAux cs acc → r ≠ [] := by
  induction cs with
  | nil =>
    intro acc r hr
    cases acc with
    | nil => simp [splitRunsAux] at hr
    | cons a t =>
      simp [splitRunsAux] at hr
      simp [hr]
  | cons c cs ih =>
    intro acc r hr
    cases acc with
    | nil =>
      simp only [splitRunsAux] at hr
      exact ih [c] r hr
    | cons a t =>
      by_cases hcls : wordClass a = wordClass c
      · rw [show splitRunsAux (c :: cs) (a :: t) = splitRunsAux cs (c :: a :: t) from by
          simp [splitRunsAux, hcls]] at hr
        exact ih (c :: a :: t) r hr
      · rw [show splitRunsAux (c :: cs) (a :: t) = (a :: t).reverse :: splitRunsAux cs [c] from by
          simp [splitRunsAux, hcls]] at hr
        rcases List.mem_cons.mp hr with hr | hr
        · subst hr
          simp
        · exact ih [c] r hr

theorem splitWords_join (cs : List Char) : (splitWords cs).flatten = cs := by
  simpa using splitRunsAux_join cs []

theorem splitWords_ne_nil (cs : List Char) : ∀ r ∈ splitWords cs, r ≠ [] :=
  fun r hr => splitRunsAux_ne_nil cs [] r hr

theorem changedLenT_diff_splitWords_zero_iff (o n : List Char) :
    changedLenT (diffTokens (splitWords o) (splitWords n)) = 0 ↔ o = n := by
  constructor
  · intro hz
    have heq := changedLenT_zero_eq (splitWords o) (splitWords n)
      (splitWords_ne_nil o) (splitWords_ne_nil n) hz
    have hj := congrArg List.flatten heq
    rwa [splitWords_join, splitWords_join] at hj
  · intro h
    subst h
    rw [diffTokens_self]
    exact changedLenT_map_common _

theorem addedLen_removedLen_map (tps : List TokPart) :
    addedLen (tps.map TokPart.toDiffPart) + removedLen (tps.map TokPart.toDiffPart) =
      changedLenT tps := by
  induction tps with
  | nil => rfl
  | cons p tps ih =>
    cases p with
    | common t =>
      simpa [addedLen, removedLen, changedLenT, TokPart.toDiffPart, TokPart.changedLen,
        List.filter_cons] using ih
    | added t =>
      simp [addedLen, removedLen, changedLenT, TokPart.toDiffPart,
        TokPart.changedLen, List.filter_cons] at ih ⊢
      omega
    | removed t =>
      simp [addedLen, removedLen, changedLenT, TokPart.toDiffPart,
        TokPart.changedLen, List.filter_cons] at ih ⊢
      omega

theorem Qv.norm_eq_zero_iff (n d : Int) (hd : 0 < d) :
    Qv.norm n d = Qv.zero ↔ n = 0 := by
  have hd0 : d ≠ 0 := ne_of_gt hd
  have hdneg : ¬ d < 0 := not_lt.mpr (le_of_lt hd)
  simp only [Qv.norm, Qv.zero, if_neg hd0, if_neg hdneg]
  constructor
  · intro h
    have h1 : n / (Int.gcd n d : Int) = 0 := congrArg Qv.num h
    by_contra hn
    have hg : (Int.gcd n d : Int) ≠ 0 := by
      simp only [ne_eq, Int.natCast_eq_zero, Int.gcd_eq_zero_iff, not_and]
      intro h'
      exact absurd h' hn
    have hdl : ((Int.gcd n d : Nat) : Int) ∣ n := Int.gcd_dvd_left
    obtain ⟨k, hk⟩ := hdl
    have h2 : (Int.gcd n d : Int) * k / (Int.gcd n d : Int) = 0 := by
      rw [← hk]
      exact h1
    rw [Int.mul_ediv_cancel_left _ hg] at h2
    rw [h2, mul_zero] at hk
    exact hn hk
  · intro h
    subst h
    simp only [Qv.mk.injEq, Int.gcd_zero_left, Int.natAbs_of_nonneg (le_of_lt hd)]
    exact ⟨Int.zero_ediv _, Int.ediv_self hd0⟩

theorem Qv.norm_self_pos (k : Int) (hk : 0 < k) : Qv.norm k k = Qv.one := by
  have hk0 : k ≠ 0 := ne_of_gt hk
  have hkneg : ¬ k < 0 := not_lt.mpr (le_of_lt hk)
  simp only [Qv.norm, Qv.one, if_neg hk0, if_neg hkneg, Qv.mk.injEq,
    Int.gcd_self, Int.natAbs_of_nonneg (le_of_lt hk), Int.ediv_self hk0, and_self]

theorem string_eq_empty_iff (s : String) : s = "" ↔ s.data = [] := by
  constructor
  · intro h
    rw [h]
  · intro h
    have h2 : String.mk s.data = String.mk [] := congrArg String.mk h
    exact h2

theorem replaceCRLF_ne_nil (cs : List Char) (h : cs ≠ []) : replaceCRLF cs ≠ [] := by
  induction cs using replaceCRLF.induct with
  | case1 => exact absurd rfl h
  | case2 rest2 ih => simp [replaceCRLF]
  | case3 other hother ih => simp_all [replaceCRLF]
  | case4 c rest hc ih =>
    rw [replaceCRLF.eq_def]
    simp [hc]

theorem roundTo4_one : Qv.roundTo 4 Qv.one = Qv.one := by decide

theorem string_length_pos (s : String) (h : s ≠ "") : 0 < s.length := by
  have hd : s.data ≠ [] := fun hh => h ((string_eq_empty_iff s).mpr hh)
  exact List.length_pos.mpr hd

/-- Claim C4 (counterexample): for `old = "x\r\n"` and `new = "x\n"`
the two contents differ, yet the change ratio is 0 (both before and
after rounding), because `calculateDiff` normalises CRLF line endings
before diffing; so "changeRatio = 0 iff old equals new" fails as
stated. -/
theorem calculateDiffStats_zero_iff_fails :
    "x\r\n" ≠ "x\n" ∧
    (calculateDiffStats "x\r\n" "x\n").changeRatioQ = Qv.zero ∧
    rawChangeRatio "x\r\n" "x\n" = Qv.zero := by decide

/-- Claim C4 (amended): for every old/new pair, additions and deletions
are non-negative; the stored change ratio is
`(addedLength+removedLength)/max(1,newLength)` rounded to 4 decimal
digits; that quotient is 0 iff old and new are equal after CRLF
normalisation (not plain equality); and when old is empty and new is
not, `addedLength = newLength` and the ratio is 1. -/
theorem calculateDiffStats_spec (o n : String) :
    0 ≤ (calculateDiffStats o n).additions ∧
    0 ≤ (calculateDiffStats o n).deletions ∧
    (calculateDiffStats o n).changeRatioQ = Qv.roundTo 4 (rawChangeRatio o n) ∧
    (rawChangeRatio o n = Qv.zero ↔ replaceCRLF o.data = replaceCRLF n.data) ∧
    (o = "" → n ≠ "" →
      (calculateDiffStats o n).addedLength = n.length ∧
      (calculateDiffStats o n).changeRatioQ = Qv.one) := by
  refine ⟨Nat.zero_le _, Nat.zero_le _, rfl, ?_, ?_⟩
  · by_cases ho : o = ""
    · by_cases hn : n = ""
      · subst ho
        subst hn
        constructor
        · intro _
          rfl
        · intro _
          decide
      · subst ho
        have hparts : calculateDiff "" n = [⟨n, true, false⟩] := by
          unfold calculateDiff
          rw [if_neg (fun hh => hn hh.2), if_pos rfl]
        have hlen : 0 < n.length := string_length_pos n hn
        have htot : diffTotalLen n = n.length := by
          unfold diffTotalLen
          rw [if_neg (Nat.pos_iff_ne_zero.mp hlen)]
        have hraw : rawChangeRatio "" n = Qv.one := by
          unfold rawChangeRatio
          rw [hparts, htot]
          have ha : addedLen [⟨n, true, false⟩] = n.length := by
            simp [addedLen]
          have hr : removedLen [⟨n, true, false⟩] = 0 := by
            simp [removedLen]
          rw [ha, hr, Nat.add_zero]
          exact Qv.norm_self_pos _ (Int.natCast_pos.mpr hlen)
        rw [hraw]
        constructor
        · intro h
          exact absurd h (by decide)
        · intro h
          exfalso
          have hnd : n.data ≠ [] := fun hh => hn ((string_eq_empty_iff n).mpr hh)
          exact replaceCRLF_ne_nil n.data hnd (by
            rw [← h]
            rfl)
    · by_cases hn : n = ""
      · subst hn
        have hparts : calculateDiff o "" = [⟨o, false, true⟩] := by
          unfold calculateDiff
          rw [if_neg (fun hh => ho hh.1), if_neg ho, if_pos rfl]
        have hlen : 0 < o.length := string_length_pos o ho
        have hraw : rawChangeRatio o "" = Qv.norm (o.length : Int) 1 := by
          unfold rawChangeRatio
          rw [hparts]
          have ha : addedLen [⟨o, false, true⟩] = 0 := by
            simp [addedLen]
          have hr : removedLen [⟨o, false, true⟩] = o.length := by
            simp [removedLen]
          rw [ha, hr, Nat.zero_add]
          rfl
        rw [hraw]
        constructor
        · intro h
          have := (Qv.norm_eq_zero_iff (o.length : Int) 1 Int.one_pos).mp h
          have : o.length = 0 := by exact_mod_cast this
          omega
        · intro h
          exfalso
          have hod : o.data ≠ [] := fun hh => ho ((string_eq_empty_iff o).mpr hh)
          exact replaceCRLF_ne_nil o.data hod (by
            rw [h]
            rfl)
      · have hparts : calculateDiff o n =
            (diffTokens (splitWords (replaceCRLF o.data))
              (splitWords (replaceCRLF n.data))).map TokPart.toDiffPart := by
          unfold calculateDiff
          rw [if_neg (fun hh => ho hh.1), if_neg ho, if_neg hn]
        have hlen : 0 < n.length := string_length_pos n hn
        have htot : diffTotalLen n = n.length := by
          unfold diffTotalLen
          rw [if_neg (Nat.pos_iff_ne_zero.mp hlen)]
        have hraw : rawChangeRatio o n =
            Qv.norm ((changedLenT (diffTokens (splitWords (replaceCRLF o.data))
              (splitWords (replaceCRLF n.data))) : Nat) : Int) ((n.length : Nat) : Int) := by
          unfold rawChangeRatio
          rw [hparts, htot, addedLen_removedLen_map]
        rw [hraw]
        rw [Qv.norm_eq_zero_iff _ _ (Int.natCast_pos.mpr hlen)]
        rw [Int.natCast_eq_zero]
        exact changedLenT_diff_splitWords_zero_iff (replaceCRLF o.data) (replaceCRLF n.data)
  · intro ho hn
    subst ho
    have hparts : calculateDiff "" n = [⟨n, true, false⟩] := by
      unfold calculateDiff
      rw [if_neg (fun hh => hn hh.2), if_pos rfl]
    have hlen : 0 < n.length := string_length_pos n hn
    have htot : diffTotalLen n = n.length := by
      unfold diffTotalLen
      rw [if_neg (Nat.pos_iff_ne_zero.mp hlen)]
    have ha : addedLen [⟨n, true, false⟩] = n.length := by
      simp [addedLen]
    have hr : removedLen [⟨n, true, false⟩] = 0 := by
      simp [removedLen]
    have hraw : rawChangeRatio "" n = Qv.one := by
      unfold rawChangeRatio
      rw [hparts, htot, ha, hr, Nat.add_zero]
      exact Qv.norm_self_pos _ (Int.natCast_pos.mpr hlen)
    constructor
    · show addedLen (calculateDiff "" n) = n.length
      rw [hparts, ha]
    · show Qv.roundTo 4 (rawChangeRatio "" n) = Qv.one
      rw [hraw, roundTo4_one]

/-- Claim C4 (witness for the amended theorem): with empty old content
and new content `"abc"`, the added length is the new length and the
change ratio is 1. -/
theorem calculateDiffStats_spec_witness :
    (calculateDiffStats "" "abc").addedLength = "abc".length ∧
    (calculateDiffStats "" "abc").changeRatioQ = Qv.one :=
  (calculateDiffStats_spec "" "abc").2.2.2.2 rfl (by decide)

/-- Claim C9 (witness): on the concrete gondola scenario lists the
matcher pairs indices 0/0 and the one-to-one theorem applies, giving
range bounds and the 0.35 quote-overlap floor for that match. -/
theorem fallbackAnnotationMatches_one_to_one_witness :
    (⟨0, 0, "Quote overlap 100%, comment similarity 17%", Qv.one, Qv.norm 1 6⟩ :
        MatchRec).aIndex <
      ([⟨"the gondola drifted", "adds invented detail"⟩] : List AnnLite).length ∧
    (⟨0, 0, "Quote overlap 100%, comment similarity 17%", Qv.one, Qv.norm 1 6⟩ :
        MatchRec).bIndex <
      ([⟨"the gondola drifted slowly", "invents an extra detail"⟩] : List AnnLite).length ∧
    Qv.le (Qv.norm 7 20)
      (quoteOverlapScore
        ((([⟨"the gondola drifted", "adds invented detail"⟩] : List AnnLite).getD 0
          ⟨"", ""⟩).quote)
        ((([⟨"the gondola drifted slowly", "invents an extra detail"⟩] : List AnnLite).getD 0
          ⟨"", ""⟩).quote)) :=
  (fallbackAnnotationMatches_one_to_one
      [⟨"the gondola drifted", "adds invented detail"⟩]
      [⟨"the gondola drifted slowly", "invents an extra detail"⟩]).2.2.1
    ⟨0, 0, "Quote overlap 100%, comment similarity 17%", Qv.one, Qv.norm 1 6⟩
    (by decide)

/-! ### Claim C8: content recovery of the step-segment parser -/
/-- Claim C8 (counterexample): for the raw output
`"[[TEXT]]a[[/TEXT ]]b"` (a lenient-but-noncanonical closing tag,
accepted by the tag regex and untouched by normalisation), the parser
returns one segment `{thought := "", text := "a"}` and the non-tag
content `"b"` appears in no recovered segment: content following a
closing tag, outside any open region, is dropped whenever some segment
was recovered, so the no-content-loss clause fails. -/
theorem parseStepByStepSegments_loses_content :
    parseStepByStepSegments "[[TEXT]]a[[/TEXT ]]b" = [⟨"", "a"⟩] ∧
    ∀ seg ∈ parseStepByStepSegments "[[TEXT]]a[[/TEXT ]]b",
      includesStr seg.thought "b" = false ∧ includesStr seg.text "b" = false := by
  decide

theorem foldl_processTok_chunks (toks : List StepTok)
    (h : ∀ t ∈ toks, t.isChunk = true) :
    toks.foldl processTok PState.init = PState.init := by
  induction toks with
  | nil => rfl
  | cons t ts ih =>
    cases t with
    | chunk s =>
      show List.foldl processTok (processTok PState.init (.chunk s)) ts = _
      have hstep : processTok PState.init (.chunk s) = PState.init := rfl
      rw [hstep]
      exact ih fun t ht => h t (List.mem_cons_of_mem _ ht)
    | tag c th =>
      exact absurd (h _ (List.mem_cons_self _ ts)) (by simp [StepTok.isChunk])

/-- Claim C8 (amended): when the input is unparsable — tag
normalisation leaves it unchanged and the lenient scan recovers no tag
— the parser falls back to a single untraced text segment holding the
whole trimmed input (and to no segment at all when the input trims to
nothing).  The unqualified no-content-loss clause of the claim is
dropped: non-tag content outside any open thought/text region is
discarded whenever at least one segment is recovered. -/
theorem parseStepByStepSegments_fallback (s : String)
    (hnorm : normalizeStepTags s = s)
    (hchunks : ∀ t ∈ lexStepTags s.data, t.isChunk = true) :
    parseStepByStepSegments s =
      if (charTrim s.data).isEmpty then []
      else [⟨"", String.mk (charTrim s.data)⟩] := by
  unfold parseStepByStepSegments
  dsimp only
  rw [hnorm, foldl_processTok_chunks (lexStepTags s.data) hchunks]
  rw [show (if (!(charTrim PState.init.currentThought).isEmpty ||
      !(charTrim PState.init.currentText).isEmpty) = true then flushSegment PState.init
      else PState.init) = PState.init from rfl]
  by_cases htrim : (charTrim s.data).isEmpty = true
  · simp [htrim, PState.init]
  · simp [htrim, PState.init]

/-- Claim C8 (witness): a plain tag-free output falls back to one
untraced segment with the whole trimmed input. -/
theorem parseStepByStepSegments_fallback_witness :
    parseStepByStepSegments "hello venice" =
      if (charTrim "hello venice".data).isEmpty then []
      else [⟨"", String.mk (charTrim "hello venice".data)⟩] :=
  parseStepByStepSegments_fallback "hello venice" (by decide)
    (by decide)

theorem publishedNodes_append (a b : List Ev) :
    publishedNodes (a ++ b) = publishedNodes a ++ publishedNodes b := by
  unfold publishedNodes
  exact List.filterMap_append a b _

theorem publishedNodes_cons_status (rid : String) (s : RunStatus) (rest : List Ev) :
    publishedNodes (Ev.statusEv rid s :: rest) = publishedNodes rest := rfl

theorem publishedNodes_cons_call (r : OracleRole) (rest : List Ev) :
    publishedNodes (Ev.callEv r :: rest) = publishedNodes rest := rfl

theorem publishedNodes_cons_delay (rest : List Ev) :
    publishedNodes (Ev.delayEv :: rest) = publishedNodes rest := rfl

theorem publishedNodes_cons_publish (rid : String) (n : Node) (rest : List Ev) :
    publishedNodes (Ev.publishEv rid n :: rest) = n :: publishedNodes rest := rfl

theorem countCalls_append (r : OracleRole) (a b : List Ev) :
    countCalls r (a ++ b) = countCalls r a + countCalls r b := by
  unfold countCalls
  rw [List.filter_append, List.length_append]

theorem countRunning_append (a b : List Ev) :
    countRunning (a ++ b) = countRunning a + countRunning b := by
  unfold countRunning
  rw [List.filter_append, List.length_append]

theorem runGenerationStep_ok (env : OracleEnv) (cfg : ExperimentConfig)
    (runId runLabel : String) (prev : Option Node) (aIds : List String)
    (mo : Option GenerationMethod) (sn it : Nat) (st : St)
    (hg : (env.genReply st.genCalls).isSome = true)
    (he : (env.evalReply st.evalCalls).isSome = true) :
    ∃ nd st2,
      runGenerationStep env cfg runId runLabel prev aIds mo sn it st =
        ([Ev.callEv .generationO, Ev.delayEv, Ev.callEv .evaluationO, Ev.delayEv],
          some (nd, st2)) ∧
      nd.parentId = prev.map (·.id) ∧
      st2.genCalls = st.genCalls + 1 ∧ st2.evalCalls = st.evalCalls + 1 := by
  obtain ⟨gr, hgr⟩ := Option.isSome_iff_exists.mp hg
  obtain ⟨er, her⟩ := Option.isSome_iff_exists.mp he
  simp only [runGenerationStep, hgr, her]
  exact ⟨_, _, rfl, rfl, rfl, rfl⟩

theorem refineLoopAux_chain (env : OracleEnv) (cfg : ExperimentConfig)
    (runId runLabel : String) (aIds : List String) (hok : allOk env) :
    ∀ (k sn it : Nat) (current : Node) (st : St),
      (refineLoopAux env cfg runId runLabel aIds k sn it current st).2.isSome = true ∧
      (publishedNodes (refineLoopAux env cfg runId runLabel aIds k sn it current st).1).length
        = k ∧
      List.Chain' chainRel
        (current :: publishedNodes (refineLoopAux env cfg runId runLabel aIds k sn it current st).1) ∧
      (∀ rid n, Ev.publishEv rid n ∈
        (refineLoopAux env cfg runId runLabel aIds k sn it current st).1 → rid = runId) := by
  intro k
  induction k with
  | zero =>
    intro sn it current st
    refine ⟨rfl, rfl, ?_, ?_⟩
    · exact List.chain'_singleton current
    · intro rid n h
      exact absurd h (List.not_mem_nil _)
  | succ k ih =>
    intro sn it current st
    obtain ⟨nd, st2, hstep, hpar, _, _⟩ := runGenerationStep_ok env cfg runId runLabel
      (some current) aIds (some .refineLoop) (sn + 1) (it + 1) st
      (hok st.genCalls).1 (hok st.evalCalls).2
    show _ ∧ _ ∧ _ ∧ _
    rw [show refineLoopAux env cfg runId runLabel aIds (k + 1) sn it current st =
        ((runGenerationStep env cfg runId runLabel (some current) aIds
            (some .refineLoop) (sn + 1) (it + 1) st).1 ++ [Ev.publishEv runId nd] ++
          (refineLoopAux env cfg runId runLabel aIds k (sn + 1) (it + 1) nd st2).1,
        (refineLoopAux env cfg runId runLabel aIds k (sn + 1) (it + 1) nd st2).2) from by
      conv_lhs => rw [refineLoopAux]
      rw [hstep]]
    rw [hstep]
    obtain ⟨ih1, ih2, ih3, ih4⟩ := ih (sn + 1) (it + 1) nd st2
    refine ⟨ih1, ?_, ?_, ?_⟩
    · simp only [publishedNodes_append]
      rw [show publishedNodes [Ev.callEv .generationO, Ev.delayEv, Ev.callEv .evaluationO,
        Ev.delayEv] = [] from rfl]
      rw [show publishedNodes [Ev.publishEv runId nd] = [nd] from rfl]
      simp only [List.nil_append, List.length_append, List.length_singleton, ih2]
      omega
    · simp only [publishedNodes_append]
      rw [show publishedNodes [Ev.callEv .generationO, Ev.delayEv, Ev.callEv .evaluationO,
        Ev.delayEv] = [] from rfl]
      rw [show publishedNodes [Ev.publishEv runId nd] = [nd] from rfl]
      simp only [List.nil_append, List.singleton_append]
      exact List.Chain'.cons (by simpa [chainRel] using hpar) ih3
    · intro rid n h
      rcases List.mem_append.mp h with h1 | h2
      · rcases List.mem_append.mp h1 with h3 | h4
        · simp at h3
        · simp only [List.mem_singleton] at h4
          cases h4
          rfl
      · exact ih4 rid n h2

/-- Claim C1: a Convergence run with K iterations (all oracle calls
succeeding) publishes exactly K+1 nodes, all to that run, forming one
linear chain whose seed node has no parent; in particular K = 0 yields
one parentless node. -/
theorem executeRefinementLoop_chain (env : OracleEnv) (cfg : ExperimentConfig)
    (runId runLabel : String) (aIds : List String) (st : St) (hok : allOk env) :
    (executeRefinementLoop env cfg runId runLabel aIds st).2.isSome = true ∧
    (publishedNodes (executeRefinementLoop env cfg runId runLabel aIds st).1).length =
      cfg.iterations + 1 ∧
    (∀ n0 ∈ (publishedNodes (executeRefinementLoop env cfg runId runLabel aIds st).1).head?,
      n0.parentId = none) ∧
    List.Chain' chainRel
      (publishedNodes (executeRefinementLoop env cfg runId runLabel aIds st).1) ∧
    (∀ rid n, Ev.publishEv rid n ∈
      (executeRefinementLoop env cfg runId runLabel aIds st).1 → rid = runId) := by
  obtain ⟨seed, st1, hstep, hpar, _, _⟩ := runGenerationStep_ok env cfg runId runLabel
    none aIds (some .standard) 1 0 st (hok st.genCalls).1 (hok st.evalCalls).2
  rw [show executeRefinementLoop env cfg runId runLabel aIds st =
      ((runGenerationStep env cfg runId runLabel none aIds (some .standard) 1 0 st).1 ++
        [Ev.publishEv runId seed] ++
        (refineLoopAux env cfg runId runLabel aIds cfg.iterations 1 0 seed st1).1,
      (refineLoopAux env cfg runId runLabel aIds cfg.iterations 1 0 seed st1).2) from by
    conv_lhs => rw [executeRefinementLoop]
    rw [hstep]]
  rw [hstep]
  obtain ⟨h1, h2, h3, h4⟩ := refineLoopAux_chain env cfg runId runLabel aIds hok
    cfg.iterations 1 0 seed st1
  have hpub : publishedNodes
      ([Ev.callEv .generationO, Ev.delayEv, Ev.callEv .evaluationO, Ev.delayEv] ++
        [Ev.publishEv runId seed] ++
        (refineLoopAux env cfg runId runLabel aIds cfg.iterations 1 0 seed st1).1) =
      seed :: publishedNodes
        (refineLoopAux env cfg runId runLabel aIds cfg.iterations 1 0 seed st1).1 := by
    simp only [publishedNodes_append]
    rfl
  refine ⟨h1, ?_, ?_, ?_, ?_⟩
  · rw [hpub]
    simp only [List.length_cons, h2]
  · rw [hpub]
    intro n0 hn0
    simp only [List.head?_cons, Option.mem_def, Option.some.injEq] at hn0
    rw [← hn0]
    simpa using hpar
  · rw [hpub]
    exact h3
  · intro rid n h
    rcases List.mem_append.mp h with h1' | h2'
    · rcases List.mem_append.mp h1' with h3' | h4'
      · simp at h3'
      · simp only [List.mem_singleton] at h4'
        cases h4'
        rfl
    · exact h4 rid n h2'

/-- Claim C1 (witness): a concrete one-iteration convergence run with
an always-succeeding oracle. -/
theorem executeRefinementLoop_chain_witness :
    (executeRefinementLoop envOkW cfgConvW "rid1" "Convergence" ["r1"] ⟨0, 0, 0, 0⟩).2.isSome
      = true ∧
    (publishedNodes
      (executeRefinementLoop envOkW cfgConvW "rid1" "Convergence" ["r1"] ⟨0, 0, 0, 0⟩).1).length =
      cfgConvW.iterations + 1 ∧
    (∀ n0 ∈ (publishedNodes
        (executeRefinementLoop envOkW cfgConvW "rid1" "Convergence" ["r1"] ⟨0, 0, 0, 0⟩).1).head?,
      n0.parentId = none) ∧
    List.Chain' chainRel
      (publishedNodes
        (executeRefinementLoop envOkW cfgConvW "rid1" "Convergence" ["r1"] ⟨0, 0, 0, 0⟩).1) ∧
    (∀ rid n, Ev.publishEv rid n ∈
      (executeRefinementLoop envOkW cfgConvW "rid1" "Convergence" ["r1"] ⟨0, 0, 0, 0⟩).1 →
      rid = "rid1") :=
  executeRefinementLoop_chain envOkW cfgConvW "rid1" "Convergence" ["r1"] ⟨0, 0, 0, 0⟩
    (fun _ => ⟨rfl, rfl⟩)

theorem consistencyTextVariants_ok (env : OracleEnv) (cfg : ExperimentConfig)
    (hok : allOk env) :
    ∀ (k i : Nat) (acc : List RunDoc) (st : St),
      ∃ outputs st2,
        (consistencyTextVariants env cfg k i acc st).2 = some (outputs, st2) ∧
        outputs.length = acc.length + k ∧
        (∀ o ∈ outputs, o ∈ acc ∨ o.doc.parentId = none) ∧
        publishedNodes (consistencyTextVariants env cfg k i acc st).1 = [] := by
  intro k
  induction k with
  | zero =>
    intro i acc st
    exact ⟨acc, st, rfl, rfl, fun o ho => Or.inl ho, rfl⟩
  | succ k ih =>
    intro i acc st
    obtain ⟨doc, st1, hstep, hpar, _, _⟩ := runGenerationStep_ok env cfg
      (env.runIdFor ("Variant " ++ toString (i + 1)) i) ("Variant " ++ toString (i + 1))
      none cfg.activeResourceIds (some .standard) 1 0 st
      (hok st.genCalls).1 (hok st.evalCalls).2
    have heq : consistencyTextVariants env cfg (k + 1) i acc st =
        (Ev.statusEv (env.runIdFor ("Variant " ++ toString (i + 1)) i) .running ::
          [Ev.callEv .generationO, Ev.delayEv, Ev.callEv .evaluationO, Ev.delayEv] ++
          [Ev.statusEv (env.runIdFor ("Variant " ++ toString (i + 1)) i) .completed,
            Ev.delayEv] ++
          (consistencyTextVariants env cfg k (i + 1)
            (acc ++ [⟨"Variant " ++ toString (i + 1),
              env.runIdFor ("Variant " ++ toString (i + 1)) i, doc⟩]) st1).1,
        (consistencyTextVariants env cfg k (i + 1)
          (acc ++ [⟨"Variant " ++ toString (i + 1),
            env.runIdFor ("Variant " ++ toString (i + 1)) i, doc⟩]) st1).2) := by
      conv_lhs => rw [consistencyTextVariants]
      simp only [hstep]
    obtain ⟨outputs, st2, ih1, ih2, ih3, ih4⟩ := ih (i + 1)
      (acc ++ [⟨"Variant " ++ toString (i + 1),
        env.runIdFor ("Variant " ++ toString (i + 1)) i, doc⟩]) st1
    refine ⟨outputs, st2, ?_, ?_, ?_, ?_⟩
    · rw [heq]
      exact ih1
    · rw [ih2]
      simp only [List.length_append, List.length_singleton]
      omega
    · intro o ho
      rcases ih3 o ho with hmem | hnone
      · rcases List.mem_append.mp hmem with h1 | h2
        · exact Or.inl h1
        · simp only [List.mem_singleton] at h2
          subst h2
          right
          simpa using hpar
      · exact Or.inr hnone
    · rw [heq]
      simp only [List.cons_append, List.nil_append, publishedNodes_cons_status,
        publishedNodes_cons_call, publishedNodes_cons_delay]
      exact ih4

theorem mergeHighlights_preserves (annMap : List (String × List HlAnn)) :
    ∀ (l : List RunDoc) (u : Nat),
      (mergeHighlights annMap l u).1.length = l.length ∧
      ∀ o2 ∈ (mergeHighlights annMap l u).1, ∃ o ∈ l,
        o2.doc.parentId = o.doc.parentId ∧ o2.runId = o.runId ∧
        o2.doc.content = o.doc.content := by
  intro l
  induction l with
  | nil =>
    intro u
    exact ⟨rfl, fun o2 h => absurd h (List.not_mem_nil _)⟩
  | cons o rest ih =>
    intro u
    constructor
    · show (_ :: _ : List RunDoc).length = _
      simp only [List.length_cons]
      exact congrArg (· + 1) (ih _).1
    · intro o2 h2
      rcases List.mem_cons.mp h2 with h3 | h4
      · subst h3
        exact ⟨o, List.mem_cons_self o rest, rfl, rfl, rfl⟩
      · obtain ⟨o3, ho3, hprop⟩ := (ih _).2 o2 h4
        exact ⟨o3, List.mem_cons_of_mem o ho3, hprop⟩

theorem publishedNodes_map_publish (l : List RunDoc) :
    publishedNodes (l.map fun o => Ev.publishEv o.runId o.doc) = l.map (·.doc) := by
  induction l with
  | nil => rfl
  | cons o rest ih =>
    simp only [List.map_cons, publishedNodes_cons_publish, ih]

theorem reportPairsInner_textPairs_len (env : OracleEnv) (a : RunDoc) :
    ∀ (rest : List RunDoc) (st : St),
      (reportPairsInner env false a rest st).2.1.1.length = rest.length := by
  intro rest
  induction rest with
  | nil => intro st; rfl
  | cons b rest ih =>
    intro st
    rcases hc : compareAnnotationsM env (a.doc.anns.map annLite) (b.doc.anns.map annLite) st
      with ⟨ev1, cmp, st1⟩
    rcases hr : reportPairsInner env false a rest st1 with ⟨ev2, ⟨tps, aps, gps⟩, st2⟩
    have heq : reportPairsInner env false a (b :: rest) st =
        (ev1 ++ ev2, ([textPairMetric a b] ++ tps, annPairMetric a b cmp :: aps,
          gradeComparison a b :: gps), st2) := by
      conv_lhs => rw [reportPairsInner]
      rw [hc]
      dsimp only
      rw [hr]
      rfl
    rw [heq]
    have := ih st1
    rw [hr] at this
    simp only [List.singleton_append, List.length_cons] at this ⊢
    omega

theorem reportPairsOuter_textPairs_len (env : OracleEnv) :
    ∀ (runs : List RunDoc) (st : St),
      2 * (reportPairsOuter env false runs st).2.1.1.length =
        runs.length * (runs.length - 1) := by
  intro runs
  induction runs with
  | nil => intro st; rfl
  | cons a rest ih =>
    intro st
    rcases hi : reportPairsInner env false a rest st with ⟨ev1, ⟨tp1, ap1, gp1⟩, st1⟩
    rcases ho : reportPairsOuter env false rest st1 with ⟨ev2, ⟨tp2, ap2, gp2⟩, st2⟩
    have heq : reportPairsOuter env false (a :: rest) st =
        (ev1 ++ ev2, (tp1 ++ tp2, ap1 ++ ap2, gp1 ++ gp2), st2) := by
      conv_lhs => rw [reportPairsOuter]
      rw [hi]
      dsimp only
      rw [ho]
    rw [heq]
    have h1 := reportPairsInner_textPairs_len env a rest st
    rw [hi] at h1
    have h2 := ih st1
    rw [ho] at h2
    have hsq : ∀ n : Nat, (n + 1) * n = n * (n - 1) + 2 * n := by
      intro n
      cases n with
      | zero => rfl
      | succ m =>
        simp only [Nat.succ_sub_one]
        ring
    simp only [List.length_append, List.length_cons] at h1 h2 ⊢
    rw [Nat.add_sub_cancel, hsq rest.length]
    omega

theorem compareAnnotationsM_events (env : OracleEnv) (A B : List AnnLite) (st : St) :
    ∀ e ∈ (compareAnnotationsM env A B st).1, e = Ev.callEv .judgeO := by
  unfold compareAnnotationsM
  split
  · intro e he
    exact absurd he (List.not_mem_nil _)
  · intro e he
    simpa using he

theorem reportPairsInner_events (env : OracleEnv) (ao : Bool) (a : RunDoc) :
    ∀ (rest : List RunDoc) (st : St),
      ∀ e ∈ (reportPairsInner env ao a rest st).1, e = Ev.callEv .judgeO := by
  intro rest
  induction rest with
  | nil =>
    intro st e he
    exact absurd he (List.not_mem_nil _)
  | cons b rest ih =>
    intro st
    rcases hc : compareAnnotationsM env (a.doc.anns.map annLite) (b.doc.anns.map annLite) st
      with ⟨ev1, cmp, st1⟩
    rcases hr : reportPairsInner env ao a rest st1 with ⟨ev2, ⟨tps, aps, gps⟩, st2⟩
    have heq : (reportPairsInner env ao a (b :: rest) st).1 = ev1 ++ ev2 := by
      conv_lhs => rw [reportPairsInner]
      rw [hc]
      dsimp only
      rw [hr]
    rw [heq]
    intro e he
    rcases List.mem_append.mp he with h1 | h2
    · have := compareAnnotationsM_events env (a.doc.anns.map annLite)
        (b.doc.anns.map annLite) st
      rw [hc] at this
      exact this e h1
    · have := ih st1
      rw [hr] at this
      exact this e h2

theorem reportPairsOuter_events (env : OracleEnv) (ao : Bool) :
    ∀ (runs : List RunDoc) (st : St),
      ∀ e ∈ (reportPairsOuter env ao runs st).1, e = Ev.callEv .judgeO := by
  intro runs
  induction runs with
  | nil =>
    intro st e he
    exact absurd he (List.not_mem_nil _)
  | cons a rest ih =>
    intro st
    rcases hi : reportPairsInner env ao a rest st with ⟨ev1, ⟨tp1, ap1, gp1⟩, st1⟩
    rcases ho : reportPairsOuter env ao rest st1 with ⟨ev2, ⟨tp2, ap2, gp2⟩, st2⟩
    have heq : (reportPairsOuter env ao (a :: rest) st).1 = ev1 ++ ev2 := by
      conv_lhs => rw [reportPairsOuter]
      rw [hi]
      dsimp only
      rw [ho]
    rw [heq]
    intro e he
    rcases List.mem_append.mp he with h1 | h2
    · have := reportPairsInner_events env ao a rest st
      rw [hi] at this
      exact this e h1
    · have := ih st1
      rw [ho] at this
      exact this e h2

theorem publishedNodes_of_judge_calls (l : List Ev)
    (h : ∀ e ∈ l, e = Ev.callEv .judgeO) : publishedNodes l = [] := by
  induction l with
  | nil => rfl
  | cons e rest ih =>
    rw [h e (List.mem_cons_self e rest), publishedNodes_cons_call]
    exact ih fun e2 h2 => h e2 (List.mem_cons_of_mem e h2)

theorem countCalls_of_judge_calls (r : OracleRole) (hr : r ≠ .judgeO) (l : List Ev)
    (h : ∀ e ∈ l, e = Ev.callEv .judgeO) : countCalls r l = 0 := by
  induction l with
  | nil => rfl
  | cons e rest ih =>
    rw [h e (List.mem_cons_self e rest)]
    unfold countCalls
    rw [List.filter_cons]
    have : ¬ (Ev.callEv OracleRole.judgeO = Ev.callEv r) := by
      intro hh
      cases hh
      exact hr rfl
    simp only [decide_eq_true_eq, this, if_false, Bool.false_eq_true]
    exact ih fun e2 h2 => h e2 (List.mem_cons_of_mem e h2)

theorem buildConsistencyReport_parts (env : OracleEnv) (runs : List RunDoc)
    (b : Option RunDoc) (ao : Bool) (st : St) :
    (buildConsistencyReport env runs b ao st).2.1.textPairs =
      (reportPairsOuter env ao runs st).2.1.1 ∧
    (buildConsistencyReport env runs b ao st).1 = (reportPairsOuter env ao runs st).1 := by
  rcases h : reportPairsOuter env ao runs st with ⟨evs, ⟨tps, aps, gps⟩, st1⟩
  unfold buildConsistencyReport
  rw [h]
  exact ⟨rfl, rfl⟩

theorem publishedNodes_nil : publishedNodes ([] : List Ev) = [] := rfl

theorem commentaryM_events (env : OracleEnv) (report : ConsistencyReport) :
    ∀ e ∈ (generateConsistencyCommentaryM env report).1, e = Ev.callEv .commentaryO := by
  unfold generateConsistencyCommentaryM
  split
  · intro e he
    exact absurd he (List.not_mem_nil _)
  · intro e he
    simpa using he

theorem publishedNodes_of_call_events (l : List Ev)
    (h : ∀ e ∈ l, ∃ r0, e = Ev.callEv r0) : publishedNodes l = [] := by
  induction l with
  | nil => rfl
  | cons e rest ih =>
    obtain ⟨r0, hr0⟩ := h e (List.mem_cons_self e rest)
    rw [hr0, publishedNodes_cons_call]
    exact ih fun e2 h2 => h e2 (List.mem_cons_of_mem e h2)

/-- Claim C2: a ConsistencyText execution with every oracle call
succeeding yields a report with exactly `M(M-1)/2` pairwise text
metrics, publishes exactly `M` parentless single-step variant nodes,
and a requested variant count below 2 is clamped up to 2. -/
theorem runConsistencyText_spec (env : OracleEnv) (cfg : ExperimentConfig) (st : St)
    (hok : allOk env) (hty : cfg.etype = .consistencyText) :
    (runExperimentLoop env cfg st).2.isSome = true ∧
    (∀ rep, (runExperimentLoop env cfg st).2 = some rep →
      rep.textPairs.length = variantCount cfg * (variantCount cfg - 1) / 2) ∧
    (publishedNodes (runExperimentLoop env cfg st).1).length = variantCount cfg ∧
    (∀ n ∈ publishedNodes (runExperimentLoop env cfg st).1, n.parentId = none) ∧
    2 ≤ variantCount cfg ∧ (cfg.runCount < 2 → variantCount cfg = 2) := by
  have hd : runExperimentLoop env cfg st = runConsistencyText env cfg st := by
    unfold runExperimentLoop
    rw [hty]
  rw [hd]
  obtain ⟨outputs, stV, hv2, hlen, hparL, hpubV⟩ := consistencyTextVariants_ok env cfg hok
    (variantCount cfg) 0 [] st
  rcases hv : consistencyTextVariants env cfg (variantCount cfg) 0 [] st with ⟨evsV, ores⟩
  rw [hv] at hv2 hpubV
  dsimp only at hv2 hpubV
  subst hv2
  have hparOut : ∀ o ∈ outputs, o.doc.parentId = none := by
    intro o ho
    rcases hparL o ho with h1 | h2
    · exact absurd h1 (List.not_mem_nil _)
    · exact h2
  have hlenOut : outputs.length = variantCount cfg := by
    rw [hlen]
    simp
  have hbounds : 2 ≤ variantCount cfg ∧ (cfg.runCount < 2 → variantCount cfg = 2) := by
    constructor
    · exact Nat.le_max_left 2 _
    · intro h
      unfold variantCount
      split <;> omega
  have main : ∀ (outputs2 : List RunDoc) (st2 : St),
      outputs2.length = variantCount cfg →
      (∀ o ∈ outputs2, o.doc.parentId = none) →
      ∀ rep evC commentary,
        (generateConsistencyCommentaryM env
          (buildConsistencyReport env outputs2 outputs2.head? false st2).2.1) =
          (evC, commentary) →
        rep = { (buildConsistencyReport env outputs2 outputs2.head? false st2).2.1 with
          commentary := commentary } →
        (rep.textPairs.length = variantCount cfg * (variantCount cfg - 1) / 2 ∧
          (publishedNodes (evsV ++ [Ev.callEv .highlightO] ++
            (outputs2.map fun o => Ev.publishEv o.runId o.doc) ++
            (buildConsistencyReport env outputs2 outputs2.head? false st2).1 ++
            evC)).length = variantCount cfg ∧
          (∀ n ∈ publishedNodes (evsV ++ [Ev.callEv .highlightO] ++
            (outputs2.map fun o => Ev.publishEv o.runId o.doc) ++
            (buildConsistencyReport env outputs2 outputs2.head? false st2).1 ++
            evC), n.parentId = none)) := by
    intro outputs2 st2 hlen2 hpar2 rep evC commentary hcm hrep
    obtain ⟨hbtp, hbtr⟩ := buildConsistencyReport_parts env outputs2 outputs2.head? false st2
    have hpubR : publishedNodes (buildConsistencyReport env outputs2 outputs2.head? false st2).1
        = [] := by
      rw [hbtr]
      exact publishedNodes_of_judge_calls _ (reportPairsOuter_events env false outputs2 st2)
    have hpubC : publishedNodes evC = [] := by
      apply publishedNodes_of_call_events
      intro e he
      have := commentaryM_events env
        (buildConsistencyReport env outputs2 outputs2.head? false st2).2.1
      rw [hcm] at this
      exact ⟨_, this e he⟩
    have hpubAll : publishedNodes (evsV ++ [Ev.callEv .highlightO] ++
        (outputs2.map fun o => Ev.publishEv o.runId o.doc) ++
        (buildConsistencyReport env outputs2 outputs2.head? false st2).1 ++ evC) =
        outputs2.map (·.doc) := by
      simp only [publishedNodes_append, hpubV, hpubR, hpubC,
        publishedNodes_map_publish]
      simp [publishedNodes_cons_call, publishedNodes_nil]
    refine ⟨?_, ?_, ?_⟩
    · rw [hrep]
      show (buildConsistencyReport env outputs2 outputs2.head? false st2).2.1.textPairs.length = _
      rw [hbtp]
      have h2l := reportPairsOuter_textPairs_len env outputs2 st2
      rw [hlen2] at h2l
      omega
    · rw [hpubAll, List.length_map, hlen2]
    · rw [hpubAll]
      intro n hn
      obtain ⟨o, ho, hod⟩ := List.mem_map.mp hn
      rw [← hod]
      exact hpar2 o ho
  rcases hhl : env.highlightReply with _ | annMap
  · rcases hcm : generateConsistencyCommentaryM env
        (buildConsistencyReport env outputs outputs.head? false stV).2.1 with ⟨evC, commentary⟩
    have heq : runConsistencyText env cfg st =
        (evsV ++ [Ev.callEv .highlightO] ++
          (outputs.map fun o => Ev.publishEv o.runId o.doc) ++
          (buildConsistencyReport env outputs outputs.head? false stV).1 ++ evC,
        some { (buildConsistencyReport env outputs outputs.head? false stV).2.1 with
          commentary := commentary }) := by
      unfold runConsistencyText
      rw [hv]
      dsimp only
      rw [hhl]
      dsimp only
      rcases hbr : buildConsistencyReport env outputs outputs.head? false stV
        with ⟨evR, report, stR⟩
      rw [hbr] at hcm
      dsimp only at hcm ⊢
      rw [hcm]
    obtain ⟨c1, c2, c3⟩ := main outputs stV hlenOut hparOut _ evC commentary hcm rfl
    rw [heq]
    exact ⟨rfl, fun rep hrep => by cases hrep; exact c1, c2, c3, hbounds.1, hbounds.2⟩
  · rcases hmg : mergeHighlights annMap outputs stV.uuid with ⟨merged, u2⟩
    have hmgLen : merged.length = variantCount cfg := by
      have := (mergeHighlights_preserves annMap outputs stV.uuid).1
      rw [hmg] at this
      dsimp only at this
      rw [this, hlenOut]
    have hmgPar : ∀ o ∈ merged, o.doc.parentId = none := by
      intro o ho
      have := (mergeHighlights_preserves annMap outputs stV.uuid).2
      rw [hmg] at this
      obtain ⟨o0, ho0, hp, _, _⟩ := this o ho
      rw [hp]
      exact hparOut o0 ho0
    rcases hcm : generateConsistencyCommentaryM env
        (buildConsistencyReport env merged merged.head? false { stV with uuid := u2 }).2.1
      with ⟨evC, commentary⟩
    have heq : runConsistencyText env cfg st =
        (evsV ++ [Ev.callEv .highlightO] ++
          (merged.map fun o => Ev.publishEv o.runId o.doc) ++
          (buildConsistencyReport env merged merged.head? false { stV with uuid := u2 }).1 ++
          evC,
        some { (buildConsistencyReport env merged merged.head? false
          { stV with uuid := u2 }).2.1 with commentary := commentary }) := by
      unfold runConsistencyText
      rw [hv]
      dsimp only
      rw [hhl]
      dsimp only
      rw [hmg]
      dsimp only
      rcases hbr : buildConsistencyReport env merged merged.head? false
        { stV with uuid := u2 } with ⟨evR, report, stR⟩
      rw [hbr] at hcm
      dsimp only at hcm ⊢
      rw [hcm]
    obtain ⟨c1, c2, c3⟩ := main merged { stV with uuid := u2 } hmgLen hmgPar _ evC
      commentary hcm rfl
    rw [heq]
    exact ⟨rfl, fun rep hrep => by cases hrep; exact c1, c2, c3, hbounds.1, hbounds.2⟩

/-- Claim C2 (witness): a concrete ConsistencyText run with one
requested variant (clamped to 2) and an always-succeeding oracle. -/
theorem runConsistencyText_spec_witness :
    (runExperimentLoop envOkW cfgTextW ⟨0, 0, 0, 0⟩).2.isSome = true ∧
    (∀ rep, (runExperimentLoop envOkW cfgTextW ⟨0, 0, 0, 0⟩).2 = some rep →
      rep.textPairs.length = variantCount cfgTextW * (variantCount cfgTextW - 1) / 2) ∧
    (publishedNodes (runExperimentLoop envOkW cfgTextW ⟨0, 0, 0, 0⟩).1).length =
      variantCount cfgTextW ∧
    (∀ n ∈ publishedNodes (runExperimentLoop envOkW cfgTextW ⟨0, 0, 0, 0⟩).1,
      n.parentId = none) ∧
    2 ≤ variantCount cfgTextW ∧ (cfgTextW.runCount < 2 → variantCount cfgTextW = 2) :=
  runConsistencyText_spec envOkW cfgTextW ⟨0, 0, 0, 0⟩ (fun _ => ⟨rfl, rfl⟩) rfl

theorem countCalls_zero_of_all (r r0 : OracleRole) (hr : r ≠ r0) (l : List Ev)
    (h : ∀ e ∈ l, e = Ev.callEv r0) : countCalls r l = 0 := by
  induction l with
  | nil => rfl
  | cons e rest ih =>
    rw [h e (List.mem_cons_self e rest)]
    unfold countCalls
    rw [List.filter_cons]
    have hne : ¬ (Ev.callEv r0 = Ev.callEv r) := by
      intro hh
      cases hh
      exact hr rfl
    simp only [decide_eq_true_eq, hne, if_false, Bool.false_eq_true]
    exact ih fun e2 h2 => h e2 (List.mem_cons_of_mem e h2)

theorem annVariantDoc_props (cfg : ExperimentConfig) (base : Node) (er : EvalResult)
    (u : Nat) :
    (annVariantDoc cfg base er u).1.content = base.content ∧
    (annVariantDoc cfg base er u).1.parentId = some base.id ∧
    (annVariantDoc cfg base er u).1.tokenUsage = none := by
  rcases hma : materializeAnns "AI_EVALUATOR" er.cands (u + 1) with ⟨anns0, u2⟩
  unfold annVariantDoc
  rw [hma]
  exact ⟨rfl, rfl, rfl⟩

theorem consistencyAnnPasses_ok (env : OracleEnv) (cfg : ExperimentConfig) (base : Node) :
    ∀ (k i : Nat) (acc : List RunDoc) (st : St),
      ∃ newOnes st2,
        (consistencyAnnPasses env cfg base k i acc st).2 = (acc ++ newOnes, st2) ∧
        newOnes.length = k ∧
        (∀ o ∈ newOnes, o.doc.content = base.content ∧
          o.doc.parentId = some base.id ∧ o.doc.tokenUsage = none) ∧
        publishedNodes (consistencyAnnPasses env cfg base k i acc st).1 =
          newOnes.map (·.doc) ∧
        countCalls .generationO (consistencyAnnPasses env cfg base k i acc st).1 = 0 := by
  intro k
  induction k with
  | zero =>
    intro i acc st
    refine ⟨[], st, ?_, rfl, ?_, rfl, rfl⟩
    · simp [consistencyAnnPasses]
    · intro o ho
      exact absurd ho (List.not_mem_nil _)
  | succ k ih =>
    intro i acc st
    rcases hvd : annVariantDoc cfg base ((env.evalReply st.evalCalls).getD ⟨[], [], none⟩)
        st.uuid with ⟨annDoc, u2⟩
    have heq : consistencyAnnPasses env cfg base (k + 1) i acc st =
        ([Ev.statusEv (env.runIdFor ("Variant " ++ toString (i + 1)) i) .running,
          Ev.callEv .evaluationO,
          Ev.publishEv (env.runIdFor ("Variant " ++ toString (i + 1)) i) annDoc,
          Ev.statusEv (env.runIdFor ("Variant " ++ toString (i + 1)) i) .completed,
          Ev.delayEv] ++
          (consistencyAnnPasses env cfg base k (i + 1)
            (acc ++ [⟨"Variant " ++ toString (i + 1),
              env.runIdFor ("Variant " ++ toString (i + 1)) i, annDoc⟩])
            ⟨u2, st.genCalls, st.evalCalls + 1, st.judgeCalls⟩).1,
        (consistencyAnnPasses env cfg base k (i + 1)
          (acc ++ [⟨"Variant " ++ toString (i + 1),
            env.runIdFor ("Variant " ++ toString (i + 1)) i, annDoc⟩])
          ⟨u2, st.genCalls, st.evalCalls + 1, st.judgeCalls⟩).2) := by
      conv_lhs => rw [consistencyAnnPasses]
      simp only [hvd]
    obtain ⟨newOnes, st3, ih1, ih2, ih3, ih4, ih5⟩ := ih (i + 1)
      (acc ++ [⟨"Variant " ++ toString (i + 1),
        env.runIdFor ("Variant " ++ toString (i + 1)) i, annDoc⟩])
      ⟨u2, st.genCalls, st.evalCalls + 1, st.judgeCalls⟩
    refine ⟨⟨"Variant " ++ toString (i + 1),
        env.runIdFor ("Variant " ++ toString (i + 1)) i, annDoc⟩ :: newOnes, st3,
      ?_, ?_, ?_, ?_, ?_⟩
    · rw [heq]
      show (consistencyAnnPasses env cfg base k (i + 1) _ _).2 = _
      rw [ih1]
      simp
    · simp only [List.length_cons, ih2]
    · intro o ho
      rcases List.mem_cons.mp ho with h1 | h2
      · subst h1
        have hp := annVariantDoc_props cfg base
          ((env.evalReply st.evalCalls).getD ⟨[], [], none⟩) st.uuid
        rw [hvd] at hp
        exact hp
      · exact ih3 o h2
    · rw [heq, publishedNodes_append, ih4]
      rfl
    · rw [heq, countCalls_append, ih5]
      rfl

theorem countCalls_cons_status (r : OracleRole) (rid : String) (s : RunStatus)
    (l : List Ev) : countCalls r (Ev.statusEv rid s :: l) = countCalls r l := by
  unfold countCalls
  rw [List.filter_cons]
  simp

/-- Claim C10: in an annotation-consistency execution with every
oracle call succeeding, the generation oracle is called exactly once;
exactly `variantCount` nodes are published, each copying the base
document's content, pointing at the base document, and carrying no
token usage; and the base document itself is never published. -/
theorem runConsistencyAnn_spec (env : OracleEnv) (cfg : ExperimentConfig) (st : St)
    (hok : allOk env) (hty : cfg.etype = .consistencyAnn) :
    ∃ base : Node,
      (runExperimentLoop env cfg st).2.isSome = true ∧
      countCalls .generationO (runExperimentLoop env cfg st).1 = 1 ∧
      (publishedNodes (runExperimentLoop env cfg st).1).length = variantCount cfg ∧
      (∀ n ∈ publishedNodes (runExperimentLoop env cfg st).1,
        n.content = base.content ∧ n.parentId = some base.id ∧ n.tokenUsage = none) ∧
      base ∉ publishedNodes (runExperimentLoop env cfg st).1 := by
  have hd : runExperimentLoop env cfg st = runConsistencyAnn env cfg st := by
    unfold runExperimentLoop
    rw [hty]
  rw [hd]
  obtain ⟨base, st1, hstep, hpar, _, _⟩ := runGenerationStep_ok env cfg
    (env.runIdFor "Variant 1" 0) "Variant 1" none cfg.activeResourceIds
    (some .standard) 1 0 st (hok st.genCalls).1 (hok st.evalCalls).2
  obtain ⟨newOnes, st2, hp1, hp2, hp3, hp4, hp5⟩ := consistencyAnnPasses_ok env cfg base
    (variantCount cfg) 0 [] st1
  rcases hps : consistencyAnnPasses env cfg base (variantCount cfg) 0 [] st1
    with ⟨evs, outputs0, stp⟩
  rw [hps] at hp1 hp4 hp5
  dsimp only at hp1 hp4 hp5
  rw [List.nil_append] at hp1
  injection hp1 with hp1a hp1b
  rw [hp1a, hp1b] at hps
  rcases hbr : buildConsistencyReport env newOnes
      (newOnes.head?.map fun o => ⟨"Variant 1", o.runId, o.doc⟩) true st2
    with ⟨evR, report, stR⟩
  rcases hcm : generateConsistencyCommentaryM env report with ⟨evC, commentary⟩
  have hbparts := buildConsistencyReport_parts env newOnes
    (newOnes.head?.map fun o => ⟨"Variant 1", o.runId, o.doc⟩) true st2
  rw [hbr] at hbparts
  have hevR : ∀ e ∈ evR, e = Ev.callEv .judgeO := by
    intro e he
    have := reportPairsOuter_events env true newOnes st2
    rw [← hbparts.2] at this
    exact this e he
  have hevC : ∀ e ∈ evC, e = Ev.callEv .commentaryO := by
    intro e he
    have := commentaryM_events env report
    rw [hcm] at this
    exact this e he
  have heq : runConsistencyAnn env cfg st =
      (Ev.statusEv (env.runIdFor "Variant 1" 0) .running ::
        ([Ev.callEv .generationO, Ev.delayEv, Ev.callEv .evaluationO, Ev.delayEv] ++
          evs ++ evR ++ evC),
      some { report with commentary := commentary }) := by
    conv_lhs => rw [runConsistencyAnn]
    simp only [hstep]
    rw [hps]
    dsimp only
    rw [hbr]
    dsimp only
    rw [hcm]
    rfl
  rw [heq]
  have hpubTrace : publishedNodes
      (Ev.statusEv (env.runIdFor "Variant 1" 0) .running ::
        ([Ev.callEv .generationO, Ev.delayEv, Ev.callEv .evaluationO, Ev.delayEv] ++
          evs ++ evR ++ evC)) = newOnes.map (·.doc) := by
    rw [publishedNodes_cons_status]
    simp only [publishedNodes_append, hp4,
      publishedNodes_of_judge_calls evR hevR,
      publishedNodes_of_call_events evC fun e he => ⟨_, hevC e he⟩]
    rw [show publishedNodes [Ev.callEv .generationO, Ev.delayEv, Ev.callEv .evaluationO,
      Ev.delayEv] = [] from rfl]
    simp
  refine ⟨base, rfl, ?_, ?_, ?_, ?_⟩
  · rw [countCalls_cons_status]
    simp only [countCalls_append, hp5,
      countCalls_of_judge_calls .generationO (by intro hh; cases hh) evR hevR,
      countCalls_zero_of_all .generationO .commentaryO (by intro hh; cases hh) evC hevC]
    rfl
  · rw [hpubTrace, List.length_map, hp2]
  · rw [hpubTrace]
    intro n hn
    obtain ⟨o, ho, hod⟩ := List.mem_map.mp hn
    rw [← hod]
    exact hp3 o ho
  · rw [hpubTrace]
    intro hbase
    obtain ⟨o, ho, hod⟩ := List.mem_map.mp hbase
    have h1 := (hp3 o ho).2.1
    rw [hod] at h1
    have h2 : base.parentId = none := by simpa using hpar
    rw [h2] at h1
    exact Option.noConfusion h1

/-- Claim C10 (witness): a concrete ConsistencyAnnotation run with two
variants and an always-succeeding oracle. -/
theorem runConsistencyAnn_spec_witness :
    ∃ base : Node,
      (runExperimentLoop envOkW cfgAnnW ⟨0, 0, 0, 0⟩).2.isSome = true ∧
      countCalls .generationO (runExperimentLoop envOkW cfgAnnW ⟨0, 0, 0, 0⟩).1 = 1 ∧
      (publishedNodes (runExperimentLoop envOkW cfgAnnW ⟨0, 0, 0, 0⟩).1).length =
        variantCount cfgAnnW ∧
      (∀ n ∈ publishedNodes (runExperimentLoop envOkW cfgAnnW ⟨0, 0, 0, 0⟩).1,
        n.content = base.content ∧ n.parentId = some base.id ∧ n.tokenUsage = none) ∧
      base ∉ publishedNodes (runExperimentLoop envOkW cfgAnnW ⟨0, 0, 0, 0⟩).1 :=
  runConsistencyAnn_spec envOkW cfgAnnW ⟨0, 0, 0, 0⟩ (fun _ => ⟨rfl, rfl⟩) rfl

theorem countRunning_cons_running (rid : String) (l : List Ev) :
    countRunning (Ev.statusEv rid .running :: l) = countRunning l + 1 := by
  unfold countRunning
  rw [List.filter_cons]
  simp

theorem countRunning_cons_completed (rid : String) (l : List Ev) :
    countRunning (Ev.statusEv rid .completed :: l) = countRunning l := by
  unfold countRunning
  rw [List.filter_cons]
  simp

theorem countRunning_cons_call (r : OracleRole) (l : List Ev) :
    countRunning (Ev.callEv r :: l) = countRunning l := by
  unfold countRunning
  rw [List.filter_cons]
  simp

theorem countRunning_cons_delay (l : List Ev) :
    countRunning (Ev.delayEv :: l) = countRunning l := by
  unfold countRunning
  rw [List.filter_cons]
  simp

end FDHSim

namespace FDHSim

/-- Claim C3 (counterexample): oracle rejections that are caught.  In
the first run the judge and highlight calls reject, in the second
every evaluation call rejects; each execution still runs to completion
and returns a ConsistencyReport, and the evaluation-rejected run still
publishes both variant nodes. -/
theorem consistencyReport_despite_rejection :
    (envBadJW.judgeReply 0 = none ∧
      envBadJW.highlightReply = none ∧
      Ev.callEv .judgeO ∈ (runExperimentLoop envBadJW cfgTextW ⟨0, 0, 0, 0⟩).1 ∧
      Ev.callEv .highlightO ∈ (runExperimentLoop envBadJW cfgTextW ⟨0, 0, 0, 0⟩).1 ∧
      (runExperimentLoop envBadJW cfgTextW ⟨0, 0, 0, 0⟩).2.isSome = true) ∧
    (envBadEvalW.evalReply 0 = none ∧
      Ev.callEv .evaluationO ∈ (runExperimentLoop envBadEvalW cfgTextW ⟨0, 0, 0, 0⟩).1 ∧
      (runExperimentLoop envBadEvalW cfgTextW ⟨0, 0, 0, 0⟩).2.isSome = true ∧
      (publishedNodes (runExperimentLoop envBadEvalW cfgTextW ⟨0, 0, 0, 0⟩).1).length = 2) := by
  decide

/-- A successful generation call completes the whole step: the
evaluation failure handler never rejects. -/
theorem runGenerationStep_total (env : OracleEnv) (cfg : ExperimentConfig)
    (runId runLabel : String) (prev : Option Node) (aIds : List String)
    (mo : Option GenerationMethod) (sn it : Nat) (st : St)
    (hg : (env.genReply st.genCalls).isSome = true) :
    ∃ nd st2,
      runGenerationStep env cfg runId runLabel prev aIds mo sn it st =
        ([Ev.callEv .generationO, Ev.delayEv, Ev.callEv .evaluationO, Ev.delayEv],
          some (nd, st2)) ∧
      nd.parentId = prev.map (·.id) ∧
      st2.genCalls = st.genCalls + 1 ∧ st2.evalCalls = st.evalCalls + 1 := by
  obtain ⟨gr, hgr⟩ := Option.isSome_iff_exists.mp hg
  simp only [runGenerationStep, hgr]
  exact ⟨_, _, rfl, rfl, rfl, rfl⟩

theorem runGenerationStep_fail (env : OracleEnv) (cfg : ExperimentConfig)
    (runId runLabel : String) (prev : Option Node) (aIds : List String)
    (mo : Option GenerationMethod) (sn it : Nat) (st : St)
    (h : env.genReply st.genCalls = none) :
    (runGenerationStep env cfg runId runLabel prev aIds mo sn it st).2 = none ∧
    publishedNodes (runGenerationStep env cfg runId runLabel prev aIds mo sn it st).1 = [] ∧
    countRunning (runGenerationStep env cfg runId runLabel prev aIds mo sn it st).1 = 0 := by
  simp only [runGenerationStep, h]
  exact ⟨trivial, rfl, rfl⟩

theorem consistencyTextVariants_fail (env : OracleEnv) (cfg : ExperimentConfig) :
    ∀ (k rem i : Nat) (acc : List RunDoc) (st : St), k < rem →
      (∀ j < k, (env.genReply (st.genCalls + j)).isSome = true) →
      env.genReply (st.genCalls + k) = none →
      (consistencyTextVariants env cfg rem i acc st).2 = none ∧
      publishedNodes (consistencyTextVariants env cfg rem i acc st).1 = [] ∧
      countRunning (consistencyTextVariants env cfg rem i acc st).1 = k + 1 := by
  intro k
  induction k with
  | zero =>
    intro rem i acc st hlt hok hfail
    match rem, hlt with
    | r + 1, _ =>
      obtain ⟨hf1, hf2, hf3⟩ := runGenerationStep_fail env cfg
        (env.runIdFor ("Variant " ++ toString (i + 1)) i) ("Variant " ++ toString (i + 1))
        none cfg.activeResourceIds (some .standard) 1 0 st hfail
      rcases hrs : runGenerationStep env cfg
          (env.runIdFor ("Variant " ++ toString (i + 1)) i) ("Variant " ++ toString (i + 1))
          none cfg.activeResourceIds (some .standard) 1 0 st with ⟨ev, ores⟩
      rw [hrs] at hf1 hf2 hf3
      dsimp only at hf1 hf2 hf3
      subst hf1
      have heq : consistencyTextVariants env cfg (r + 1) i acc st =
          (Ev.statusEv (env.runIdFor ("Variant " ++ toString (i + 1)) i) .running :: ev,
            none) := by
        conv_lhs => rw [consistencyTextVariants]
        rw [hrs]
      rw [heq]
      refine ⟨rfl, ?_, ?_⟩
      · rw [publishedNodes_cons_status]
        exact hf2
      · rw [countRunning_cons_running, hf3]
  | succ k ihk =>
    intro rem i acc st hlt hok hfail
    match rem, hlt with
    | r + 1, hlt =>
      obtain ⟨doc, st1, hstep, hpar, hg1, he1⟩ := runGenerationStep_total env cfg
        (env.runIdFor ("Variant " ++ toString (i + 1)) i) ("Variant " ++ toString (i + 1))
        none cfg.activeResourceIds (some .standard) 1 0 st (hok 0 (Nat.succ_pos k))
      have heq : consistencyTextVariants env cfg (r + 1) i acc st =
          (Ev.statusEv (env.runIdFor ("Variant " ++ toString (i + 1)) i) .running ::
            [Ev.callEv .generationO, Ev.delayEv, Ev.callEv .evaluationO, Ev.delayEv] ++
            [Ev.statusEv (env.runIdFor ("Variant " ++ toString (i + 1)) i) .completed,
              Ev.delayEv] ++
            (consistencyTextVariants env cfg r (i + 1)
              (acc ++ [⟨"Variant " ++ toString (i + 1),
                env.runIdFor ("Variant " ++ toString (i + 1)) i, doc⟩]) st1).1,
          (consistencyTextVariants env cfg r (i + 1)
            (acc ++ [⟨"Variant " ++ toString (i + 1),
              env.runIdFor ("Variant " ++ toString (i + 1)) i, doc⟩]) st1).2) := by
        conv_lhs => rw [consistencyTextVariants]
        simp only [hstep]
      have hok1 : ∀ j < k, (env.genReply (st1.genCalls + j)).isSome = true := by
        intro j hj
        rw [show st1.genCalls + j = st.genCalls + (j + 1) from by omega]
        exact hok (j + 1) (by omega)
      have hfail1 : env.genReply (st1.genCalls + k) = none := by
        rw [show st1.genCalls + k = st.genCalls + (k + 1) from by omega]
        exact hfail
      obtain ⟨ih1, ih2, ih3⟩ := ihk r (i + 1)
        (acc ++ [⟨"Variant " ++ toString (i + 1),
          env.runIdFor ("Variant " ++ toString (i + 1)) i, doc⟩]) st1
        (by omega) hok1 hfail1
      refine ⟨?_, ?_, ?_⟩
      · rw [heq]
        exact ih1
      · rw [heq]
        simp only [List.cons_append, List.nil_append, publishedNodes_cons_status,
          publishedNodes_cons_call, publishedNodes_cons_delay]
        exact ih2
      · rw [heq]
        simp only [List.cons_append, List.nil_append, countRunning_cons_running,
          countRunning_cons_call, countRunning_cons_delay, countRunning_cons_completed,
          ih3]

theorem refineLoopAux_fail (env : OracleEnv) (cfg : ExperimentConfig)
    (runId runLabel : String) (aIds : List String) :
    ∀ (k rem sn it : Nat) (current : Node) (st : St), k < rem →
      (∀ j < k, (env.genReply (st.genCalls + j)).isSome = true) →
      env.genReply (st.genCalls + k) = none →
      (refineLoopAux env cfg runId runLabel aIds rem sn it current st).2 = none ∧
      (publishedNodes
        (refineLoopAux env cfg runId runLabel aIds rem sn it current st).1).length = k ∧
      List.Chain' chainRel (current ::
        publishedNodes (refineLoopAux env cfg runId runLabel aIds rem sn it current st).1) := by
  intro k
  induction k with
  | zero =>
    intro rem sn it current st hlt hok hfail
    match rem, hlt with
    | r + 1, _ =>
      obtain ⟨hf1, hf2, hf3⟩ := runGenerationStep_fail env cfg runId runLabel
        (some current) aIds (some .refineLoop) (sn + 1) (it + 1) st hfail
      rcases hrs : runGenerationStep env cfg runId runLabel (some current) aIds
          (some .refineLoop) (sn + 1) (it + 1) st with ⟨ev, ores⟩
      rw [hrs] at hf1 hf2
      dsimp only at hf1 hf2
      subst hf1
      have heq : refineLoopAux env cfg runId runLabel aIds (r + 1) sn it current st =
          (ev, none) := by
        conv_lhs => rw [refineLoopAux]
        rw [hrs]
      rw [heq]
      refine ⟨rfl, ?_, ?_⟩
      · rw [hf2]
        rfl
      · rw [hf2]
        exact List.chain'_singleton current
  | succ k ihk =>
    intro rem sn it current st hlt hok hfail
    match rem, hlt with
    | r + 1, hlt =>
      obtain ⟨nd, st2, hstep, hpar, hg1, he1⟩ := runGenerationStep_total env cfg runId
        runLabel (some current) aIds (some .refineLoop) (sn + 1) (it + 1) st
        (hok 0 (Nat.succ_pos k))
      have heq : refineLoopAux env cfg runId runLabel aIds (r + 1) sn it current st =
          ([Ev.callEv .generationO, Ev.delayEv, Ev.callEv .evaluationO, Ev.delayEv] ++
            [Ev.publishEv runId nd] ++
            (refineLoopAux env cfg runId runLabel aIds r (sn + 1) (it + 1) nd st2).1,
          (refineLoopAux env cfg runId runLabel aIds r (sn + 1) (it + 1) nd st2).2) := by
        conv_lhs => rw [refineLoopAux]
        simp only [hstep]
      have hok1 : ∀ j < k, (env.genReply (st2.genCalls + j)).isSome = true := by
        intro j hj
        rw [show st2.genCalls + j = st.genCalls + (j + 1) from by omega]
        exact hok (j + 1) (by omega)
      have hfail1 : env.genReply (st2.genCalls + k) = none := by
        rw [show st2.genCalls + k = st.genCalls + (k + 1) from by omega]
        exact hfail
      obtain ⟨ih1, ih2, ih3⟩ := ihk r (sn + 1) (it + 1) nd st2 (by omega) hok1 hfail1
      refine ⟨?_, ?_, ?_⟩
      · rw [heq]
        exact ih1
      · rw [heq]
        simp only [publishedNodes_append]
        rw [show publishedNodes [Ev.callEv .generationO, Ev.delayEv, Ev.callEv .evaluationO,
          Ev.delayEv] = [] from rfl]
        rw [show publishedNodes [Ev.publishEv runId nd] = [nd] from rfl]
        simp only [List.nil_append, List.length_append, List.length_singleton, ih2]
        omega
      · rw [heq]
        simp only [publishedNodes_append]
        rw [show publishedNodes [Ev.callEv .generationO, Ev.delayEv, Ev.callEv .evaluationO,
          Ev.delayEv] = [] from rfl]
        rw [show publishedNodes [Ev.publishEv runId nd] = [nd] from rfl]
        simp only [List.nil_append, List.singleton_append]
        exact List.Chain'.cons (by simpa [chainRel] using hpar) ih3

/-- Claim C3 (amended): a generation-oracle rejection aborts the
protocol (evaluation, highlight, judge and commentary rejections are
caught — see the counterexample).  After `k` successful generation
steps and a failing generation call, a ConsistencyText execution
yields no report, publishes nothing, and starts only `k + 1` of its
variants; a refinement chain yields no final state while the `k`
nodes already published before the failure are retained unchanged as
an intact chain (no rollback). -/
theorem oracleRejection_aborts (env : OracleEnv) (cfg : ExperimentConfig) (st : St) (k : Nat)
    (hok : ∀ j < k, (env.genReply (st.genCalls + j)).isSome = true)
    (hfail : env.genReply (st.genCalls + k) = none) :
    (cfg.etype = .consistencyText → k < variantCount cfg →
      (runExperimentLoop env cfg st).2 = none ∧
      publishedNodes (runExperimentLoop env cfg st).1 = [] ∧
      countRunning (runExperimentLoop env cfg st).1 = k + 1) ∧
    (∀ runId runLabel : String, ∀ aIds : List String, k ≤ cfg.iterations →
      (executeRefinementLoop env cfg runId runLabel aIds st).2 = none ∧
      (publishedNodes (executeRefinementLoop env cfg runId runLabel aIds st).1).length = k ∧
      List.Chain' chainRel
        (publishedNodes (executeRefinementLoop env cfg runId runLabel aIds st).1)) := by
  constructor
  · intro hty hk
    have hd : runExperimentLoop env cfg st = runConsistencyText env cfg st := by
      unfold runExperimentLoop
      rw [hty]
    rw [hd]
    obtain ⟨f1, f2, f3⟩ := consistencyTextVariants_fail env cfg k (variantCount cfg) 0 [] st
      hk hok hfail
    rcases hv : consistencyTextVariants env cfg (variantCount cfg) 0 [] st with ⟨evs, ores⟩
    rw [hv] at f1 f2 f3
    dsimp only at f1 f2 f3
    subst f1
    have heq : runConsistencyText env cfg st = (evs, none) := by
      conv_lhs => rw [runConsistencyText]
      rw [hv]
    rw [heq]
    exact ⟨rfl, f2, f3⟩
  · intro runId runLabel aIds hk
    cases k with
    | zero =>
      obtain ⟨hf1, hf2, hf3⟩ := runGenerationStep_fail env cfg runId runLabel none aIds
        (some .standard) 1 0 st hfail
      rcases hrs : runGenerationStep env cfg runId runLabel none aIds
          (some .standard) 1 0 st with ⟨ev, ores⟩
      rw [hrs] at hf1 hf2
      dsimp only at hf1 hf2
      subst hf1
      have heq : executeRefinementLoop env cfg runId runLabel aIds st = (ev, none) := by
        conv_lhs => rw [executeRefinementLoop]
        rw [hrs]
      rw [heq]
      refine ⟨rfl, ?_, ?_⟩
      · rw [hf2]
        rfl
      · rw [hf2]
        exact List.chain'_nil
    | succ k =>
      obtain ⟨seed, st1, hstep, hpar, hg1, he1⟩ := runGenerationStep_total env cfg runId
        runLabel none aIds (some .standard) 1 0 st (hok 0 (Nat.succ_pos k))
      have heq : executeRefinementLoop env cfg runId runLabel aIds st =
          ([Ev.callEv .generationO, Ev.delayEv, Ev.callEv .evaluationO, Ev.delayEv] ++
            [Ev.publishEv runId seed] ++
            (refineLoopAux env cfg runId runLabel aIds cfg.iterations 1 0 seed st1).1,
          (refineLoopAux env cfg runId runLabel aIds cfg.iterations 1 0 seed st1).2) := by
        conv_lhs => rw [executeRefinementLoop]
        simp only [hstep]
      have hok1 : ∀ j < k, (env.genReply (st1.genCalls + j)).isSome = true := by
        intro j hj
        rw [show st1.genCalls + j = st.genCalls + (j + 1) from by omega]
        exact hok (j + 1) (by omega)
      have hfail1 : env.genReply (st1.genCalls + k) = none := by
        rw [show st1.genCalls + k = st.genCalls + (k + 1) from by omega]
        exact hfail
      obtain ⟨ih1, ih2, ih3⟩ := refineLoopAux_fail env cfg runId runLabel aIds k
        cfg.iterations 1 0 seed st1 (by omega) hok1 hfail1
      refine ⟨?_, ?_, ?_⟩
      · rw [heq]
        exact ih1
      · rw [heq]
        simp only [publishedNodes_append]
        rw [show publishedNodes [Ev.callEv .generationO, Ev.delayEv, Ev.callEv .evaluationO,
          Ev.delayEv] = [] from rfl]
        rw [show publishedNodes [Ev.publishEv runId seed] = [seed] from rfl]
        simp only [List.nil_append, List.length_append, List.length_singleton, ih2]
        omega
      · rw [heq]
        simp only [publishedNodes_append]
        rw [show publishedNodes [Ev.callEv .generationO, Ev.delayEv, Ev.callEv .evaluationO,
          Ev.delayEv] = [] from rfl]
        rw [show publishedNodes [Ev.publishEv runId seed] = [seed] from rfl]
        simp only [List.nil_append, List.singleton_append]
        exact ih3

/-- Claim C3 (witness): with a generation oracle that rejects at once,
the ConsistencyText run yields no report, publishes nothing and starts
only its first variant, and a refinement chain yields no state and
publishes nothing. -/
theorem oracleRejection_aborts_witness :
    ((runExperimentLoop envGenFailW cfgTextW ⟨0, 0, 0, 0⟩).2 = none ∧
      publishedNodes (runExperimentLoop envGenFailW cfgTextW ⟨0, 0, 0, 0⟩).1 = [] ∧
      countRunning (runExperimentLoop envGenFailW cfgTextW ⟨0, 0, 0, 0⟩).1 = 0 + 1) ∧
    ((executeRefinementLoop envGenFailW cfgTextW "rid1" "Convergence" ["r1"]
        ⟨0, 0, 0, 0⟩).2 = none ∧
      (publishedNodes (executeRefinementLoop envGenFailW cfgTextW "rid1" "Convergence"
        ["r1"] ⟨0, 0, 0, 0⟩).1).length = 0 ∧
      List.Chain' chainRel (publishedNodes (executeRefinementLoop envGenFailW cfgTextW
        "rid1" "Convergence" ["r1"] ⟨0, 0, 0, 0⟩).1)) := by
  have h := oracleRejection_aborts envGenFailW cfgTextW ⟨0, 0, 0, 0⟩ 0
    (fun j hj => absurd hj (Nat.not_lt_zero j)) rfl
  exact ⟨h.1 rfl (by decide), h.2 "rid1" "Convergence" ["r1"] (by decide)⟩

end FDHSim

namespace FDHSim

theorem pacedAfter_cons_status (r : OracleRole) (rid : String) (s : RunStatus)
    (t : List Ev) : pacedAfter r (Ev.statusEv rid s :: t) = pacedAfter r t := by
  cases t <;> simp [pacedAfter]

theorem pacedAfter_cons_delay (r : OracleRole) (t : List Ev) :
    pacedAfter r (Ev.delayEv :: t) = pacedAfter r t := by
  cases t <;> simp [pacedAfter]

theorem pacedAfter_cons_publish (r : OracleRole) (rid : String) (n : Node) (t : List Ev) :
    pacedAfter r (Ev.publishEv rid n :: t) = pacedAfter r t := by
  cases t <;> simp [pacedAfter]

theorem pacedAfter_cons_call_other (r r0 : OracleRole) (h : r0 ≠ r) (t : List Ev) :
    pacedAfter r (Ev.callEv r0 :: t) = pacedAfter r t := by
  cases t <;> simp [pacedAfter, h]

theorem pacedAfter_cons_call_delay (r r0 : OracleRole) (t : List Ev) :
    pacedAfter r (Ev.callEv r0 :: Ev.delayEv :: t) = pacedAfter r (Ev.delayEv :: t) := by
  simp [pacedAfter]

theorem pacedAfter_calls_other (r r0 : OracleRole) (h : r0 ≠ r) (l : List Ev)
    (hl : ∀ e ∈ l, e = Ev.callEv r0) :
    ∀ rest, pacedAfter r (l ++ rest) = pacedAfter r rest := by
  induction l with
  | nil =>
    intro rest
    rfl
  | cons e es ih =>
    intro rest
    rw [hl e (List.mem_cons_self e es), List.cons_append, pacedAfter_cons_call_other r r0 h]
    exact ih (fun e2 h2 => hl e2 (List.mem_cons_of_mem e h2)) rest

theorem pacedAfter_publish_map (r : OracleRole) (l : List RunDoc) :
    ∀ rest, pacedAfter r ((l.map fun o => Ev.publishEv o.runId o.doc) ++ rest) =
      pacedAfter r rest := by
  induction l with
  | nil =>
    intro rest
    rfl
  | cons o os ih =>
    intro rest
    rw [List.map_cons, List.cons_append, pacedAfter_cons_publish]
    exact ih rest

theorem delayedPacedGo_cons_status (r : OracleRole) (p : Bool) (rid : String)
    (s : RunStatus) (t : List Ev) :
    delayedPacedGo r p (Ev.statusEv rid s :: t) = delayedPacedGo r p t := rfl

theorem delayedPacedGo_cons_delay (r : OracleRole) (p : Bool) (t : List Ev) :
    delayedPacedGo r p (Ev.delayEv :: t) = delayedPacedGo r false t := rfl

theorem delayedPacedGo_cons_publish (r : OracleRole) (p : Bool) (rid : String) (n : Node)
    (t : List Ev) :
    delayedPacedGo r p (Ev.publishEv rid n :: t) = delayedPacedGo r p t := rfl

theorem delayedPacedGo_cons_call_other (r r0 : OracleRole) (h : r0 ≠ r) (p : Bool)
    (t : List Ev) :
    delayedPacedGo r p (Ev.callEv r0 :: t) = delayedPacedGo r p t := by
  simp [delayedPacedGo, h]

theorem delayedPacedGo_cons_call_self (r : OracleRole) (p : Bool) (t : List Ev) :
    delayedPacedGo r p (Ev.callEv r :: t) = (!p && delayedPacedGo r true t) := by
  simp [delayedPacedGo]

theorem delayedPacedGo_calls_other (r r0 : OracleRole) (h : r0 ≠ r) (l : List Ev)
    (hl : ∀ e ∈ l, e = Ev.callEv r0) :
    ∀ (p : Bool) (rest : List Ev),
      delayedPacedGo r p (l ++ rest) = delayedPacedGo r p rest := by
  induction l with
  | nil =>
    intro p rest
    rfl
  | cons e es ih =>
    intro p rest
    rw [hl e (List.mem_cons_self e es), List.cons_append,
      delayedPacedGo_cons_call_other r r0 h]
    exact ih (fun e2 h2 => hl e2 (List.mem_cons_of_mem e h2)) p rest

end FDHSim

namespace FDHSim

theorem refineLoopAux_total (env : OracleEnv) (cfg : ExperimentConfig)
    (runId runLabel : String) (aIds : List String)
    (hok : ∀ n, (env.genReply n).isSome = true) :
    ∀ (k sn it : Nat) (current : Node) (st : St),
      (refineLoopAux env cfg runId runLabel aIds k sn it current st).2.isSome = true := by
  intro k
  induction k with
  | zero =>
    intro sn it current st
    rfl
  | succ k ih =>
    intro sn it current st
    obtain ⟨nd, st2, hstep, _, _, _⟩ := runGenerationStep_total env cfg runId runLabel
      (some current) aIds (some .refineLoop) (sn + 1) (it + 1) st (hok st.genCalls)
    have heq : (refineLoopAux env cfg runId runLabel aIds (k + 1) sn it current st).2 =
        (refineLoopAux env cfg runId runLabel aIds k (sn + 1) (it + 1) nd st2).2 := by
      conv_lhs => rw [refineLoopAux]
      simp only [hstep]
    rw [heq]
    exact ih (sn + 1) (it + 1) nd st2

theorem executeRefinementLoop_total (env : OracleEnv) (cfg : ExperimentConfig)
    (runId runLabel : String) (aIds : List String) (st : St)
    (hok : ∀ n, (env.genReply n).isSome = true) :
    (executeRefinementLoop env cfg runId runLabel aIds st).2.isSome = true := by
  obtain ⟨seed, st1, hstep, _, _, _⟩ := runGenerationStep_total env cfg runId runLabel
    none aIds (some .standard) 1 0 st (hok st.genCalls)
  have heq : (executeRefinementLoop env cfg runId runLabel aIds st).2 =
      (refineLoopAux env cfg runId runLabel aIds cfg.iterations 1 0 seed st1).2 := by
    conv_lhs => rw [executeRefinementLoop]
    simp only [hstep]
  rw [heq]
  exact refineLoopAux_total env cfg runId runLabel aIds hok cfg.iterations 1 0 seed st1

theorem executeStepByStep_total (env : OracleEnv) (cfg : ExperimentConfig)
    (runId runLabel : String) (aIds : List String) (st : St)
    (hok : ∀ n, (env.genReply n).isSome = true) :
    (executeStepByStep env cfg runId runLabel aIds st).2.isSome = true := by
  obtain ⟨nd, st1, hstep, _, _, _⟩ := runGenerationStep_total env cfg runId runLabel
    none aIds (some .stepByStep) 1 0 st (hok st.genCalls)
  have heq : (executeStepByStep env cfg runId runLabel aIds st).2 = some st1 := by
    conv_lhs => rw [executeStepByStep]
    simp only [hstep]
  rw [heq]
  rfl

theorem refineLoopAux_pacedAfter (env : OracleEnv) (cfg : ExperimentConfig)
    (runId runLabel : String) (aIds : List String) (r : OracleRole)
    (hok : ∀ n, (env.genReply n).isSome = true) :
    ∀ (k sn it : Nat) (current : Node) (st : St) (rest : List Ev),
      pacedAfter r ((refineLoopAux env cfg runId runLabel aIds k sn it current st).1 ++ rest)
        = pacedAfter r rest := by
  intro k
  induction k with
  | zero =>
    intro sn it current st rest
    rfl
  | succ k ih =>
    intro sn it current st rest
    obtain ⟨nd, st2, hstep, _, _, _⟩ := runGenerationStep_total env cfg runId runLabel
      (some current) aIds (some .refineLoop) (sn + 1) (it + 1) st (hok st.genCalls)
    have heq : (refineLoopAux env cfg runId runLabel aIds (k + 1) sn it current st).1 =
        [Ev.callEv .generationO, Ev.delayEv, Ev.callEv .evaluationO, Ev.delayEv] ++
          [Ev.publishEv runId nd] ++
          (refineLoopAux env cfg runId runLabel aIds k (sn + 1) (it + 1) nd st2).1 := by
      conv_lhs => rw [refineLoopAux]
      simp only [hstep]
    rw [heq]
    simp only [List.cons_append, List.nil_append]
    rw [pacedAfter_cons_call_delay, pacedAfter_cons_delay, pacedAfter_cons_call_delay,
      pacedAfter_cons_delay, pacedAfter_cons_publish]
    exact ih (sn + 1) (it + 1) nd st2 rest

theorem executeRefinementLoop_pacedAfter (env : OracleEnv) (cfg : ExperimentConfig)
    (runId runLabel : String) (aIds : List String) (r : OracleRole) (st : St)
    (hok : ∀ n, (env.genReply n).isSome = true) :
    ∀ rest : List Ev,
      pacedAfter r ((executeRefinementLoop env cfg runId runLabel aIds st).1 ++ rest) =
        pacedAfter r rest := by
  intro rest
  obtain ⟨seed, st1, hstep, _, _, _⟩ := runGenerationStep_total env cfg runId runLabel
    none aIds (some .standard) 1 0 st (hok st.genCalls)
  have heq : (executeRefinementLoop env cfg runId runLabel aIds st).1 =
      [Ev.callEv .generationO, Ev.delayEv, Ev.callEv .evaluationO, Ev.delayEv] ++
        [Ev.publishEv runId seed] ++
        (refineLoopAux env cfg runId runLabel aIds cfg.iterations 1 0 seed st1).1 := by
    conv_lhs => rw [executeRefinementLoop]
    simp only [hstep]
  rw [heq]
  simp only [List.cons_append, List.nil_append]
  rw [pacedAfter_cons_call_delay, pacedAfter_cons_delay, pacedAfter_cons_call_delay,
    pacedAfter_cons_delay, pacedAfter_cons_publish]
  exact refineLoopAux_pacedAfter env cfg runId runLabel aIds r hok cfg.iterations 1 0
    seed st1 rest

theorem executeStepByStep_pacedAfter (env : OracleEnv) (cfg : ExperimentConfig)
    (runId runLabel : String) (aIds : List String) (r : OracleRole) (st : St)
    (hok : ∀ n, (env.genReply n).isSome = true) :
    ∀ rest : List Ev,
      pacedAfter r ((executeStepByStep env cfg runId runLabel aIds st).1 ++ rest) =
        pacedAfter r rest := by
  intro rest
  obtain ⟨nd, st1, hstep, _, _, _⟩ := runGenerationStep_total env cfg runId runLabel
    none aIds (some .stepByStep) 1 0 st (hok st.genCalls)
  have heq : (executeStepByStep env cfg runId runLabel aIds st).1 =
      [Ev.callEv .generationO, Ev.delayEv, Ev.callEv .evaluationO, Ev.delayEv] ++
        [Ev.publishEv runId nd] := by
    conv_lhs => rw [executeStepByStep]
    simp only [hstep]
  rw [heq]
  simp only [List.cons_append, List.nil_append]
  rw [pacedAfter_cons_call_delay, pacedAfter_cons_delay, pacedAfter_cons_call_delay,
    pacedAfter_cons_delay, pacedAfter_cons_publish]

end FDHSim

namespace FDHSim

theorem convergenceRuns_pacedAfter (env : OracleEnv) (cfg : ExperimentConfig)
    (r : OracleRole) (hok : ∀ n, (env.genReply n).isSome = true) :
    ∀ (k i : Nat) (st : St) (rest : List Ev),
      pacedAfter r ((convergenceRuns env cfg k i st).1 ++ rest) = pacedAfter r rest := by
  intro k
  induction k with
  | zero =>
    intro i st rest
    rfl
  | succ k ih =>
    intro i st rest
    rcases hrl : executeRefinementLoop env cfg (env.runIdFor "Convergence" i) "Convergence"
        cfg.activeResourceIds st with ⟨ev, ores⟩
    have htot := executeRefinementLoop_total env cfg (env.runIdFor "Convergence" i)
      "Convergence" cfg.activeResourceIds st hok
    rw [hrl] at htot
    dsimp only at htot
    obtain ⟨st1, hst1⟩ := Option.isSome_iff_exists.mp htot
    subst hst1
    have heq : (convergenceRuns env cfg (k + 1) i st).1 =
        Ev.statusEv (env.runIdFor "Convergence" i) .running :: ev ++
          [Ev.statusEv (env.runIdFor "Convergence" i) .completed] ++
          (convergenceRuns env cfg k (i + 1) st1).1 := by
      conv_lhs => rw [convergenceRuns]
      rw [hrl]
    rw [heq]
    simp only [List.cons_append, List.nil_append, List.append_assoc]
    rw [pacedAfter_cons_status]
    have hev := executeRefinementLoop_pacedAfter env cfg (env.runIdFor "Convergence" i)
      "Convergence" cfg.activeResourceIds r st hok
      (Ev.statusEv (env.runIdFor "Convergence" i) .completed ::
        ((convergenceRuns env cfg k (i + 1) st1).1 ++ rest))
    rw [hrl] at hev
    dsimp only at hev
    rw [hev]
    rw [pacedAfter_cons_status]
    exact ih (i + 1) st1 rest

theorem customRuns_pacedAfter (env : OracleEnv) (cfg : ExperimentConfig)
    (r : OracleRole) (hok : ∀ n, (env.genReply n).isSome = true) :
    ∀ (k i : Nat) (st : St) (rest : List Ev),
      pacedAfter r ((customRuns env cfg k i st).1 ++ rest) = pacedAfter r rest := by
  intro k
  induction k with
  | zero =>
    intro i st rest
    rfl
  | succ k ih =>
    intro i st rest
    rcases hrl : executeRefinementLoop env cfg (env.runIdFor "Custom" i) "Custom"
        cfg.activeResourceIds st with ⟨ev, ores⟩
    have htot := executeRefinementLoop_total env cfg (env.runIdFor "Custom" i)
      "Custom" cfg.activeResourceIds st hok
    rw [hrl] at htot
    dsimp only at htot
    obtain ⟨st1, hst1⟩ := Option.isSome_iff_exists.mp htot
    subst hst1
    have heq : (customRuns env cfg (k + 1) i st).1 =
        Ev.statusEv (env.runIdFor "Custom" i) .running :: ev ++
          [Ev.statusEv (env.runIdFor "Custom" i) .completed] ++
          (customRuns env cfg k (i + 1) st1).1 := by
      conv_lhs => rw [customRuns]
      rw [hrl]
    rw [heq]
    simp only [List.cons_append, List.nil_append, List.append_assoc]
    rw [pacedAfter_cons_status]
    have hev := executeRefinementLoop_pacedAfter env cfg (env.runIdFor "Custom" i)
      "Custom" cfg.activeResourceIds r st hok
      (Ev.statusEv (env.runIdFor "Custom" i) .completed ::
        ((customRuns env cfg k (i + 1) st1).1 ++ rest))
    rw [hrl] at hev
    dsimp only at hev
    rw [hev]
    rw [pacedAfter_cons_status]
    exact ih (i + 1) st1 rest

end FDHSim

namespace FDHSim

theorem comparativeRuns_pacedAfter (env : OracleEnv) (cfg : ExperimentConfig)
    (r : OracleRole) (hok : ∀ n, (env.genReply n).isSome = true) :
    ∀ (k i : Nat) (st : St) (rest : List Ev),
      pacedAfter r ((comparativeRuns env cfg k i st).1 ++ rest) = pacedAfter r rest := by
  intro k
  induction k with
  | zero =>
    intro i st rest
    rfl
  | succ k ih =>
    intro i st rest
    rcases hA : executeStepByStep env cfg (env.runIdFor "Step-by-Step" i) "Step-by-Step"
        cfg.activeResourceIds st with ⟨evA, oresA⟩
    have htotA := executeStepByStep_total env cfg (env.runIdFor "Step-by-Step" i)
      "Step-by-Step" cfg.activeResourceIds st hok
    rw [hA] at htotA
    dsimp only at htotA
    obtain ⟨st1, hst1⟩ := Option.isSome_iff_exists.mp htotA
    subst hst1
    rcases hB : executeRefinementLoop env cfg (env.runIdFor "Refinement Loop" i)
        "Refinement Loop" cfg.activeResourceIds st1 with ⟨evB, oresB⟩
    have htotB := executeRefinementLoop_total env cfg (env.runIdFor "Refinement Loop" i)
      "Refinement Loop" cfg.activeResourceIds st1 hok
    rw [hB] at htotB
    dsimp only at htotB
    obtain ⟨st2, hst2⟩ := Option.isSome_iff_exists.mp htotB
    subst hst2
    have heq : (comparativeRuns env cfg (k + 1) i st).1 =
        Ev.statusEv (env.runIdFor "Step-by-Step" i) .running :: evA ++
          [Ev.statusEv (env.runIdFor "Step-by-Step" i) .completed] ++
          (Ev.statusEv (env.runIdFor "Refinement Loop" i) .running :: evB ++
            [Ev.statusEv (env.runIdFor "Refinement Loop" i) .completed]) ++
          (comparativeRuns env cfg k (i + 1) st2).1 := by
      conv_lhs => rw [comparativeRuns]
      rw [hA]
      dsimp only
      rw [hB]
    rw [heq]
    simp only [List.cons_append, List.nil_append, List.append_assoc]
    rw [pacedAfter_cons_status]
    have hevA := executeStepByStep_pacedAfter env cfg (env.runIdFor "Step-by-Step" i)
      "Step-by-Step" cfg.activeResourceIds r st hok
      (Ev.statusEv (env.runIdFor "Step-by-Step" i) .completed ::
        (Ev.statusEv (env.runIdFor "Refinement Loop" i) .running ::
          (evB ++ (Ev.statusEv (env.runIdFor "Refinement Loop" i) .completed ::
            ((comparativeRuns env cfg k (i + 1) st2).1 ++ rest)))))
    rw [hA] at hevA
    dsimp only at hevA
    rw [hevA]
    rw [pacedAfter_cons_status, pacedAfter_cons_status]
    have hevB := executeRefinementLoop_pacedAfter env cfg (env.runIdFor "Refinement Loop" i)
      "Refinement Loop" cfg.activeResourceIds r st1 hok
      (Ev.statusEv (env.runIdFor "Refinement Loop" i) .completed ::
        ((comparativeRuns env cfg k (i + 1) st2).1 ++ rest))
    rw [hB] at hevB
    dsimp only at hevB
    rw [hevB]
    rw [pacedAfter_cons_status]
    exact ih (i + 1) st2 rest

theorem ablationRuns_pacedAfter (env : OracleEnv) (cfg : ExperimentConfig)
    (r : OracleRole) (hok : ∀ n, (env.genReply n).isSome = true) :
    ∀ (k i : Nat) (st : St) (rest : List Ev),
      pacedAfter r ((ablationRuns env cfg k i st).1 ++ rest) = pacedAfter r rest := by
  intro k
  induction k with
  | zero =>
    intro i st rest
    rfl
  | succ k ih =>
    intro i st rest
    rcases hA : executeRefinementLoop env cfg (env.runIdFor "Full Context" i) "Full Context"
        cfg.activeResourceIds st with ⟨evA, oresA⟩
    have htotA := executeRefinementLoop_total env cfg (env.runIdFor "Full Context" i)
      "Full Context" cfg.activeResourceIds st hok
    rw [hA] at htotA
    dsimp only at htotA
    obtain ⟨st1, hst1⟩ := Option.isSome_iff_exists.mp htotA
    subst hst1
    rcases hB : executeRefinementLoop env cfg (env.runIdFor "Zero Context" i)
        "Zero Context" [] st1 with ⟨evB, oresB⟩
    have htotB := executeRefinementLoop_total env cfg (env.runIdFor "Zero Context" i)
      "Zero Context" [] st1 hok
    rw [hB] at htotB
    dsimp only at htotB
    obtain ⟨st2, hst2⟩ := Option.isSome_iff_exists.mp htotB
    subst hst2
    have heq : (ablationRuns env cfg (k + 1) i st).1 =
        Ev.statusEv (env.runIdFor "Full Context" i) .running :: evA ++
          [Ev.statusEv (env.runIdFor "Full Context" i) .completed] ++
          (Ev.statusEv (env.runIdFor "Zero Context" i) .running :: evB ++
            [Ev.statusEv (env.runIdFor "Zero Context" i) .completed]) ++
          (ablationRuns env cfg k (i + 1) st2).1 := by
      conv_lhs => rw [ablationRuns]
      rw [hA]
      dsimp only
      rw [hB]
    rw [heq]
    simp only [List.cons_append, List.nil_append, List.append_assoc]
    rw [pacedAfter_cons_status]
    have hevA := executeRefinementLoop_pacedAfter env cfg (env.runIdFor "Full Context" i)
      "Full Context" cfg.activeResourceIds r st hok
      (Ev.statusEv (env.runIdFor "Full Context" i) .completed ::
        (Ev.statusEv (env.runIdFor "Zero Context" i) .running ::
          (evB ++ (Ev.statusEv (env.runIdFor "Zero Context" i) .completed ::
            ((ablationRuns env cfg k (i + 1) st2).1 ++ rest)))))
    rw [hA] at hevA
    dsimp only at hevA
    rw [hevA]
    rw [pacedAfter_cons_status, pacedAfter_cons_status]
    have hevB := executeRefinementLoop_pacedAfter env cfg (env.runIdFor "Zero Context" i)
      "Zero Context" [] r st1 hok
      (Ev.statusEv (env.runIdFor "Zero Context" i) .completed ::
        ((ablationRuns env cfg k (i + 1) st2).1 ++ rest))
    rw [hB] at hevB
    dsimp only at hevB
    rw [hevB]
    rw [pacedAfter_cons_status]
    exact ih (i + 1) st2 rest

end FDHSim

namespace FDHSim

theorem consistencyTextVariants_pacedAfter (env : OracleEnv) (cfg : ExperimentConfig)
    (r : OracleRole) (hok : ∀ n, (env.genReply n).isSome = true) :
    ∀ (k i : Nat) (acc : List RunDoc) (st : St) (rest : List Ev),
      pacedAfter r ((consistencyTextVariants env cfg k i acc st).1 ++ rest) =
        pacedAfter r rest := by
  intro k
  induction k with
  | zero =>
    intro i acc st rest
    rfl
  | succ k ih =>
    intro i acc st rest
    obtain ⟨doc, st1, hstep, _, _, _⟩ := runGenerationStep_total env cfg
      (env.runIdFor ("Variant " ++ toString (i + 1)) i) ("Variant " ++ toString (i + 1))
      none cfg.activeResourceIds (some .standard) 1 0 st (hok st.genCalls)
    have heq : (consistencyTextVariants env cfg (k + 1) i acc st).1 =
        Ev.statusEv (env.runIdFor ("Variant " ++ toString (i + 1)) i) .running ::
          [Ev.callEv .generationO, Ev.delayEv, Ev.callEv .evaluationO, Ev.delayEv] ++
          [Ev.statusEv (env.runIdFor ("Variant " ++ toString (i + 1)) i) .completed,
            Ev.delayEv] ++
          (consistencyTextVariants env cfg k (i + 1)
            (acc ++ [⟨"Variant " ++ toString (i + 1),
              env.runIdFor ("Variant " ++ toString (i + 1)) i, doc⟩]) st1).1 := by
      conv_lhs => rw [consistencyTextVariants]
      simp only [hstep]
    rw [heq]
    simp only [List.cons_append, List.nil_append, List.append_assoc]
    rw [pacedAfter_cons_status, pacedAfter_cons_call_delay, pacedAfter_cons_delay,
      pacedAfter_cons_call_delay, pacedAfter_cons_delay, pacedAfter_cons_status,
      pacedAfter_cons_delay]
    exact ih (i + 1) _ st1 rest

theorem runConsistencyText_pacedAfter (env : OracleEnv) (cfg : ExperimentConfig)
    (st : St) (r : OracleRole) (hH : OracleRole.highlightO ≠ r)
    (hJ : OracleRole.judgeO ≠ r) (hC : OracleRole.commentaryO ≠ r)
    (hok : ∀ n, (env.genReply n).isSome = true) :
    pacedAfter r (runConsistencyText env cfg st).1 = true := by
  rcases hv : consistencyTextVariants env cfg (variantCount cfg) 0 [] st with ⟨evs, ores⟩
  have hevs : ∀ rest, pacedAfter r (evs ++ rest) = pacedAfter r rest := by
    intro rest
    have h := consistencyTextVariants_pacedAfter env cfg r hok (variantCount cfg) 0 [] st
      rest
    rw [hv] at h
    exact h
  rcases ores with _ | ⟨outputs, st1⟩
  · have heq : (runConsistencyText env cfg st).1 = evs := by
      conv_lhs => rw [runConsistencyText]
      rw [hv]
    rw [heq]
    have h := hevs []
    rw [List.append_nil] at h
    rw [h]
    rfl
  · rcases hhl : env.highlightReply with _ | annMap
    · rcases hbr : buildConsistencyReport env outputs outputs.head? false st1
        with ⟨evR, report, stR⟩
      rcases hcm : generateConsistencyCommentaryM env report with ⟨evC, commentary⟩
      have heq : (runConsistencyText env cfg st).1 =
          evs ++ [Ev.callEv .highlightO] ++
            (outputs.map fun o => Ev.publishEv o.runId o.doc) ++ evR ++ evC := by
        conv_lhs => rw [runConsistencyText]
        rw [hv]
        dsimp only
        rw [hhl]
        dsimp only
        rw [hbr]
        dsimp only
        rw [hcm]
      have hbparts := buildConsistencyReport_parts env outputs outputs.head? false st1
      rw [hbr] at hbparts
      have hevR : ∀ e ∈ evR, e = Ev.callEv .judgeO := by
        intro e he
        have := reportPairsOuter_events env false outputs st1
        rw [← hbparts.2] at this
        exact this e he
      have hevC : ∀ e ∈ evC, e = Ev.callEv .commentaryO := by
        intro e he
        have := commentaryM_events env report
        rw [hcm] at this
        exact this e he
      rw [heq]
      simp only [List.append_assoc]
      rw [hevs]
      rw [List.singleton_append, pacedAfter_cons_call_other r .highlightO hH]
      rw [pacedAfter_publish_map]
      rw [pacedAfter_calls_other r .judgeO hJ evR hevR]
      have h := pacedAfter_calls_other r .commentaryO hC evC hevC []
      rw [List.append_nil] at h
      rw [h]
      rfl
    · rcases hmg : mergeHighlights annMap outputs st1.uuid with ⟨merged, u2⟩
      rcases hbr : buildConsistencyReport env merged merged.head? false
          { st1 with uuid := u2 } with ⟨evR, report, stR⟩
      rcases hcm : generateConsistencyCommentaryM env report with ⟨evC, commentary⟩
      have heq : (runConsistencyText env cfg st).1 =
          evs ++ [Ev.callEv .highlightO] ++
            (merged.map fun o => Ev.publishEv o.runId o.doc) ++ evR ++ evC := by
        conv_lhs => rw [runConsistencyText]
        rw [hv]
        dsimp only
        rw [hhl]
        dsimp only
        rw [hmg]
        dsimp only
        rw [hbr]
        dsimp only
        rw [hcm]
      have hbparts := buildConsistencyReport_parts env merged merged.head? false
        { st1 with uuid := u2 }
      rw [hbr] at hbparts
      have hevR : ∀ e ∈ evR, e = Ev.callEv .judgeO := by
        intro e he
        have := reportPairsOuter_events env false merged { st1 with uuid := u2 }
        rw [← hbparts.2] at this
        exact this e he
      have hevC : ∀ e ∈ evC, e = Ev.callEv .commentaryO := by
        intro e he
        have := commentaryM_events env report
        rw [hcm] at this
        exact this e he
      rw [heq]
      simp only [List.append_assoc]
      rw [hevs]
      rw [List.singleton_append, pacedAfter_cons_call_other r .highlightO hH]
      rw [pacedAfter_publish_map]
      rw [pacedAfter_calls_other r .judgeO hJ evR hevR]
      have h := pacedAfter_calls_other r .commentaryO hC evC hevC []
      rw [List.append_nil] at h
      rw [h]
      rfl

end FDHSim

namespace FDHSim

theorem consistencyAnnPasses_pacedAfter (env : OracleEnv) (cfg : ExperimentConfig)
    (base : Node) (r : OracleRole) (hE : OracleRole.evaluationO ≠ r) :
    ∀ (k i : Nat) (acc : List RunDoc) (st : St) (rest : List Ev),
      pacedAfter r ((consistencyAnnPasses env cfg base k i acc st).1 ++ rest) =
        pacedAfter r rest := by
  intro k
  induction k with
  | zero =>
    intro i acc st rest
    rfl
  | succ k ih =>
    intro i acc st rest
    rcases hvd : annVariantDoc cfg base ((env.evalReply st.evalCalls).getD ⟨[], [], none⟩)
        st.uuid with ⟨annDoc, u2⟩
    have heq : (consistencyAnnPasses env cfg base (k + 1) i acc st).1 =
        [Ev.statusEv (env.runIdFor ("Variant " ++ toString (i + 1)) i) .running,
          Ev.callEv .evaluationO,
          Ev.publishEv (env.runIdFor ("Variant " ++ toString (i + 1)) i) annDoc,
          Ev.statusEv (env.runIdFor ("Variant " ++ toString (i + 1)) i) .completed,
          Ev.delayEv] ++
          (consistencyAnnPasses env cfg base k (i + 1)
            (acc ++ [⟨"Variant " ++ toString (i + 1),
              env.runIdFor ("Variant " ++ toString (i + 1)) i, annDoc⟩])
            ⟨u2, st.genCalls, st.evalCalls + 1, st.judgeCalls⟩).1 := by
      conv_lhs => rw [consistencyAnnPasses]
      simp only [hvd]
    rw [heq]
    simp only [List.cons_append, List.nil_append, List.append_assoc]
    rw [pacedAfter_cons_status, pacedAfter_cons_call_other r .evaluationO hE,
      pacedAfter_cons_publish, pacedAfter_cons_status, pacedAfter_cons_delay]
    exact ih (i + 1) _ ⟨u2, st.genCalls, st.evalCalls + 1, st.judgeCalls⟩ rest

theorem runConsistencyAnn_pacedAfter (env : OracleEnv) (cfg : ExperimentConfig)
    (st : St) (r : OracleRole) (hE : OracleRole.evaluationO ≠ r)
    (hJ : OracleRole.judgeO ≠ r) (hC : OracleRole.commentaryO ≠ r)
    (hok : ∀ n, (env.genReply n).isSome = true) :
    pacedAfter r (runConsistencyAnn env cfg st).1 = true := by
  obtain ⟨base, st1, hstep, _, _, _⟩ := runGenerationStep_total env cfg
    (env.runIdFor "Variant 1" 0) "Variant 1" none cfg.activeResourceIds
    (some .standard) 1 0 st (hok st.genCalls)
  rcases hps : consistencyAnnPasses env cfg base (variantCount cfg) 0 [] st1
    with ⟨evs, outputs, st2⟩
  rcases hbr : buildConsistencyReport env outputs
      (outputs.head?.map fun o => ⟨"Variant 1", o.runId, o.doc⟩) true st2
    with ⟨evR, report, stR⟩
  rcases hcm : generateConsistencyCommentaryM env report with ⟨evC, commentary⟩
  have heq : (runConsistencyAnn env cfg st).1 =
      Ev.statusEv (env.runIdFor "Variant 1" 0) .running ::
        ([Ev.callEv .generationO, Ev.delayEv, Ev.callEv .evaluationO, Ev.delayEv] ++
          evs ++ evR ++ evC) := by
    conv_lhs => rw [runConsistencyAnn]
    simp only [hstep]
    rw [hps]
    dsimp only
    rw [hbr]
    dsimp only
    rw [hcm]
    rfl
  have hbparts := buildConsistencyReport_parts env outputs
    (outputs.head?.map fun o => ⟨"Variant 1", o.runId, o.doc⟩) true st2
  rw [hbr] at hbparts
  have hevR : ∀ e ∈ evR, e = Ev.callEv .judgeO := by
    intro e he
    have := reportPairsOuter_events env true outputs st2
    rw [← hbparts.2] at this
    exact this e he
  have hevC : ∀ e ∈ evC, e = Ev.callEv .commentaryO := by
    intro e he
    have := commentaryM_events env report
    rw [hcm] at this
    exact this e he
  have hevs : ∀ rest, pacedAfter r (evs ++ rest) = pacedAfter r rest := by
    intro rest
    have h := consistencyAnnPasses_pacedAfter env cfg base r hE (variantCount cfg) 0 [] st1
      rest
    rw [hps] at h
    exact h
  rw [heq]
  simp only [List.cons_append, List.nil_append, List.append_assoc]
  rw [pacedAfter_cons_status, pacedAfter_cons_call_delay, pacedAfter_cons_delay,
    pacedAfter_cons_call_delay, pacedAfter_cons_delay]
  rw [hevs]
  rw [pacedAfter_calls_other r .judgeO hJ evR hevR]
  have h := pacedAfter_calls_other r .commentaryO hC evC hevC []
  rw [List.append_nil] at h
  rw [h]
  rfl

theorem consistencyAnnPasses_delayedPaced (env : OracleEnv) (cfg : ExperimentConfig)
    (base : Node) :
    ∀ (k i : Nat) (acc : List RunDoc) (st : St) (rest : List Ev),
      delayedPacedGo .evaluationO false
          ((consistencyAnnPasses env cfg base k i acc st).1 ++ rest) =
        delayedPacedGo .evaluationO false rest := by
  intro k
  induction k with
  | zero =>
    intro i acc st rest
    rfl
  | succ k ih =>
    intro i acc st rest
    rcases hvd : annVariantDoc cfg base ((env.evalReply st.evalCalls).getD ⟨[], [], none⟩)
        st.uuid with ⟨annDoc, u2⟩
    have heq : (consistencyAnnPasses env cfg base (k + 1) i acc st).1 =
        [Ev.statusEv (env.runIdFor ("Variant " ++ toString (i + 1)) i) .running,
          Ev.callEv .evaluationO,
          Ev.publishEv (env.runIdFor ("Variant " ++ toString (i + 1)) i) annDoc,
          Ev.statusEv (env.runIdFor ("Variant " ++ toString (i + 1)) i) .completed,
          Ev.delayEv] ++
          (consistencyAnnPasses env cfg base k (i + 1)
            (acc ++ [⟨"Variant " ++ toString (i + 1),
              env.runIdFor ("Variant " ++ toString (i + 1)) i, annDoc⟩])
            ⟨u2, st.genCalls, st.evalCalls + 1, st.judgeCalls⟩).1 := by
      conv_lhs => rw [consistencyAnnPasses]
      simp only [hvd]
    rw [heq]
    simp only [List.cons_append, List.nil_append, List.append_assoc]
    rw [delayedPacedGo_cons_status, delayedPacedGo_cons_call_self]
    simp only [Bool.not_false, Bool.true_and]
    rw [delayedPacedGo_cons_publish, delayedPacedGo_cons_status, delayedPacedGo_cons_delay]
    exact ih (i + 1) _ ⟨u2, st.genCalls, st.evalCalls + 1, st.judgeCalls⟩ rest

theorem runConsistencyAnn_delayedPaced (env : OracleEnv) (cfg : ExperimentConfig)
    (st : St) (hok : ∀ n, (env.genReply n).isSome = true) :
    delayedPaced .evaluationO (runConsistencyAnn env cfg st).1 = true := by
  obtain ⟨base, st1, hstep, _, _, _⟩ := runGenerationStep_total env cfg
    (env.runIdFor "Variant 1" 0) "Variant 1" none cfg.activeResourceIds
    (some .standard) 1 0 st (hok st.genCalls)
  rcases hps : consistencyAnnPasses env cfg base (variantCount cfg) 0 [] st1
    with ⟨evs, outputs, st2⟩
  rcases hbr : buildConsistencyReport env outputs
      (outputs.head?.map fun o => ⟨"Variant 1", o.runId, o.doc⟩) true st2
    with ⟨evR, report, stR⟩
  rcases hcm : generateConsistencyCommentaryM env report with ⟨evC, commentary⟩
  have heq : (runConsistencyAnn env cfg st).1 =
      Ev.statusEv (env.runIdFor "Variant 1" 0) .running ::
        ([Ev.callEv .generationO, Ev.delayEv, Ev.callEv .evaluationO, Ev.delayEv] ++
          evs ++ evR ++ evC) := by
    conv_lhs => rw [runConsistencyAnn]
    simp only [hstep]
    rw [hps]
    dsimp only
    rw [hbr]
    dsimp only
    rw [hcm]
    rfl
  have hbparts := buildConsistencyReport_parts env outputs
    (outputs.head?.map fun o => ⟨"Variant 1", o.runId, o.doc⟩) true st2
  rw [hbr] at hbparts
  have hevR : ∀ e ∈ evR, e = Ev.callEv .judgeO := by
    intro e he
    have := reportPairsOuter_events env true outputs st2
    rw [← hbparts.2] at this
    exact this e he
  have hevC : ∀ e ∈ evC, e = Ev.callEv .commentaryO := by
    intro e he
    have := commentaryM_events env report
    rw [hcm] at this
    exact this e he
  have hevs : ∀ rest, delayedPacedGo .evaluationO false (evs ++ rest) =
      delayedPacedGo .evaluationO false rest := by
    intro rest
    have h := consistencyAnnPasses_delayedPaced env cfg base (variantCount cfg) 0 [] st1
      rest
    rw [hps] at h
    exact h
  unfold delayedPaced
  rw [heq]
  simp only [List.cons_append, List.nil_append, List.append_assoc]
  rw [delayedPacedGo_cons_status,
    delayedPacedGo_cons_call_other .evaluationO .generationO (by intro hh; cases hh),
    delayedPacedGo_cons_delay, delayedPacedGo_cons_call_self]
  simp only [Bool.not_false, Bool.true_and]
  rw [delayedPacedGo_cons_delay]
  rw [hevs]
  rw [delayedPacedGo_calls_other .evaluationO .judgeO (by intro hh; cases hh) evR hevR]
  have h := delayedPacedGo_calls_other .evaluationO .commentaryO (by intro hh; cases hh)
    evC hevC false []
  rw [List.append_nil] at h
  rw [h]
  rfl

end FDHSim

namespace FDHSim

/-- Claim C5 (counterexample): oracle calls with no pacing delay after
them.  In a concrete ConsistencyText run the highlighting, judging and
commentary calls are not followed by a delay event, and in a concrete
ConsistencyAnnotation run the re-evaluation calls are not immediately
followed by one (the delay only comes after the variant is published),
refuting "a delay after every oracle call, regardless of protocol". -/
theorem pacing_violated :
    (Ev.callEv .highlightO ∈ (runExperimentLoop envBadJW cfgTextW ⟨0, 0, 0, 0⟩).1 ∧
      pacedAfter .highlightO (runExperimentLoop envBadJW cfgTextW ⟨0, 0, 0, 0⟩).1 = false) ∧
    (Ev.callEv .judgeO ∈ (runExperimentLoop envBadJW cfgTextW ⟨0, 0, 0, 0⟩).1 ∧
      pacedAfter .judgeO (runExperimentLoop envBadJW cfgTextW ⟨0, 0, 0, 0⟩).1 = false) ∧
    (Ev.callEv .commentaryO ∈ (runExperimentLoop envBadJW cfgTextW ⟨0, 0, 0, 0⟩).1 ∧
      pacedAfter .commentaryO (runExperimentLoop envBadJW cfgTextW ⟨0, 0, 0, 0⟩).1 = false) ∧
    (Ev.callEv .evaluationO ∈ (runExperimentLoop envOkW cfgAnnW ⟨0, 0, 0, 0⟩).1 ∧
      pacedAfter .evaluationO (runExperimentLoop envOkW cfgAnnW ⟨0, 0, 0, 0⟩).1 = false) := by
  decide

/-- Claim C5 (amended): with the generation calls succeeding, every
generation call is immediately followed by a blocking pacing delay in
every protocol; every evaluation call is immediately followed by one
in every protocol except ConsistencyAnnotation, whose re-evaluation
passes only pace after publishing the variant (one delay per
evaluation call, before the next); the highlighting, judging and
commentary calls are not paced at all (see the counterexample). -/
theorem pacing_spec (env : OracleEnv) (cfg : ExperimentConfig) (st : St)
    (hok : ∀ n, (env.genReply n).isSome = true) :
    pacedAfter .generationO (runExperimentLoop env cfg st).1 = true ∧
    (cfg.etype ≠ .consistencyAnn →
      pacedAfter .evaluationO (runExperimentLoop env cfg st).1 = true) ∧
    (cfg.etype = .consistencyAnn →
      delayedPaced .evaluationO (runExperimentLoop env cfg st).1 = true) := by
  rcases hty : cfg.etype
  case convergence =>
    have hd : runExperimentLoop env cfg st =
        ((convergenceRuns env cfg cfg.runCount 0 st).1, none) := by
      unfold runExperimentLoop
      rw [hty]
    have hp : ∀ r : OracleRole,
        pacedAfter r (convergenceRuns env cfg cfg.runCount 0 st).1 = true := by
      intro r
      have h := convergenceRuns_pacedAfter env cfg r hok cfg.runCount 0 st []
      rw [List.append_nil] at h
      rw [h]
      rfl
    refine ⟨?_, fun _ => ?_, fun h => ?_⟩
    · rw [hd]
      exact hp _
    · rw [hd]
      exact hp _
    · exact ExperimentType.noConfusion h
  case comparative =>
    have hd : runExperimentLoop env cfg st =
        ((comparativeRuns env cfg cfg.runCount 0 st).1, none) := by
      unfold runExperimentLoop
      rw [hty]
    have hp : ∀ r : OracleRole,
        pacedAfter r (comparativeRuns env cfg cfg.runCount 0 st).1 = true := by
      intro r
      have h := comparativeRuns_pacedAfter env cfg r hok cfg.runCount 0 st []
      rw [List.append_nil] at h
      rw [h]
      rfl
    refine ⟨?_, fun _ => ?_, fun h => ?_⟩
    · rw [hd]
      exact hp _
    · rw [hd]
      exact hp _
    · exact ExperimentType.noConfusion h
  case ablation =>
    have hd : runExperimentLoop env cfg st =
        ((ablationRuns env cfg cfg.runCount 0 st).1, none) := by
      unfold runExperimentLoop
      rw [hty]
    have hp : ∀ r : OracleRole,
        pacedAfter r (ablationRuns env cfg cfg.runCount 0 st).1 = true := by
      intro r
      have h := ablationRuns_pacedAfter env cfg r hok cfg.runCount 0 st []
      rw [List.append_nil] at h
      rw [h]
      rfl
    refine ⟨?_, fun _ => ?_, fun h => ?_⟩
    · rw [hd]
      exact hp _
    · rw [hd]
      exact hp _
    · exact ExperimentType.noConfusion h
  case custom =>
    have hd : runExperimentLoop env cfg st =
        ((customRuns env cfg cfg.runCount 0 st).1, none) := by
      unfold runExperimentLoop
      rw [hty]
    have hp : ∀ r : OracleRole,
        pacedAfter r (customRuns env cfg cfg.runCount 0 st).1 = true := by
      intro r
      have h := customRuns_pacedAfter env cfg r hok cfg.runCount 0 st []
      rw [List.append_nil] at h
      rw [h]
      rfl
    refine ⟨?_, fun _ => ?_, fun h => ?_⟩
    · rw [hd]
      exact hp _
    · rw [hd]
      exact hp _
    · exact ExperimentType.noConfusion h
  case consistencyText =>
    have hd : runExperimentLoop env cfg st = runConsistencyText env cfg st := by
      unfold runExperimentLoop
      rw [hty]
    refine ⟨?_, fun _ => ?_, fun h => ?_⟩
    · rw [hd]
      exact runConsistencyText_pacedAfter env cfg st .generationO
        (by intro hh; cases hh) (by intro hh; cases hh) (by intro hh; cases hh) hok
    · rw [hd]
      exact runConsistencyText_pacedAfter env cfg st .evaluationO
        (by intro hh; cases hh) (by intro hh; cases hh) (by intro hh; cases hh) hok
    · exact ExperimentType.noConfusion h
  case consistencyAnn =>
    have hd : runExperimentLoop env cfg st = runConsistencyAnn env cfg st := by
      unfold runExperimentLoop
      rw [hty]
    refine ⟨?_, fun h => ?_, fun _ => ?_⟩
    · rw [hd]
      exact runConsistencyAnn_pacedAfter env cfg st .generationO
        (by intro hh; cases hh) (by intro hh; cases hh) (by intro hh; cases hh) hok
    · exact absurd rfl h
    · rw [hd]
      exact runConsistencyAnn_delayedPaced env cfg st hok

/-- Claim C5 (witness): the amended pacing facts at a concrete
ConsistencyText run and a concrete ConsistencyAnnotation run. -/
theorem pacing_spec_witness :
    (pacedAfter .generationO (runExperimentLoop envOkW cfgTextW ⟨0, 0, 0, 0⟩).1 = true ∧
      (cfgTextW.etype ≠ .consistencyAnn →
        pacedAfter .evaluationO (runExperimentLoop envOkW cfgTextW ⟨0, 0, 0, 0⟩).1 = true) ∧
      (cfgTextW.etype = .consistencyAnn →
        delayedPaced .evaluationO (runExperimentLoop envOkW cfgTextW ⟨0, 0, 0, 0⟩).1
          = true)) ∧
    (pacedAfter .generationO (runExperimentLoop envOkW cfgAnnW ⟨0, 0, 0, 0⟩).1 = true ∧
      (cfgAnnW.etype ≠ .consistencyAnn →
        pacedAfter .evaluationO (runExperimentLoop envOkW cfgAnnW ⟨0, 0, 0, 0⟩).1 = true) ∧
      (cfgAnnW.etype = .consistencyAnn →
        delayedPaced .evaluationO (runExperimentLoop envOkW cfgAnnW ⟨0, 0, 0, 0⟩).1
          = true)) :=
  ⟨pacing_spec envOkW cfgTextW ⟨0, 0, 0, 0⟩ (fun _ => rfl),
   pacing_spec envOkW cfgAnnW ⟨0, 0, 0, 0⟩ (fun _ => rfl)⟩

end FDHSim
